import Mathlib

/-!
Verification of the iterative itinerary-generation core of the
`ai-travel-planner` repository: the day-block partition function, the
generation orchestrator state machine, JSON extraction and repair of LLM
output, the activity-category normalizer, and JSON persistence of planner
sessions.

Python functions are shallowly embedded as Lean functions; exceptions
raised by the LLM agent are modelled as `Except` results of agent
oracles; the orchestrator generator is modelled as a function returning
the list of yielded progress snapshots together with the trace of
day-block calls it issued.
-/

namespace TravelPlanner

/-! ### Day-block partition (agents/base.py `calculate_day_blocks` and the
block computation in services/itinerary_generator.py `_generate_days`).

Python:
```
blocks = []
for start in range(start_from_day, total_days + 1, block_size):
    end = min(start + block_size - 1, total_days)
    blocks.append((start, end))
```
`range(a, b, step)` with `step ≥ 1` is the arithmetic sequence starting at
`a` with `(b - a + step - 1) / step` terms (truncated subtraction), which is
`List.range'`; the loop body is a map over it. -/

def blocksFrom (start total_days block_size : Nat) : List (Nat × Nat) :=
  (List.range' start ((total_days + 1 - start + block_size - 1) / block_size) block_size).map
    (fun s => (s, min (s + block_size - 1) total_days))

/-- `TravelAgent.calculate_day_blocks`: the same loop starting at day 1. -/
def calculate_day_blocks (total_days : Nat) (block_size : Nat := 3) : List (Nat × Nat) :=
  blocksFrom 1 total_days block_size

/-! ### JSON values (the Python `json` module, restricted to the shapes the
planner produces: numbers are integers; floats are outside the embedding). -/

inductive Json where
  | null
  | bool (b : Bool)
  | num (n : Int)
  | str (s : String)
  | arr (elems : List Json)
  | obj (members : List (String × Json))

/-- Python whitespace (`str.strip`, regex `\s`), ASCII part. -/
def isPyWs (c : Char) : Bool :=
  c = ' ' || c = '\t' || c = '\n' || c = '\r' || c = '\x0b' || c = '\x0c'

/-- `str.strip()` on a character list. -/
def pyStripL (l : List Char) : List Char :=
  ((l.dropWhile isPyWs).reverse.dropWhile isPyWs).reverse

/-- `str.strip()`. -/
def pyStrip (s : String) : String := String.mk (pyStripL s.data)

/-- Lower-case hexadecimal digit for `n < 16`. -/
def hexDigitChar (n : Nat) : Char :=
  if n < 10 then Char.ofNat ('0'.toNat + n) else Char.ofNat ('a'.toNat + n - 10)

/-- `json.dumps` escaping of one character inside a string literal. -/
def escChar (c : Char) : List Char :=
  if c = '"' then ['\\', '"']
  else if c = '\\' then ['\\', '\\']
  else if c = '\n' then ['\\', 'n']
  else if c = '\t' then ['\\', 't']
  else if c = '\r' then ['\\', 'r']
  else if c.toNat < 32 then
    ['\\', 'u', '0', '0', hexDigitChar (c.toNat / 16), hexDigitChar (c.toNat % 16)]
  else [c]

/-- A JSON string literal for `s`, with quotes. -/
def jquote (s : String) : List Char := '"' :: (s.data.flatMap escChar ++ ['"'])

/-- Decimal digits of `n`, most significant first (fuel-structural so it
reduces in the kernel; `fuel > n` suffices). -/
def natDigitsGo : Nat → Nat → List Char → List Char
  | 0, _, acc => acc
  | fuel + 1, n, acc =>
    if n < 10 then Char.ofNat ('0'.toNat + n) :: acc
    else natDigitsGo fuel (n / 10) (Char.ofNat ('0'.toNat + n % 10) :: acc)

def natChars (n : Nat) : List Char := natDigitsGo (n + 1) n []

/-- `repr` of a Python int: optional minus sign then decimal digits. -/
def intChars (i : Int) : List Char :=
  (if i < 0 then ['-'] else []) ++ natChars i.natAbs

mutual

/-- `json.dumps` with the default separators `", "` and `": "`. -/
def jdumpL : Json → List Char
  | .null => 'n' :: 'u' :: 'l' :: 'l' :: []
  | .bool true => 't' :: 'r' :: 'u' :: 'e' :: []
  | .bool false => 'f' :: 'a' :: 'l' :: 's' :: 'e' :: []
  | .num n => intChars n
  | .str s => jquote s
  | .arr es => '[' :: (jdumpElems es ++ [']'])
  | .obj ms => '\x7b' :: (jdumpMembers ms ++ ['\x7d'])

def jdumpElems : List Json → List Char
  | [] => []
  | [e] => jdumpL e
  | e :: e' :: es => jdumpL e ++ ',' :: ' ' :: jdumpElems (e' :: es)

def jdumpMembers : List (String × Json) → List Char
  | [] => []
  | [(k, v)] => jquote k ++ ':' :: ' ' :: jdumpL v
  | (k, v) :: m :: ms => jquote k ++ ':' :: ' ' :: jdumpL v ++ ',' :: ' ' :: jdumpMembers (m :: ms)

end

def jdump (j : Json) : String := String.mk (jdumpL j)

/-! ### `json.loads`: a strict JSON parser. Whitespace is the four JSON
whitespace characters; trailing commas, missing quotes and leading zeros are
rejected; numbers are integers (a fraction or exponent part is outside the
embedding and rejected); literal control characters inside strings are
rejected (`strict=True`). -/

def isJsonWs (c : Char) : Bool := c = ' ' || c = '\t' || c = '\n' || c = '\r'

def jskipWs : List Char → List Char
  | c :: cs => if isJsonWs c then jskipWs cs else c :: cs
  | [] => []

def isDigitChar (c : Char) : Bool := '0' ≤ c && c ≤ '9'

def hexNat? (c : Char) : Option Nat :=
  if isDigitChar c then some (c.toNat - 48)
  else if 'a' ≤ c && c ≤ 'f' then some (c.toNat - 87)
  else if 'A' ≤ c && c ≤ 'F' then some (c.toNat - 55)
  else none

def escUnquote? (c : Char) : Option Char :=
  if c = '"' then some '"'
  else if c = '\\' then some '\\'
  else if c = '/' then some '/'
  else if c = 'n' then some '\n'
  else if c = 't' then some '\t'
  else if c = 'r' then some '\r'
  else if c = 'b' then some '\x08'
  else if c = 'f' then some '\x0c'
  else none

/-- Parse the body of a string literal (after the opening quote), unescaping. -/
def jparseStrGo (acc : List Char) : List Char → Option (String × List Char)
  | '"' :: rest => some (String.mk acc.reverse, rest)
  | '\\' :: 'u' :: h1 :: h2 :: h3 :: h4 :: rest =>
    match hexNat? h1, hexNat? h2, hexNat? h3, hexNat? h4 with
    | some a, some b, some c, some d =>
      jparseStrGo (Char.ofNat (((a * 16 + b) * 16 + c) * 16 + d) :: acc) rest
    | _, _, _, _ => none
  | '\\' :: e :: rest =>
    match escUnquote? e with
    | some c => jparseStrGo (c :: acc) rest
    | none => none
  | c :: rest => if c.toNat < 32 then none else jparseStrGo (c :: acc) rest
  | [] => none

/-- Digits from the front of the input. -/
def takeDigitsL : List Char → List Char × List Char
  | c :: cs =>
    if isDigitChar c then
      let (ds, r) := takeDigitsL cs
      (c :: ds, r)
    else ([], c :: cs)
  | [] => ([], [])

def digitsVal (ds : List Char) : Nat :=
  ds.foldl (fun acc c => acc * 10 + (c.toNat - '0'.toNat)) 0

/-- Parse a JSON integer (sign and digits; leading zeros and any fraction or
exponent part rejected). -/
def jparseNum : List Char → Option (Int × List Char)
  | cs =>
    let (neg, cs1) : Bool × List Char :=
      match cs with
      | '-' :: r => (true, r)
      | _ => (false, cs)
    let (ds, cs2) := takeDigitsL cs1
    if ds.isEmpty then none
    else if ds.length > 1 && ds.headI = '0' then none
    else
      match cs2 with
      | '.' :: _ => none
      | 'e' :: _ => none
      | 'E' :: _ => none
      | _ => some ((if neg then -1 else 1) * (digitsVal ds : Int), cs2)

mutual

def jparseVal (fuel : Nat) (cs : List Char) : Option (Json × List Char) :=
  match fuel with
  | 0 => none
  | fuel + 1 =>
    match jskipWs cs with
    | 'n' :: 'u' :: 'l' :: 'l' :: r => some (.null, r)
    | 't' :: 'r' :: 'u' :: 'e' :: r => some (.bool true, r)
    | 'f' :: 'a' :: 'l' :: 's' :: 'e' :: r => some (.bool false, r)
    | '"' :: r =>
      match jparseStrGo [] r with
      | some (s, r') => some (.str s, r')
      | none => none
    | '[' :: r =>
      match jskipWs r with
      | ']' :: r' => some (.arr [], r')
      | other => match jparseItems fuel other with
        | some (es, r') => some (.arr es, r')
        | none => none
    | '\x7b' :: r =>
      match jskipWs r with
      | '\x7d' :: r' => some (.obj [], r')
      | other => match jparsePairs fuel other with
        | some (ms, r') => some (.obj ms, r')
        | none => none
    | other =>
      match jparseNum other with
      | some (n, r') => some (.num n, r')
      | none => none

/-- One or more comma-separated array elements, consuming the closing `]`. -/
def jparseItems (fuel : Nat) (cs : List Char) : Option (List Json × List Char) :=
  match fuel with
  | 0 => none
  | fuel + 1 =>
    match jparseVal fuel cs with
    | none => none
    | some (v, r) =>
      match jskipWs r with
      | ',' :: r' =>
        match jparseItems fuel r' with
        | some (vs, r'') => some (v :: vs, r'')
        | none => none
      | ']' :: r' => some ([v], r')
      | _ => none

/-- One or more `"key": value` members, consuming the closing brace. -/
def jparsePairs (fuel : Nat) (cs : List Char) : Option (List (String × Json) × List Char) :=
  match fuel with
  | 0 => none
  | fuel + 1 =>
    match jskipWs cs with
    | '"' :: r =>
      match jparseStrGo [] r with
      | none => none
      | some (k, r1) =>
        match jskipWs r1 with
        | ':' :: r2 =>
          match jparseVal fuel r2 with
          | none => none
          | some (v, r3) =>
            match jskipWs r3 with
            | ',' :: r4 =>
              match jparsePairs fuel r4 with
              | some (ms, r5) => some ((k, v) :: ms, r5)
              | none => none
            | '\x7d' :: r4 => some ([(k, v)], r4)
            | _ => none
        | _ => none
    | _ => none

end

/-- `json.loads`: parse a complete document, requiring only whitespace after
the value. -/
def jloads (s : String) : Option Json :=
  match jparseVal (s.length + 1) s.data with
  | some (j, r) => if jskipWs r = [] then some j else none
  | none => none

/-! ### Response extraction and repair (agents/base.py). -/

/-- Split at the first occurrence of three consecutive backticks, returning
the part before and the part after the backticks. -/
def splitAtTriple : List Char → Option (List Char × List Char)
  | '`' :: '`' :: '`' :: rest => some ([], rest)
  | c :: rest =>
    match splitAtTriple rest with
    | some (pre, post) => some (c :: pre, post)
    | none => none
  | [] => none

/-- The capture of the first match of ```` ```(?:json)?\s*([\s\S]*?)``` ````:
the contents of the first fenced code block, if any. -/
def firstFencedBlock (text : List Char) : Option (List Char) :=
  match splitAtTriple text with
  | none => none
  | some (_, afterOpen) =>
    let afterTag :=
      if afterOpen.take 4 = ['j', 's', 'o', 'n'] then afterOpen.drop 4 else afterOpen
    let body := afterTag.dropWhile isPyWs
    match splitAtTriple body with
    | none => none
    | some (captured, _) => some captured

/-- `extract_json_from_response`: strip, take the first fenced code block if
present, then, if the text does not begin with a brace, slice from the first
opening to the last closing brace. -/
def extract_json_from_response (response : String) : String :=
  let text := pyStripL response.data
  let text :=
    match firstFencedBlock text with
    | some inner => pyStripL inner
    | none => text
  let text :=
    if text.head? = some '\x7b' then text
    else
      match text.findIdx? (fun c => c = '\x7b'),
          (text.reverse.findIdx? (fun c => c = '\x7d')).map
            (fun i => text.length - 1 - i) with
      | some st, some en => if st < en then (text.drop st).take (en + 1 - st) else text
      | _, _ => text
  String.mk text

def isIdentStart (c : Char) : Bool :=
  ('a' ≤ c && c ≤ 'z') || ('A' ≤ c && c ≤ 'Z') || c = '_'

def isIdentChar (c : Char) : Bool := isIdentStart c || isDigitChar c

/-- One line of `repair_json`: if the line starts (after whitespace) with a
bare identifier immediately followed by `":` and a whitespace character,
insert the missing opening quote before the identifier. -/
def repairKeyLine (line : List Char) : List Char :=
  let ws := line.takeWhile isPyWs
  let rest := line.dropWhile isPyWs
  match rest with
  | c :: _ =>
    if isIdentStart c then
      let tail2 := rest.dropWhile isIdentChar
      match tail2 with
      | '"' :: ':' :: w :: _ => if isPyWs w then ws ++ '"' :: rest else line
      | _ => line
    else line
  | [] => line

/-- `text.split('\n')`. -/
def splitOnNl : List Char → List (List Char)
  | [] => [[]]
  | '\n' :: rest => [] :: splitOnNl rest
  | c :: rest =>
    match splitOnNl rest with
    | [] => [[c]]
    | l :: ls => (c :: l) :: ls

/-- `'\n'.join(lines)`. -/
def joinNl (ls : List (List Char)) : List Char :=
  match ls with
  | [] => []
  | [l] => l
  | l :: l' :: ls => l ++ '\n' :: joinNl (l' :: ls)

/-- Left-to-right scan of `re.sub(r',(\s*[}\]])', r'\1', text)`: drop every
comma that is followed, over whitespace, by a closing brace or bracket.
`pending = some ws` means a comma has been read and `ws` (reversed) is the
whitespace seen since. -/
def stripTrailCommasGo (pending : Option (List Char)) : List Char → List Char
  | [] =>
    match pending with
    | none => []
    | some ws => ',' :: ws.reverse
  | c :: rest =>
    match pending with
    | none =>
      if c = ',' then stripTrailCommasGo (some []) rest
      else c :: stripTrailCommasGo none rest
    | some ws =>
      if c = '\x7d' || c = ']' then ws.reverse ++ c :: stripTrailCommasGo none rest
      else if isPyWs c then stripTrailCommasGo (some (c :: ws)) rest
      else
        ',' :: ws.reverse ++
          (if c = ',' then stripTrailCommasGo (some []) rest
           else c :: stripTrailCommasGo none rest)

def stripTrailCommas (l : List Char) : List Char := stripTrailCommasGo none l

/-- `repair_json`: fix missing opening quotes on keys at line starts, then
strip trailing commas before closing braces and brackets. -/
def repair_json (text : String) : String :=
  let repaired := joinNl ((splitOnNl text.data).map repairKeyLine)
  String.mk (stripTrailCommas repaired)

/-- The parse pipeline every agent applies to a raw model response
(claude_agent.py / gemini_agent.py / openai_agent.py `generate_*`):
extract, strictly parse, and on failure repair and re-parse. -/
def parsePipeline (raw : String) : Option Json :=
  let json_str := extract_json_from_response raw
  match jloads json_str with
  | some data => some data
  | none => jloads (repair_json json_str)

/-! ### Itinerary data model (src/models/itinerary.py). The current
`ai_travel_planner.models.itinerary` module is not in the source tree (only
its package exports, callers and tests are); where it extends the historical
src/models version, the extra pieces are modelled from the spec and marked
`Modelled from the spec`. -/

inductive ActivityType where
  | sightseeing
  | adventure
  | dining
  | transport
  | accommodation
  | relaxation
  | wildlife
  | cultural
  | shopping
  | nature
  | beach
  | food
  | other
deriving DecidableEq, Repr

/-- The string value of each enum member. -/
def ActivityType.value : ActivityType → String
  | .sightseeing => "sightseeing"
  | .adventure => "adventure"
  | .dining => "dining"
  | .transport => "transport"
  | .accommodation => "accommodation"
  | .relaxation => "relaxation"
  | .wildlife => "wildlife"
  | .cultural => "cultural"
  | .shopping => "shopping"
  | .nature => "nature"
  | .beach => "beach"
  | .food => "food"
  | .other => "other"

/-- The enum constructor `ActivityType(v)`: the member whose value is `v`. -/
def ActivityType.ofValue? (s : String) : Option ActivityType :=
  if s = "sightseeing" then some .sightseeing
  else if s = "adventure" then some .adventure
  else if s = "dining" then some .dining
  else if s = "transport" then some .transport
  else if s = "accommodation" then some .accommodation
  else if s = "relaxation" then some .relaxation
  else if s = "wildlife" then some .wildlife
  else if s = "cultural" then some .cultural
  else if s = "shopping" then some .shopping
  else if s = "nature" then some .nature
  else if s = "beach" then some .beach
  else if s = "food" then some .food
  else if s = "other" then some .other
  else none

/-- The closed enumeration, as a list. -/
def ActivityType.all : List ActivityType :=
  [.sightseeing, .adventure, .dining, .transport, .accommodation, .relaxation,
   .wildlife, .cultural, .shopping, .nature, .beach, .food, .other]

/-- Map of common AI-generated variations to valid enum values. -/
def ACTIVITY_TYPE_ALIASES : List (String × String) :=
  [("culture", "cultural"),
   ("food", "dining"),
   ("restaurant", "dining"),
   ("eating", "dining"),
   ("travel", "transport"),
   ("flight", "transport"),
   ("bus", "transport"),
   ("train", "transport"),
   ("taxi", "transport"),
   ("hotel", "accommodation"),
   ("stay", "accommodation"),
   ("lodge", "accommodation"),
   ("hostel", "accommodation"),
   ("rest", "relaxation"),
   ("spa", "relaxation"),
   ("beach", "relaxation"),
   ("hike", "adventure"),
   ("hiking", "adventure"),
   ("trek", "adventure"),
   ("trekking", "adventure"),
   ("tour", "sightseeing"),
   ("visit", "sightseeing"),
   ("explore", "sightseeing"),
   ("museum", "cultural"),
   ("temple", "cultural"),
   ("market", "shopping"),
   ("animals", "wildlife"),
   ("safari", "wildlife"),
   ("jungle", "wildlife"),
   ("rainforest", "wildlife"),
   ("nature", "wildlife"),
   ("snorkeling", "adventure"),
   ("diving", "adventure"),
   ("water", "adventure")]

def lookupAliasValue (s : String) : Option String :=
  (ACTIVITY_TYPE_ALIASES.find? (fun p => p.1 = s)).map (fun p => p.2)

def toLowerStr (s : String) : String := String.mk (s.data.map Char.toLower)

/-- `Activity.normalize_activity_type` on a string input: lower-case and
strip, consult the alias table first, then attempt a direct enum match, and
default to sightseeing for unknown types. -/
def normalize_activity_type (v : String) : ActivityType :=
  let v_lower := pyStrip (toLowerStr v)
  let v_lower :=
    match lookupAliasValue v_lower with
    | some a => a
    | none => v_lower
  match ActivityType.ofValue? v_lower with
  | some t => t
  | none => .sightseeing

/-- A `datetime.time` value (microseconds unused by the planner). -/
structure PyTime where
  hour : Nat
  minute : Nat
  second : Nat
deriving DecidableEq, Repr

/-- A `datetime.date` value. -/
structure PyDate where
  year : Nat
  month : Nat
  day : Nat
deriving DecidableEq, Repr

def isLeapYear (y : Nat) : Bool := (y % 4 = 0 && ¬ y % 100 = 0) || y % 400 = 0

def daysInMonth (y m : Nat) : Nat :=
  if m = 1 || m = 3 || m = 5 || m = 7 || m = 8 || m = 10 || m = 12 then 31
  else if m = 4 || m = 6 || m = 9 || m = 11 then 30
  else if m = 2 then (if isLeapYear y then 29 else 28)
  else 0

def PyDate.valid (d : PyDate) : Prop :=
  1 ≤ d.year ∧ d.year ≤ 9999 ∧ 1 ≤ d.month ∧ d.month ≤ 12
    ∧ 1 ≤ d.day ∧ d.day ≤ daysInMonth d.year d.month

instance (d : PyDate) : Decidable d.valid := by
  unfold PyDate.valid; infer_instance

def PyTime.valid (t : PyTime) : Prop :=
  t.hour ≤ 23 ∧ t.minute ≤ 59 ∧ t.second ≤ 59

instance (t : PyTime) : Decidable t.valid := by
  unfold PyTime.valid; infer_instance

/-- `strptime(v, "%H:%M")`: one or two digits, colon, one or two digits,
with the whole string consumed and the field ranges checked. -/
def strptimeHM (l : List Char) : Option PyTime :=
  let (hds, r1) := takeDigitsL l
  if 1 ≤ hds.length && hds.length ≤ 2 then
    match r1 with
    | ':' :: r2 =>
      let (mds, r3) := takeDigitsL r2
      if 1 ≤ mds.length && mds.length ≤ 2 && r3.isEmpty then
        let h := digitsVal hds
        let m := digitsVal mds
        if h ≤ 23 && m ≤ 59 then some ⟨h, m, 0⟩ else none
      else none
    | _ => none
  else none

/-- `strptime(v, "%H:%M:%S")`. -/
def strptimeHMS (l : List Char) : Option PyTime :=
  let (hds, r1) := takeDigitsL l
  if 1 ≤ hds.length && hds.length ≤ 2 then
    match r1 with
    | ':' :: r2 =>
      let (mds, r3) := takeDigitsL r2
      if 1 ≤ mds.length && mds.length ≤ 2 then
        match r3 with
        | ':' :: r4 =>
          let (sds, r5) := takeDigitsL r4
          if 1 ≤ sds.length && sds.length ≤ 2 && r5.isEmpty then
            let h := digitsVal hds
            let m := digitsVal mds
            let sec := digitsVal sds
            if h ≤ 23 && m ≤ 59 && sec ≤ 59 then some ⟨h, m, sec⟩ else none
          else none
        | _ => none
      else none
    | _ => none
  else none

/-- `%p`: `AM` or `PM`, case-insensitively; returns `true` for PM. -/
def parseMeridiem : List Char → Option (Bool × List Char)
  | a :: m :: rest =>
    if (a.toLower = 'a' || a.toLower = 'p') && m.toLower = 'm' then
      some (a.toLower = 'p', rest)
    else none
  | _ => none

/-- `strptime(v, "%I:%M %p")` (space present) or `strptime(v, "%I:%M%p")`
(no space): a format-string space matches one or more whitespace characters. -/
def strptime12 (l : List Char) (spaced : Bool) : Option PyTime :=
  let (hds, r1) := takeDigitsL l
  if 1 ≤ hds.length && hds.length ≤ 2 then
    match r1 with
    | ':' :: r2 =>
      let (mds, r3) := takeDigitsL r2
      if 1 ≤ mds.length && mds.length ≤ 2 then
        let r4 := if spaced then r3.dropWhile isPyWs else r3
        if spaced && (r3.takeWhile isPyWs).isEmpty then none
        else
          match parseMeridiem r4 with
          | some (pm, r5) =>
            if r5.isEmpty then
              let h := digitsVal hds
              let m := digitsVal mds
              if 1 ≤ h && h ≤ 12 && m ≤ 59 then
                some ⟨(if pm then (h % 12) + 12 else h % 12), m, 0⟩
              else none
            else none
          | none => none
      else none
    | _ => none
  else none

/-- `parse_time`: `None`/`"null"`/`""` and non-strings coerce to absent; a
string is tried against `%H:%M`, `%H:%M:%S`, `%I:%M %p`, `%I:%M%p` in order;
anything else coerces to absent. -/
def parse_time (v : Json) : Option PyTime :=
  match v with
  | .null => none
  | .str s =>
    if s = "null" || s = "" then none
    else
      match strptimeHM s.data with
      | some t => some t
      | none =>
        match strptimeHMS s.data with
        | some t => some t
        | none =>
          match strptime12 s.data true with
          | some t => some t
          | none => strptime12 s.data false
  | _ => none

/-- `strptime(v, "%Y-%m-%d")`: exactly four year digits, one or two month
and day digits, the whole string consumed, a real calendar date. -/
def strptimeYMD (l : List Char) : Option PyDate :=
  let (yds, r1) := takeDigitsL l
  if yds.length = 4 then
    match r1 with
    | '-' :: r2 =>
      let (mds, r3) := takeDigitsL r2
      if 1 ≤ mds.length && mds.length ≤ 2 then
        match r3 with
        | '-' :: r4 =>
          let (dds, r5) := takeDigitsL r4
          if 1 ≤ dds.length && dds.length ≤ 2 && r5.isEmpty then
            let y := digitsVal yds
            let m := digitsVal mds
            let d := digitsVal dds
            if 1 ≤ y && 1 ≤ m && m ≤ 12 && 1 ≤ d && d ≤ daysInMonth y m then
              some ⟨y, m, d⟩
            else none
          else none
        | _ => none
      else none
    | _ => none
  else none

/-- `datetime.fromisoformat(v).date()`: `YYYY-MM-DD` with two-digit month
and day, optionally followed by a time-of-day part introduced by `T` or a
space (the tail is not further validated in this embedding; the planner only
ever reaches this fallback after `%Y-%m-%d` has already failed). -/
def fromIsoDate (l : List Char) : Option PyDate :=
  match l with
  | y1 :: y2 :: y3 :: y4 :: '-' :: m1 :: m2 :: '-' :: d1 :: d2 :: rest =>
    if [y1, y2, y3, y4, m1, m2, d1, d2].all isDigitChar
        && (rest.isEmpty || rest.head? = some 'T' || rest.head? = some ' ') then
      let y := digitsVal [y1, y2, y3, y4]
      let m := digitsVal [m1, m2]
      let d := digitsVal [d1, d2]
      if 1 ≤ y && 1 ≤ m && m ≤ 12 && 1 ≤ d && d ≤ daysInMonth y m then
        some ⟨y, m, d⟩
      else none
    else none
  | _ => none

/-- `parse_date`: `None`/`"null"`/`""` and non-strings coerce to absent; a
string is tried against `%Y-%m-%d`, then ISO-8601; anything else coerces to
absent. -/
def parse_date (v : Json) : Option PyDate :=
  match v with
  | .null => none
  | .str s =>
    if s = "null" || s = "" then none
    else
      match strptimeYMD s.data with
      | some d => some d
      | none => fromIsoDate s.data
  | _ => none

structure TravelTip where
  title : String
  content : String
  category : String := "general"
deriving DecidableEq, Repr

structure Activity where
  name : String
  description : String
  location : String
  activity_type : ActivityType := .sightseeing
  start_time : Option PyTime := none
  end_time : Option PyTime := none
  cost_estimate : Option String := none
  booking_required : Bool := false
  booking_link : Option String := none
  tips : List TravelTip := []
  image_url : Option String := none
  image_path : Option String := none
deriving DecidableEq, Repr

/-- A day plan. `image_queries` and `image_paths` are the current model's
day-level fields, modelled from the spec (§3 DayPlan: "list of image search
queries, list of resolved local image paths"); the remaining fields are the
src/models/itinerary.py ones. -/
structure DayPlan where
  day_number : Int
  date : Option PyDate := none
  title : String
  location : String
  summary : String
  activities : List Activity := []
  tips : List TravelTip := []
  weather_note : Option String := none
  image_queries : List String := []
  image_url : Option String := none
  image_path : Option String := none
  image_paths : List String := []
deriving DecidableEq, Repr

/-- The sort key order of `sorted(days, key=lambda d: d.day_number)`. -/
def dayLe (a b : DayPlan) : Prop := a.day_number ≤ b.day_number

instance : DecidableRel dayLe := fun a b =>
  inferInstanceAs (Decidable (a.day_number ≤ b.day_number))

instance : IsTotal DayPlan dayLe :=
  ⟨fun a b => Int.le_total a.day_number b.day_number⟩

instance : IsTrans DayPlan dayLe :=
  ⟨fun _ _ _ h1 h2 => Int.le_trans h1 h2⟩

/-- `sorted(days, key=lambda d: d.day_number)`: Python's stable sort;
insertion sort placing an element before the first strictly-or-equally
larger key preserves the original order of equal keys, as `sorted` does. -/
def sortDays (l : List DayPlan) : List DayPlan :=
  List.insertionSort dayLe l

structure Itinerary where
  title : String := "Borneo Family Adventure"
  description : String := ""
  start_date : Option PyDate := none
  end_date : Option PyDate := none
  travelers : Int := 4
  days : List DayPlan := []
  general_tips : List TravelTip := []
  packing_list : List String := []
  budget_estimate : Option String := none
  emergency_contacts : List (String × String) := []
  blog_urls : List String := []
deriving DecidableEq, Repr

/-- `Itinerary.add_day`: append then re-sort by day_number. -/
def Itinerary.add_day (it : Itinerary) (day : DayPlan) : Itinerary :=
  { it with days := sortDays (it.days ++ [day]) }

/-- `Itinerary.total_days`: derived from the length of `days`. -/
def Itinerary.total_days (it : Itinerary) : Nat := it.days.length

/-- Modelled from the spec: §3 ItineraryMetadata (the class lives in the
missing current models module) — title, description, AI-determined
total_days, optional start/end date, traveler count, general tips, packing
list, budget estimate, emergency contacts. -/
structure ItineraryMetadata where
  title : String := ""
  description : String := ""
  total_days : Int
  start_date : Option PyDate := none
  end_date : Option PyDate := none
  travelers : Int := 4
  general_tips : List TravelTip := []
  packing_list : List String := []
  budget_estimate : Option String := none
  emergency_contacts : List (String × String) := []
deriving DecidableEq, Repr

/-- `Itinerary.from_metadata`: an itinerary carrying the metadata fields
with no days yet (spec §4.4 step 2: "initialize an empty Itinerary from the
metadata"; the class method lives in the missing current models module). -/
def Itinerary.from_metadata (md : ItineraryMetadata) : Itinerary :=
  { title := md.title
    description := md.description
    start_date := md.start_date
    end_date := md.end_date
    travelers := md.travelers
    days := []
    general_tips := md.general_tips
    packing_list := md.packing_list
    budget_estimate := md.budget_estimate
    emergency_contacts := md.emergency_contacts
    blog_urls := [] }

/-- Modelled from the spec: §3 GenerationProgress — total_days,
completed_days, current block bounds, status string, optional error message
(a pure snapshot type; the class lives in the missing current models
module, and services/itinerary_generator.py fixes every field use). -/
structure GenerationProgress where
  total_days : Nat
  completed_days : Nat
  current_block_start : Nat
  current_block_end : Nat
  status : String
  error_message : Option String := none
deriving DecidableEq, Repr

/-! ### The iterative generation orchestrator
(services/itinerary_generator.py). The agent is an oracle: its metadata call
either returns metadata or raises (modelled as `Except.error` with the
exception text), and its day-block call likewise, as a function of the
requested block and the continuity context. The fixed call arguments
(requirements, metadata, language) are baked into the oracle closure. A run
is modelled as the list of yielded `(progress, itinerary, metadata)`
snapshots plus the trace of `generate_day_block` calls issued. -/

structure AgentModel where
  genMetadata : Except String ItineraryMetadata
  genDayBlock : Nat → Nat → Nat → List DayPlan → Except String (List DayPlan)

/-- One yielded `(progress, itinerary, metadata)` tuple. -/
structure Snapshot where
  progress : GenerationProgress
  itinerary : Itinerary
  metadata : Option ItineraryMetadata
deriving DecidableEq, Repr

/-- One `generate_day_block` invocation: the requested inclusive day range,
the trip length, and the continuity context passed as `previous_days`. -/
structure BlockCall where
  start_day : Nat
  end_day : Nat
  total_days : Nat
  previous_days : List DayPlan
deriving DecidableEq, Repr

/-- The progress mutations of one successful block iteration: record the
current block bounds, set `completed_days` to the new day count `n`, and
mark `complete` when `completed_days >= total_days`. -/
def stepProgress (progress : GenerationProgress) (s e total n : Nat) :
    GenerationProgress :=
  let p := { progress with
    current_block_start := s, current_block_end := e, completed_days := n }
  if total ≤ n then { p with status := "complete" } else p

/-- The progress mutations of a failing block iteration: record the block
bounds, set status to `partial` when days were already committed (else
`error`), and record the exception message. -/
def failProgress (progress : GenerationProgress) (s e : Nat) (msg : String) :
    GenerationProgress :=
  { progress with
    current_block_start := s
    current_block_end := e
    status := if 0 < progress.completed_days then "partial" else "error"
    error_message :=
      some ("Failed to generate days " ++ toString s ++ "-" ++ toString e
        ++ ": " ++ msg) }

/-- The block loop of `_generate_days`: one iteration per block; on success
append the new days, re-sort, update completed_days, mark complete when all
days are present, and yield; on exception set partial/error, record the
message, yield and stop. After the loop, force `complete` unless an error
status is set (unreachable in the error case, which returns early). -/
def runBlocks (agent : AgentModel) (md : ItineraryMetadata) (total_days : Nat) :
    List (Nat × Nat) → List DayPlan → Itinerary → GenerationProgress →
      List Snapshot × List BlockCall
  | [], _, itinerary, progress =>
    if progress.status ≠ "error" ∧ progress.status ≠ "partial" then
      ([⟨{ progress with status := "complete" }, itinerary, some md⟩], [])
    else ([], [])
  | (s, e) :: rest, all_days, itinerary, progress =>
    match agent.genDayBlock s e total_days all_days with
    | .ok new_days =>
      let all_days' := all_days ++ new_days
      let itinerary' := { itinerary with days := sortDays all_days' }
      let progress'' := stepProgress progress s e total_days all_days'.length
      let next := runBlocks agent md total_days rest all_days' itinerary' progress''
      (⟨progress'', itinerary', some md⟩ :: next.1,
        ⟨s, e, total_days, all_days⟩ :: next.2)
    | .error msg =>
      ([⟨failProgress progress s e msg, itinerary, some md⟩],
        [⟨s, e, total_days, all_days⟩])

/-- `_generate_days`: compute the remaining blocks from the number of
existing days; if none remain, yield a single `complete` snapshot; else run
the block loop. -/
def generate_days (agent : AgentModel) (md : ItineraryMetadata)
    (itinerary : Itinerary) (progress : GenerationProgress)
    (existing_days : List DayPlan) (block_size : Nat) :
    List Snapshot × List BlockCall :=
  let total_days := progress.total_days
  let all_days := existing_days
  let start_from_day := all_days.length + 1
  let blocks := blocksFrom start_from_day total_days block_size
  if blocks.isEmpty then
    ([⟨{ progress with status := "complete" }, itinerary, some md⟩], [])
  else
    runBlocks agent md total_days blocks all_days itinerary progress

/-- `total_days = max(1, metadata.total_days)` as derived by both entry
points. -/
def derivedTotal (md : ItineraryMetadata) : Nat := (max 1 md.total_days).toNat

/-- `generate_itinerary_iteratively`: generate metadata (on exception yield
a single error snapshot and stop), then yield the post-metadata snapshot and
run the day blocks. -/
def generate_itinerary_iteratively (agent : AgentModel) (block_size : Nat := 3) :
    List Snapshot × List BlockCall :=
  let progress : GenerationProgress :=
    { total_days := 0, completed_days := 0, current_block_start := 0,
      current_block_end := 0, status := "generating_metadata", error_message := none }
  let itinerary : Itinerary := {}
  match agent.genMetadata with
  | .error e =>
    ([⟨{ progress with
          status := "error"
          error_message := some ("Failed to generate metadata: " ++ e) },
        itinerary, none⟩], [])
  | .ok metadata =>
    let itinerary := Itinerary.from_metadata metadata
    let total_days := derivedTotal metadata
    let progress :=
      { progress with total_days := total_days, status := "generating_days" }
    let rest := generate_days agent metadata itinerary progress [] block_size
    (⟨progress, itinerary, some metadata⟩ :: rest.1, rest.2)

/-- `resume_itinerary_generation`: recompute completed_days from the
existing itinerary, yield the initial snapshot, and run the remaining
blocks seeded with the existing days; the metadata oracle is never
consulted. -/
def resume_itinerary_generation (agent : AgentModel) (metadata : ItineraryMetadata)
    (existing_itinerary : Itinerary) (block_size : Nat := 3) :
    List Snapshot × List BlockCall :=
  let total_days := derivedTotal metadata
  let existing_days := existing_itinerary.days
  let completed_days := existing_days.length
  let progress : GenerationProgress :=
    { total_days := total_days, completed_days := completed_days,
      current_block_start := completed_days + 1, current_block_end := 0,
      status := "generating_days", error_message := none }
  let itinerary := existing_itinerary
  let rest := generate_days agent metadata itinerary progress existing_days block_size
  (⟨progress, itinerary, some metadata⟩ :: rest.1, rest.2)

/-- Specification-side: a remainder that cannot extend a number literal —
empty, or headed by a character that is neither a digit nor `.`, `e`, `E`.
Every JSON delimiter (`,`, `]`, closing brace, end of input) qualifies. -/
def jdelim : List Char → Bool
  | [] => true
  | c :: _ => !(isDigitChar c || c = '.' || c = 'e' || c = 'E')

/-- Specification-side: the text, skipping whitespace, starts with a
closing brace or bracket. -/
def startsClose (l : List Char) : Bool :=
  match l.dropWhile isPyWs with
  | c :: _ => c = '\x7d' || c = ']'
  | [] => false

/-- Specification-side scanner for the repair regex `,(\s*[}\]])`: does the
text contain a comma followed, over whitespace, by a closing brace or
bracket? -/
def hasTrailPattern : List Char → Bool
  | [] => false
  | c :: rest => (c = ',' && startsClose rest) || hasTrailPattern rest

/-- Specification-side observer of an agent run: the index of the first
block of `blocks` whose `generate_day_block` call raises, given that each
successful call's days are appended to the continuity context, or `none`
when every call succeeds. -/
def firstBlockFailure (agent : AgentModel) (total : Nat) :
    List (Nat × Nat) → List DayPlan → Option Nat
  | [], _ => none
  | (s, e) :: rest, acc =>
    match agent.genDayBlock s e total acc with
    | .error _ => some 0
    | .ok nd => (firstBlockFailure agent total rest (acc ++ nd)).map (· + 1)

/-- Specification-side observer: the accumulated day list after the first
`k` blocks of `blocks` succeed. -/
def accAfter (agent : AgentModel) (total : Nat) :
    Nat → List (Nat × Nat) → List DayPlan → List DayPlan
  | 0, _, acc => acc
  | _ + 1, [], acc => acc
  | k + 1, (s, e) :: rest, acc =>
    match agent.genDayBlock s e total acc with
    | .ok nd => accAfter agent total k rest (acc ++ nd)
    | .error _ => acc

/-- Sum of `end - start + 1` over a list of inclusive pairs. -/
def sumSpans (l : List (Nat × Nat)) : Nat :=
  l.foldr (fun p acc => p.2 - p.1 + 1 + acc) 0

/-- `coversFrom td s l`: the pairs of `l` are consecutive inclusive ranges
that exactly cover `[s, td]` in order. -/
def coversFrom (td : Nat) : Nat → List (Nat × Nat) → Prop
  | s, [] => s = td + 1
  | s, p :: rest => p.1 = s ∧ s ≤ p.2 ∧ p.2 ≤ td ∧ coversFrom td (p.2 + 1) rest

/-- Specification-side: a raw model response whose JSON payload sits inside
a fenced code block tagged `json`, between two pieces of surrounding
prose. -/
def fencedResponse (p1 body p2 : List Char) : String :=
  String.mk (p1 ++ '`' :: '`' :: '`' ::
    ('j' :: 's' :: 'o' :: 'n' :: ('\n' :: (body ++ '\n' :: '`' :: '`' :: '`' :: p2))))

/-- Specification-side: the serialization of an object value with one
trailing comma inserted right before the final closing brace. -/
def withTrailingComma (ms : List (String × Json)) : List Char :=
  '\x7b' :: (jdumpMembers ms ++ ',' :: '\x7d' :: [])

/-- Two-digit zero-padded decimal (strftime `%H`, `%M`, `%S`, `%m`, `%d`). -/
def pad2 (n : Nat) : List Char := if n < 10 then '0' :: natChars n else natChars n

/-- Four-digit zero-padded decimal (strftime `%Y`). -/
def pad4 (n : Nat) : List Char :=
  if n < 10 then '0' :: '0' :: '0' :: natChars n
  else if n < 100 then '0' :: '0' :: natChars n
  else if n < 1000 then '0' :: natChars n
  else natChars n

/-- `time.isoformat()` as pydantic's json mode emits it: `HH:MM:SS`. -/
def timeIso (t : PyTime) : String :=
  String.mk (pad2 t.hour ++ ':' :: (pad2 t.minute ++ ':' :: pad2 t.second))

/-- `date.isoformat()`: `YYYY-MM-DD`. -/
def dateIso (d : PyDate) : String :=
  String.mk (pad4 d.year ++ '-' :: (pad2 d.month ++ '-' :: pad2 d.day))

/-- An optional string in `model_dump(mode="json")`: `None` becomes `null`. -/
def optStrJson : Option String → Json
  | none => .null
  | some s => .str s

def optTimeJson : Option PyTime → Json
  | none => .null
  | some t => .str (timeIso t)

def optDateJson : Option PyDate → Json
  | none => .null
  | some d => .str (dateIso d)

/-- `ChatMessage` (src/models/itinerary.py). -/
structure ChatMessage where
  role : String
  content : String
deriving DecidableEq, Repr

/-- `SavedBlogContent` (src/models/itinerary.py). -/
structure SavedBlogContent where
  url : String
  title : String
  summary : String
  tips : List String := []
  highlights : List String := []
  images : List String := []
  raw_text : String := ""
deriving DecidableEq, Repr

/-- `PlannerSession`: the historic fields of src/models/itinerary.py
(itinerary, chat_history, ai_provider, blog_content). The current models
module is not in the source tree; modelled from the spec: §6 adds the newer
destination-detection state, here `destinations`, which older documents
lack and which defaults to empty. Duplicate keys inside one JSON object
are kept as-is by this embedding (the parser returns the member list). -/
structure PlannerSession where
  itinerary : Itinerary := {}
  chat_history : List ChatMessage := []
  ai_provider : String := "claude"
  blog_content : List (String × SavedBlogContent) := []
  destinations : List String := []
deriving DecidableEq, Repr

/-! `model_dump(mode="json")` of each session model, field for field in
declaration order; enums dump to their value, times and dates to their ISO
strings, `None` to `null`. -/

def TravelTip.toJson (t : TravelTip) : Json :=
  .obj [("title", .str t.title), ("content", .str t.content),
        ("category", .str t.category)]

def Activity.toJson (a : Activity) : Json :=
  .obj [("name", .str a.name), ("description", .str a.description),
        ("location", .str a.location),
        ("activity_type", .str a.activity_type.value),
        ("start_time", optTimeJson a.start_time),
        ("end_time", optTimeJson a.end_time),
        ("cost_estimate", optStrJson a.cost_estimate),
        ("booking_required", .bool a.booking_required),
        ("booking_link", optStrJson a.booking_link),
        ("tips", .arr (a.tips.map TravelTip.toJson)),
        ("image_url", optStrJson a.image_url),
        ("image_path", optStrJson a.image_path)]

def DayPlan.toJson (d : DayPlan) : Json :=
  .obj [("day_number", .num d.day_number), ("date", optDateJson d.date),
        ("title", .str d.title), ("location", .str d.location),
        ("summary", .str d.summary),
        ("activities", .arr (d.activities.map Activity.toJson)),
        ("tips", .arr (d.tips.map TravelTip.toJson)),
        ("weather_note", optStrJson d.weather_note),
        ("image_queries", .arr (d.image_queries.map Json.str)),
        ("image_url", optStrJson d.image_url),
        ("image_path", optStrJson d.image_path),
        ("image_paths", .arr (d.image_paths.map Json.str))]

def Itinerary.toJson (it : Itinerary) : Json :=
  .obj [("title", .str it.title), ("description", .str it.description),
        ("start_date", optDateJson it.start_date),
        ("end_date", optDateJson it.end_date),
        ("travelers", .num it.travelers),
        ("days", .arr (it.days.map DayPlan.toJson)),
        ("general_tips", .arr (it.general_tips.map TravelTip.toJson)),
        ("packing_list", .arr (it.packing_list.map Json.str)),
        ("budget_estimate", optStrJson it.budget_estimate),
        ("emergency_contacts",
          .obj (it.emergency_contacts.map (fun p => (p.1, Json.str p.2)))),
        ("blog_urls", .arr (it.blog_urls.map Json.str))]

def ChatMessage.toJson (m : ChatMessage) : Json :=
  .obj [("role", .str m.role), ("content", .str m.content)]

def SavedBlogContent.toJson (b : SavedBlogContent) : Json :=
  .obj [("url", .str b.url), ("title", .str b.title),
        ("summary", .str b.summary),
        ("tips", .arr (b.tips.map Json.str)),
        ("highlights", .arr (b.highlights.map Json.str)),
        ("images", .arr (b.images.map Json.str)),
        ("raw_text", .str b.raw_text)]

def PlannerSession.toJson (s : PlannerSession) : Json :=
  .obj [("itinerary", s.itinerary.toJson),
        ("chat_history", .arr (s.chat_history.map ChatMessage.toJson)),
        ("ai_provider", .str s.ai_provider),
        ("blog_content",
          .obj (s.blog_content.map (fun p => (p.1, p.2.toJson)))),
        ("destinations", .arr (s.destinations.map Json.str))]

/-- The document the historic code wrote: identical but with no
`destinations` entry (the newer field of the current models module). -/
def PlannerSession.toJsonLegacy (s : PlannerSession) : Json :=
  .obj [("itinerary", s.itinerary.toJson),
        ("chat_history", .arr (s.chat_history.map ChatMessage.toJson)),
        ("ai_provider", .str s.ai_provider),
        ("blog_content",
          .obj (s.blog_content.map (fun p => (p.1, p.2.toJson))))]

/-! `model_validate` of each session model: a required field fails when
missing or ill-typed; a defaulted field takes its default when missing;
the `mode="before"` validators run on the raw JSON value of their field.
Key lookup takes the last binding, as `json.loads` builds a dict. -/

def objGet (ms : List (String × Json)) (k : String) : Option Json :=
  ((ms.filter (fun p => p.1 == k)).getLast?).map (fun p => p.2)

def jStrReq : Option Json → Option String
  | some (.str s) => some s
  | _ => none

def jStrD (o : Option Json) (d : String) : Option String :=
  match o with
  | none => some d
  | some (.str s) => some s
  | some _ => none

def jOptStr : Option Json → Option (Option String)
  | none => some none
  | some .null => some none
  | some (.str s) => some (some s)
  | some _ => none

def jBoolD (o : Option Json) (d : Bool) : Option Bool :=
  match o with
  | none => some d
  | some (.bool b) => some b
  | some _ => none

def jIntReq : Option Json → Option Int
  | some (.num n) => some n
  | _ => none

def jIntD (o : Option Json) (d : Int) : Option Int :=
  match o with
  | none => some d
  | some (.num n) => some n
  | some _ => none

/-- A time field: the `parse_time` before-validator is total, so the field
never fails; a missing key takes the default `None`. -/
def jTimeD : Option Json → Option PyTime
  | none => none
  | some v => parse_time v

def jDateD : Option Json → Option PyDate
  | none => none
  | some v => parse_date v

/-- The `activity_type` field: `normalize_activity_type` turns any string
into a member (aliases first); a missing key takes the declared default
`sightseeing`; a non-string value falls through the validator to the enum
check and fails. -/
def jActTypeD : Option Json → Option ActivityType
  | none => some .sightseeing
  | some (.str s) => some (normalize_activity_type s)
  | some _ => none

def jArrD : Option Json → Option (List Json)
  | none => some []
  | some (.arr es) => some es
  | some _ => none

def jStrAtom : Json → Option String
  | .str s => some s
  | _ => none

def jStrListD : Option Json → Option (List String)
  | none => some []
  | some (.arr es) => es.mapM jStrAtom
  | some _ => none

def jStrMapD : Option Json → Option (List (String × String))
  | none => some []
  | some (.obj bs) =>
    bs.mapM (fun p => match p.2 with | .str s => some (p.1, s) | _ => none)
  | some _ => none

def TravelTip.fromJson : Json → Option TravelTip
  | .obj ms => do
    let title ← jStrReq (objGet ms "title")
    let content ← jStrReq (objGet ms "content")
    let category ← jStrD (objGet ms "category") "general"
    some { title := title, content := content, category := category }
  | _ => none

def Activity.fromJson : Json → Option Activity
  | .obj ms => do
    let name ← jStrReq (objGet ms "name")
    let description ← jStrReq (objGet ms "description")
    let location ← jStrReq (objGet ms "location")
    let atype ← jActTypeD (objGet ms "activity_type")
    let cost ← jOptStr (objGet ms "cost_estimate")
    let booking ← jBoolD (objGet ms "booking_required") false
    let blink ← jOptStr (objGet ms "booking_link")
    let tipsJ ← jArrD (objGet ms "tips")
    let tips ← tipsJ.mapM TravelTip.fromJson
    let iurl ← jOptStr (objGet ms "image_url")
    let ipath ← jOptStr (objGet ms "image_path")
    some { name := name, description := description, location := location,
           activity_type := atype,
           start_time := jTimeD (objGet ms "start_time"),
           end_time := jTimeD (objGet ms "end_time"),
           cost_estimate := cost, booking_required := booking,
           booking_link := blink, tips := tips,
           image_url := iurl, image_path := ipath }
  | _ => none

def DayPlan.fromJson : Json → Option DayPlan
  | .obj ms => do
    let dn ← jIntReq (objGet ms "day_number")
    let title ← jStrReq (objGet ms "title")
    let location ← jStrReq (objGet ms "location")
    let summary ← jStrReq (objGet ms "summary")
    let actsJ ← jArrD (objGet ms "activities")
    let acts ← actsJ.mapM Activity.fromJson
    let tipsJ ← jArrD (objGet ms "tips")
    let tips ← tipsJ.mapM TravelTip.fromJson
    let weather ← jOptStr (objGet ms "weather_note")
    let iq ← jStrListD (objGet ms "image_queries")
    let iurl ← jOptStr (objGet ms "image_url")
    let ipath ← jOptStr (objGet ms "image_path")
    let ips ← jStrListD (objGet ms "image_paths")
    some { day_number := dn, date := jDateD (objGet ms "date"),
           title := title, location := location, summary := summary,
           activities := acts, tips := tips, weather_note := weather,
           image_queries := iq, image_url := iurl, image_path := ipath,
           image_paths := ips }
  | _ => none

def Itinerary.fromJson : Json → Option Itinerary
  | .obj ms => do
    let title ← jStrD (objGet ms "title") "Borneo Family Adventure"
    let description ← jStrD (objGet ms "description") ""
    let travelers ← jIntD (objGet ms "travelers") 4
    let daysJ ← jArrD (objGet ms "days")
    let days ← daysJ.mapM DayPlan.fromJson
    let gtipsJ ← jArrD (objGet ms "general_tips")
    let gtips ← gtipsJ.mapM TravelTip.fromJson
    let packing ← jStrListD (objGet ms "packing_list")
    let budget ← jOptStr (objGet ms "budget_estimate")
    let contacts ← jStrMapD (objGet ms "emergency_contacts")
    let burls ← jStrListD (objGet ms "blog_urls")
    some { title := title, description := description,
           start_date := jDateD (objGet ms "start_date"),
           end_date := jDateD (objGet ms "end_date"),
           travelers := travelers, days := days, general_tips := gtips,
           packing_list := packing, budget_estimate := budget,
           emergency_contacts := contacts, blog_urls := burls }
  | _ => none

def ChatMessage.fromJson : Json → Option ChatMessage
  | .obj ms => do
    let role ← jStrReq (objGet ms "role")
    let content ← jStrReq (objGet ms "content")
    some { role := role, content := content }
  | _ => none

def SavedBlogContent.fromJson : Json → Option SavedBlogContent
  | .obj ms => do
    let url ← jStrReq (objGet ms "url")
    let title ← jStrReq (objGet ms "title")
    let summary ← jStrReq (objGet ms "summary")
    let tips ← jStrListD (objGet ms "tips")
    let highlights ← jStrListD (objGet ms "highlights")
    let images ← jStrListD (objGet ms "images")
    let raw ← jStrD (objGet ms "raw_text") ""
    some { url := url, title := title, summary := summary, tips := tips,
           highlights := highlights, images := images, raw_text := raw }
  | _ => none

def PlannerSession.fromJson : Json → Option PlannerSession
  | .obj ms => do
    let itn ← match objGet ms "itinerary" with
      | none => some {}
      | some v => Itinerary.fromJson v
    let chat ← match objGet ms "chat_history" with
      | none => some []
      | some (.arr es) => es.mapM ChatMessage.fromJson
      | some _ => none
    let prov ← jStrD (objGet ms "ai_provider") "claude"
    let blog ← match objGet ms "blog_content" with
      | none => some []
      | some (.obj bs) =>
        bs.mapM (fun p => (SavedBlogContent.fromJson p.2).map (fun b => (p.1, b)))
      | some _ => none
    let dest ← jStrListD (objGet ms "destinations")
    some { itinerary := itn, chat_history := chat, ai_provider := prov,
           blog_content := blog, destinations := dest }
  | _ => none

/-- `JSONStore.save_session` at the document level:
`session.model_dump(mode="json")` then `json.dump`. (`json.dump(...,
indent=2)` differs from the compact form only in inter-token whitespace,
which `json.loads` skips; this embedding serializes compactly.) -/
def save_session (s : PlannerSession) : String := jdump (PlannerSession.toJson s)

/-- `JSONStore.load_session` after the file read: `json.load`, then
`PlannerSession.model_validate`, with any failure mapped to `None`. -/
def load_session (text : String) : Option PlannerSession :=
  match jloads text with
  | some j => PlannerSession.fromJson j
  | none => none

/-! Specification-side: what a session must satisfy for the persisted
document to reproduce it. Times and dates must be real (python rejects
out-of-range components at construction), and every activity category must
not be shadowed by the alias table (`food`, `beach` and `nature` are:
their own enum values are alias keys mapping elsewhere). -/

def Activity.storable (a : Activity) : Bool :=
  decide (normalize_activity_type a.activity_type.value = a.activity_type)
  && (match a.start_time with | none => true | some t => decide t.valid)
  && (match a.end_time with | none => true | some t => decide t.valid)

def DayPlan.storable (d : DayPlan) : Bool :=
  (match d.date with | none => true | some x => decide x.valid)
  && d.activities.all Activity.storable

def Itinerary.storable (it : Itinerary) : Bool :=
  (match it.start_date with | none => true | some x => decide x.valid)
  && (match it.end_date with | none => true | some x => decide x.valid)
  && it.days.all DayPlan.storable

def PlannerSession.storable (s : PlannerSession) : Bool := s.itinerary.storable

end TravelPlanner

namespace TravelPlanner

theorem blocksFrom_pos (total_days block_size : Nat) (hb : 1 ≤ block_size) :
    ∀ start, start ≤ total_days →
      blocksFrom start total_days block_size
        = (start, min (start + block_size - 1) total_days)
            :: blocksFrom (start + block_size) total_days block_size := by
  intro start hs
  unfold blocksFrom
  have ha : 1 ≤ total_days + 1 - start := by omega
  set a := total_days + 1 - start with hadef
  have hcount : (a + block_size - 1) / block_size
      = (total_days + 1 - (start + block_size) + block_size - 1) / block_size + 1 := by
    by_cases hcase : block_size ≤ a
    · have h1 : total_days + 1 - (start + block_size) = a - block_size := by omega
      have h2 : a + block_size - 1 = (a - 1) + block_size := by omega
      have h3 : a - block_size + block_size - 1 = a - 1 := by omega
      rw [h1, h2, h3, Nat.add_div_right _ (by omega)]
    · have h1 : total_days + 1 - (start + block_size) = 0 := by omega
      have h2 : a + block_size - 1 = (a - 1) + block_size := by omega
      have h3 : (0 + block_size - 1) / block_size = 0 := Nat.div_eq_of_lt (by omega)
      rw [h1, h2, h3, Nat.add_div_right _ (by omega), Nat.div_eq_of_lt (by omega)]
  rw [hcount, List.range'_succ, List.map_cons]

theorem blocksFrom_neg (total_days block_size : Nat) :
    ∀ start, total_days < start → blocksFrom start total_days block_size = [] := by
  intro start hs
  unfold blocksFrom
  have h1 : total_days + 1 - start = 0 := by omega
  rw [h1]
  rcases Nat.eq_zero_or_pos block_size with hb | hb
  · subst hb; rfl
  · have h2 : (0 + block_size - 1) / block_size = 0 := by
      apply Nat.div_eq_of_lt; omega
    rw [h2]
    rfl

theorem blocksFrom_covers (total_days block_size : Nat) (hb : 1 ≤ block_size) :
    ∀ n start, total_days + 1 - start ≤ n → start ≤ total_days →
      coversFrom total_days start (blocksFrom start total_days block_size) := by
  intro n
  induction n with
  | zero => intro start hn hs; omega
  | succ n ih =>
    intro start hn hs
    rw [blocksFrom_pos total_days block_size hb start hs]
    by_cases hnext : start + block_size ≤ total_days
    · have hmin : min (start + block_size - 1) total_days = start + block_size - 1 :=
        min_eq_left (by omega)
      rw [hmin]
      refine ⟨rfl, by omega, by omega, ?_⟩
      have heq : start + block_size - 1 + 1 = start + block_size := by omega
      rw [heq]
      exact ih (start + block_size) (by omega) hnext
    · have hmin : min (start + block_size - 1) total_days = total_days :=
        min_eq_right (by omega)
      rw [hmin]
      refine ⟨rfl, hs, le_refl _, ?_⟩
      show coversFrom total_days (total_days + 1)
        (blocksFrom (start + block_size) total_days block_size)
      rw [blocksFrom_neg total_days block_size (start + block_size) (by omega)]
      rfl

theorem coversFrom_sumSpans (total_days : Nat) :
    ∀ l : List (Nat × Nat), ∀ s, coversFrom total_days s l →
      sumSpans l = total_days + 1 - s := by
  intro l
  induction l with
  | nil => intro s h; simp only [coversFrom] at h; simp [sumSpans, h]
  | cons p rest ih =>
    intro s h
    obtain ⟨h1, h2, h3, h4⟩ := h
    have := ih (p.2 + 1) h4
    simp only [sumSpans, List.foldr_cons] at *
    omega

theorem blocksFrom_spans (total_days block_size : Nat) (hb : 1 ≤ block_size) :
    ∀ n start, total_days + 1 - start ≤ n → start ≤ total_days →
      ∀ p ∈ blocksFrom start total_days block_size,
        p.2 - p.1 + 1 ≤ block_size ∧ (p.2 ≠ total_days → p.2 - p.1 + 1 = block_size) := by
  intro n
  induction n with
  | zero => intro start hn; omega
  | succ n ih =>
    intro start hn hs p hp
    rw [blocksFrom_pos total_days block_size hb start hs] at hp
    rcases List.mem_cons.mp hp with h | h
    · subst h
      by_cases hnext : start + block_size - 1 ≤ total_days
      · have hmin : min (start + block_size - 1) total_days = start + block_size - 1 :=
          min_eq_left hnext
        rw [hmin]
        exact ⟨by simp; omega, fun _ => by simp; omega⟩
      · have hmin : min (start + block_size - 1) total_days = total_days :=
          min_eq_right (by omega)
        rw [hmin]
        refine ⟨by simp; omega, fun hne => absurd rfl hne⟩
    · by_cases hnext : start + block_size ≤ total_days
      · exact ih (start + block_size) (by omega) hnext p h
      · rw [blocksFrom_neg total_days block_size (start + block_size) (by omega)] at h
        exact absurd h (List.not_mem_nil p)

/-- **C1.** The block-partition function is total and deterministic (it is a
Lean function); for every `total_days ≥ 1` and `block_size ≥ 1` its result is
a list of consecutive inclusive `(start, end)` pairs exactly covering
`[1, total_days]`, every pair spans at most `block_size` days and every pair
other than the final one (the only one whose `end` is `total_days`) spans
exactly `block_size` days, the spans sum to `total_days`, and
`blocks(7,3) = [(1,3),(4,6),(7,7)]`, `blocks(1,3) = [(1,1)]`. -/
theorem calculate_day_blocks_spec (total_days block_size : Nat)
    (h1 : 1 ≤ total_days) (h2 : 1 ≤ block_size) :
    coversFrom total_days 1 (calculate_day_blocks total_days block_size)
    ∧ sumSpans (calculate_day_blocks total_days block_size) = total_days
    ∧ (∀ p ∈ calculate_day_blocks total_days block_size,
        p.2 - p.1 + 1 ≤ block_size ∧ (p.2 ≠ total_days → p.2 - p.1 + 1 = block_size))
    ∧ calculate_day_blocks 7 3 = [(1, 3), (4, 6), (7, 7)]
    ∧ calculate_day_blocks 1 3 = [(1, 1)] := by
  have hc := blocksFrom_covers total_days block_size h2 (total_days + 1) 1 (by omega) h1
  refine ⟨hc, ?_,
    blocksFrom_spans total_days block_size h2 (total_days + 1) 1 (by omega) h1,
    by decide, by decide⟩
  have := coversFrom_sumSpans total_days (calculate_day_blocks total_days block_size) 1 hc
  omega

theorem activityType_mem_all (t : ActivityType) : t ∈ ActivityType.all := by
  cases t <;> simp [ActivityType.all]

/-- **C6.** Activity-category normalization is total (a Lean function; the
Python validator catches the enum `ValueError`, embedded as the
`ofValue?` match) and always returns a member of the closed enumeration;
it lower-cases and strips, consults the alias table first (so `"food"`,
`"beach"`, `"nature"` map to their alias images even though they are also
enum values), then attempts a direct enum match, and otherwise defaults to
sightseeing — including for the empty string, numbers-as-strings and
unrecognized words. -/
theorem normalize_activity_type_spec :
    (∀ v : String, normalize_activity_type v ∈ ActivityType.all)
    ∧ normalize_activity_type "" = ActivityType.sightseeing
    ∧ normalize_activity_type "42" = ActivityType.sightseeing
    ∧ normalize_activity_type "definitely unknown" = ActivityType.sightseeing
    ∧ normalize_activity_type "  Restaurant " = ActivityType.dining
    ∧ normalize_activity_type "museum" = ActivityType.cultural
    ∧ normalize_activity_type "HIKE" = ActivityType.adventure
    ∧ normalize_activity_type "food" = ActivityType.dining
    ∧ normalize_activity_type "beach" = ActivityType.relaxation
    ∧ normalize_activity_type "nature" = ActivityType.wildlife
    ∧ normalize_activity_type "shopping" = ActivityType.shopping :=
  ⟨fun _ => activityType_mem_all _, by decide, by decide, by decide, by decide,
    by decide, by decide, by decide, by decide, by decide, by decide⟩

/-- **C7.** If the metadata call raises on a fresh run, the generator
yields exactly one snapshot — status `error`, `completed_days = 0`, the
exception message recorded — and stops without attempting any day block
(the day-block trace is empty, for every day-block oracle). -/
theorem metadata_failure_single_error_snapshot
    (dayBlock : Nat → Nat → Nat → List DayPlan → Except String (List DayPlan))
    (e : String) (block_size : Nat) :
    (generate_itinerary_iteratively ⟨Except.error e, dayBlock⟩ block_size).1.length = 1
    ∧ (∀ snap ∈ (generate_itinerary_iteratively ⟨Except.error e, dayBlock⟩ block_size).1,
        snap.progress.status = "error"
        ∧ snap.progress.completed_days = 0
        ∧ snap.progress.error_message = some ("Failed to generate metadata: " ++ e))
    ∧ (generate_itinerary_iteratively ⟨Except.error e, dayBlock⟩ block_size).2 = [] := by
  refine ⟨rfl, ?_, rfl⟩
  intro snap hsnap
  simp only [generate_itinerary_iteratively, List.mem_singleton] at hsnap
  subst hsnap
  exact ⟨rfl, rfl, rfl⟩

theorem getLast?_cons_ne {α : Type} (a : α) (l : List α) (h : l ≠ []) :
    (a :: l).getLast? = l.getLast? := by
  cases l with
  | nil => exact absurd rfl h
  | cons b t => exact List.getLast?_cons_cons

theorem str_append_ne_empty (s t : String) (h : s.length ≠ 0) : s ++ t ≠ "" := by
  intro hcontra
  have hlen : (s ++ t).length = 0 := by rw [hcontra]; rfl
  rw [String.length_append] at hlen
  omega

theorem sortDays_perm (l : List DayPlan) : (sortDays l).Perm l :=
  List.perm_insertionSort dayLe l

theorem stepProgress_completed (p : GenerationProgress) (s e total n : Nat) :
    (stepProgress p s e total n).completed_days = n := by
  unfold stepProgress
  split <;> rfl

theorem stepProgress_status (p : GenerationProgress) (s e total n : Nat) :
    (stepProgress p s e total n).status
      = if total ≤ n then "complete" else p.status := by
  unfold stepProgress
  split <;> rfl

theorem stepProgress_total (p : GenerationProgress) (s e total n : Nat) :
    (stepProgress p s e total n).total_days = p.total_days := by
  unfold stepProgress
  split <;> rfl

theorem stepProgress_error (p : GenerationProgress) (s e total n : Nat) :
    (stepProgress p s e total n).error_message = p.error_message := by
  unfold stepProgress
  split <;> rfl

theorem runBlocks_cons_ok {agent : AgentModel} {md : ItineraryMetadata}
    {total s e : Nat} {rest : List (Nat × Nat)} {acc nd : List DayPlan}
    {itin : Itinerary} {prog : GenerationProgress}
    (hblk : agent.genDayBlock s e total acc = .ok nd) :
    runBlocks agent md total ((s, e) :: rest) acc itin prog
      = (⟨stepProgress prog s e total (acc ++ nd).length,
            { itin with days := sortDays (acc ++ nd) }, some md⟩
          :: (runBlocks agent md total rest (acc ++ nd)
              { itin with days := sortDays (acc ++ nd) }
              (stepProgress prog s e total (acc ++ nd).length)).1,
         ⟨s, e, total, acc⟩
          :: (runBlocks agent md total rest (acc ++ nd)
              { itin with days := sortDays (acc ++ nd) }
              (stepProgress prog s e total (acc ++ nd).length)).2) := by
  simp only [runBlocks, hblk]

theorem runBlocks_cons_err {agent : AgentModel} {md : ItineraryMetadata}
    {total s e : Nat} {rest : List (Nat × Nat)} {acc : List DayPlan}
    {itin : Itinerary} {prog : GenerationProgress} {msg : String}
    (hblk : agent.genDayBlock s e total acc = .error msg) :
    runBlocks agent md total ((s, e) :: rest) acc itin prog
      = ([⟨failProgress prog s e msg, itin, some md⟩], [⟨s, e, total, acc⟩]) := by
  simp only [runBlocks, hblk]

/-- Characterization of the block loop when the `(k+1)`-st call raises:
the loop yields one snapshot per successful block plus the failure
snapshot, attempts exactly the first `k + 1` blocks, and the failure
snapshot has status `partial` iff days were already committed, a non-empty
error message, the committed day count, and exactly the committed days. -/
theorem runBlocks_failure (agent : AgentModel) (md : ItineraryMetadata) (total : Nat) :
    ∀ (blocks : List (Nat × Nat)) (k : Nat) (acc : List DayPlan)
      (itin : Itinerary) (prog : GenerationProgress),
      prog.completed_days = acc.length →
      itin.days.Perm acc →
      firstBlockFailure agent total blocks acc = some k →
      (runBlocks agent md total blocks acc itin prog).1.length = k + 1
      ∧ (runBlocks agent md total blocks acc itin prog).2.map
          (fun c => (c.start_day, c.end_day)) = blocks.take (k + 1)
      ∧ ∃ last, (runBlocks agent md total blocks acc itin prog).1.getLast? = some last
          ∧ last.progress.status
              = (if 0 < (accAfter agent total k blocks acc).length then "partial" else "error")
          ∧ (∃ m, last.progress.error_message = some m ∧ m ≠ "")
          ∧ last.progress.completed_days = (accAfter agent total k blocks acc).length
          ∧ last.itinerary.days.Perm (accAfter agent total k blocks acc) := by
  intro blocks
  induction blocks with
  | nil =>
    intro k acc itin prog _ _ hfail
    simp [firstBlockFailure] at hfail
  | cons be rest ih =>
    obtain ⟨s, e⟩ := be
    intro k acc itin prog hcomp hdays hfail
    cases hblk : agent.genDayBlock s e total acc with
    | error msg =>
      simp only [firstBlockFailure, hblk, Option.some.injEq] at hfail
      subst hfail
      rw [runBlocks_cons_err hblk]
      have hacc0 : accAfter agent total 0 ((s, e) :: rest) acc = acc := rfl
      refine ⟨rfl, rfl, ⟨_, rfl, ?_, ?_, ?_, ?_⟩⟩
      · show (if 0 < prog.completed_days then "partial" else "error") = _
        rw [hacc0, hcomp]
      · refine ⟨_, rfl, ?_⟩
        intro hcontra
        have hlen := congrArg String.length hcontra
        have h0 : ("" : String).length = 0 := rfl
        have h24 : ("Failed to generate days " : String).length = 24 := rfl
        simp only [String.length_append, h0] at hlen
        omega
      · show prog.completed_days = _
        rw [hacc0, hcomp]
      · rw [hacc0]
        exact hdays
    | ok nd =>
      simp only [firstBlockFailure, hblk] at hfail
      cases hfr : firstBlockFailure agent total rest (acc ++ nd) with
      | none => rw [hfr] at hfail; simp at hfail
      | some k' =>
        rw [hfr] at hfail
        simp at hfail
        subst hfail
        have haccstep : accAfter agent total (k' + 1) ((s, e) :: rest) acc
            = accAfter agent total k' rest (acc ++ nd) := by
          simp only [accAfter, hblk]
        have IH := ih k' (acc ++ nd)
          { itin with days := sortDays (acc ++ nd) }
          (stepProgress prog s e total (acc ++ nd).length)
          (stepProgress_completed _ _ _ _ _)
          (sortDays_perm (acc ++ nd))
          hfr
        obtain ⟨IH1, IH2, last, IHlast, IHrest⟩ := IH
        rw [runBlocks_cons_ok hblk]
        have hne : (runBlocks agent md total rest (acc ++ nd)
            { itin with days := sortDays (acc ++ nd) }
            (stepProgress prog s e total (acc ++ nd).length)).1 ≠ [] := by
          intro hnil
          rw [hnil] at IH1
          simp at IH1
        refine ⟨?_, ?_, ⟨last, ?_, ?_⟩⟩
        · simp only [List.length_cons, IH1]
        · simp only [List.map_cons, List.take_succ_cons, IH2]
        · rw [getLast?_cons_ne _ _ hne]
          exact IHlast
        · rw [haccstep]
          exact IHrest

/-- Witness for C1 at `total_days = 7`, `block_size = 3`. -/
theorem calculate_day_blocks_spec_witness :
    coversFrom 7 1 (calculate_day_blocks 7 3)
    ∧ sumSpans (calculate_day_blocks 7 3) = 7
    ∧ (∀ p ∈ calculate_day_blocks 7 3,
        p.2 - p.1 + 1 ≤ 3 ∧ (p.2 ≠ 7 → p.2 - p.1 + 1 = 3))
    ∧ calculate_day_blocks 7 3 = [(1, 3), (4, 6), (7, 7)]
    ∧ calculate_day_blocks 1 3 = [(1, 1)] :=
  calculate_day_blocks_spec 7 3 (by decide) (by decide)

theorem firstBlockFailure_nil (agent : AgentModel) (total : Nat) (acc : List DayPlan) :
    firstBlockFailure agent total [] acc = none := rfl

theorem generate_itinerary_iteratively_ok {agent : AgentModel}
    {md : ItineraryMetadata} {bs : Nat} (hmd : agent.genMetadata = .ok md) :
    generate_itinerary_iteratively agent bs
      = (⟨⟨derivedTotal md, 0, 0, 0, "generating_days", none⟩,
            Itinerary.from_metadata md, some md⟩
          :: (generate_days agent md (Itinerary.from_metadata md)
              ⟨derivedTotal md, 0, 0, 0, "generating_days", none⟩ [] bs).1,
         (generate_days agent md (Itinerary.from_metadata md)
            ⟨derivedTotal md, 0, 0, 0, "generating_days", none⟩ [] bs).2) := by
  simp only [generate_itinerary_iteratively, hmd]

theorem generate_days_ne {agent : AgentModel} {md : ItineraryMetadata}
    {itin : Itinerary} {prog : GenerationProgress} {existing : List DayPlan}
    {bs : Nat}
    (h : blocksFrom (existing.length + 1) prog.total_days bs ≠ []) :
    generate_days agent md itin prog existing bs
      = runBlocks agent md prog.total_days
          (blocksFrom (existing.length + 1) prog.total_days bs) existing itin prog := by
  rw [generate_days]
  simp only [List.isEmpty_eq_true]
  rw [if_neg h]

/-- **C2.** On a fresh run whose `(k+1)`-st `generate_day_block` call
raises (after `k` successful blocks), the generator yields the metadata
snapshot, one snapshot per successful block and one final failure snapshot
and then stops: only the first `k + 1` blocks are ever attempted. The final
snapshot's status is `partial` when at least one earlier block committed
days (`completed_days > 0`) and `error` when none did; its error message is
non-empty; and its itinerary holds exactly the days committed by the
successful blocks. -/
theorem day_block_failure_partial_or_error
    (agent : AgentModel) (md : ItineraryMetadata) (bs k : Nat)
    (hmd : agent.genMetadata = .ok md)
    (hfail : firstBlockFailure agent (derivedTotal md)
        (blocksFrom 1 (derivedTotal md) bs) [] = some k) :
    (generate_itinerary_iteratively agent bs).1.length = k + 2
    ∧ (generate_itinerary_iteratively agent bs).2.map
        (fun c => (c.start_day, c.end_day))
        = (blocksFrom 1 (derivedTotal md) bs).take (k + 1)
    ∧ ∃ last, (generate_itinerary_iteratively agent bs).1.getLast? = some last
        ∧ last.progress.status
            = (if 0 < (accAfter agent (derivedTotal md) k
                  (blocksFrom 1 (derivedTotal md) bs) []).length
               then "partial" else "error")
        ∧ (∃ m, last.progress.error_message = some m ∧ m ≠ "")
        ∧ last.progress.completed_days
            = (accAfter agent (derivedTotal md) k
                (blocksFrom 1 (derivedTotal md) bs) []).length
        ∧ last.itinerary.days.Perm
            (accAfter agent (derivedTotal md) k
              (blocksFrom 1 (derivedTotal md) bs) []) := by
  have hbne : blocksFrom 1 (derivedTotal md) bs ≠ [] := by
    intro hnil
    rw [hnil, firstBlockFailure_nil] at hfail
    exact Option.noConfusion hfail
  have hloop := runBlocks_failure agent md (derivedTotal md)
    (blocksFrom 1 (derivedTotal md) bs) k []
    (Itinerary.from_metadata md)
    ⟨derivedTotal md, 0, 0, 0, "generating_days", none⟩
    rfl (List.Perm.refl _) hfail
  obtain ⟨h1, h2, last, hlast, hrest⟩ := hloop
  have hexp : generate_days agent md (Itinerary.from_metadata md)
      ⟨derivedTotal md, 0, 0, 0, "generating_days", none⟩ [] bs
      = runBlocks agent md (derivedTotal md)
          (blocksFrom 1 (derivedTotal md) bs) [] (Itinerary.from_metadata md)
          ⟨derivedTotal md, 0, 0, 0, "generating_days", none⟩ :=
    generate_days_ne hbne
  have hloopne : (runBlocks agent md (derivedTotal md)
      (blocksFrom 1 (derivedTotal md) bs) [] (Itinerary.from_metadata md)
      ⟨derivedTotal md, 0, 0, 0, "generating_days", none⟩).1 ≠ [] := by
    intro hnil
    rw [hnil] at h1
    exact absurd h1.symm (by simp)
  rw [generate_itinerary_iteratively_ok hmd, hexp]
  refine ⟨?_, h2, last, ?_, hrest⟩
  · simp only [List.length_cons, h1]
  · rw [getLast?_cons_ne _ _ hloopne]
    exact hlast

/-- Witness for C2: a three-block trip (total 7, block size 3) whose second
block raises after the first committed days 1-3: the final snapshot is
`partial` with 3 completed days and exactly days 1-3, and block 3 is never
attempted. -/
theorem day_block_failure_partial_or_error_witness :
    (generate_itinerary_iteratively
        ⟨Except.ok { total_days := 7 },
          fun s e _ prev =>
            if prev.length = 0 then
              Except.ok ((List.range' s (e - s + 1)).map
                (fun i => { day_number := (i : Int), title := "d", location := "l",
                            summary := "s" }))
            else Except.error "boom"⟩ 3).1.length = 1 + 2
    ∧ ∃ last, (generate_itinerary_iteratively
        ⟨Except.ok { total_days := 7 },
          fun s e _ prev =>
            if prev.length = 0 then
              Except.ok ((List.range' s (e - s + 1)).map
                (fun i => { day_number := (i : Int), title := "d", location := "l",
                            summary := "s" }))
            else Except.error "boom"⟩ 3).1.getLast? = some last
        ∧ last.progress.status = "partial"
        ∧ last.progress.completed_days = 3 := by
  have h := day_block_failure_partial_or_error
    ⟨Except.ok { total_days := 7 },
      fun s e _ prev =>
        if prev.length = 0 then
          Except.ok ((List.range' s (e - s + 1)).map
            (fun i => { day_number := (i : Int), title := "d", location := "l",
                        summary := "s" }))
        else Except.error "boom"⟩
    { total_days := 7 } 3 1 rfl (by rfl)
  obtain ⟨h1, _, last, hlast, hstat, _, hcomp, _⟩ := h
  refine ⟨h1, last, hlast, ?_, ?_⟩
  · rw [hstat]
    rfl
  · rw [hcomp]
    rfl

theorem runBlocks_metadata_oracle_irrel
    (gm1 gm2 : Except String ItineraryMetadata)
    (f : Nat → Nat → Nat → List DayPlan → Except String (List DayPlan))
    (md : ItineraryMetadata) (total : Nat) :
    ∀ (blocks : List (Nat × Nat)) (acc : List DayPlan) (itin : Itinerary)
      (prog : GenerationProgress),
      runBlocks ⟨gm1, f⟩ md total blocks acc itin prog
        = runBlocks ⟨gm2, f⟩ md total blocks acc itin prog := by
  intro blocks
  induction blocks with
  | nil => intro acc itin prog; rfl
  | cons be rest ih =>
    obtain ⟨s, e⟩ := be
    intro acc itin prog
    cases hf : f s e total acc with
    | ok nd =>
      rw [runBlocks_cons_ok (show AgentModel.genDayBlock ⟨gm1, f⟩ s e total acc = .ok nd from hf),
        runBlocks_cons_ok (show AgentModel.genDayBlock ⟨gm2, f⟩ s e total acc = .ok nd from hf), ih]
    | error msg =>
      rw [runBlocks_cons_err (show AgentModel.genDayBlock ⟨gm1, f⟩ s e total acc = .error msg from hf),
        runBlocks_cons_err (show AgentModel.genDayBlock ⟨gm2, f⟩ s e total acc = .error msg from hf)]

theorem generate_days_metadata_oracle_irrel
    (gm1 gm2 : Except String ItineraryMetadata)
    (f : Nat → Nat → Nat → List DayPlan → Except String (List DayPlan))
    (md : ItineraryMetadata) (itin : Itinerary) (prog : GenerationProgress)
    (existing : List DayPlan) (bs : Nat) :
    generate_days ⟨gm1, f⟩ md itin prog existing bs
      = generate_days ⟨gm2, f⟩ md itin prog existing bs := by
  rw [generate_days, generate_days]
  split
  · rfl
  · exact runBlocks_metadata_oracle_irrel gm1 gm2 f md prog.total_days _ _ _ _

/-- **C3.** Resume with saved metadata and an existing partial itinerary:
`completed_days` is recomputed as the length of the existing days list and
yielded in the first snapshot; the first day-block request starts at
`completed_days + 1` and ends at `min(completed_days + block_size,
total_days)`, and passes the existing days as the continuity context; and
the whole run is independent of the metadata oracle —
`generate_itinerary_metadata` is never called. -/
theorem resume_picks_up_at_completed_plus_one
    (gm1 gm2 : Except String ItineraryMetadata)
    (f : Nat → Nat → Nat → List DayPlan → Except String (List DayPlan))
    (md : ItineraryMetadata) (existing : Itinerary) (bs : Nat)
    (hlt : existing.days.length < derivedTotal md)
    (hbs : 1 ≤ bs) :
    (resume_itinerary_generation ⟨gm1, f⟩ md existing bs).1.head?
      = some ⟨⟨derivedTotal md, existing.days.length, existing.days.length + 1, 0,
          "generating_days", none⟩, existing, some md⟩
    ∧ (resume_itinerary_generation ⟨gm1, f⟩ md existing bs).2.head?
      = some ⟨existing.days.length + 1,
          min (existing.days.length + 1 + bs - 1) (derivedTotal md),
          derivedTotal md, existing.days⟩
    ∧ resume_itinerary_generation ⟨gm1, f⟩ md existing bs
      = resume_itinerary_generation ⟨gm2, f⟩ md existing bs := by
  have hblocks := blocksFrom_pos (derivedTotal md) bs hbs
    (existing.days.length + 1) (by omega)
  refine ⟨rfl, ?_, ?_⟩
  · show (generate_days ⟨gm1, f⟩ md existing
        ⟨derivedTotal md, existing.days.length, existing.days.length + 1, 0,
          "generating_days", none⟩ existing.days bs).2.head? = _
    rw [generate_days_ne (by rw [hblocks]; exact List.cons_ne_nil _ _)]
    show (runBlocks ⟨gm1, f⟩ md (derivedTotal md)
        (blocksFrom (existing.days.length + 1) (derivedTotal md) bs)
        existing.days existing
        ⟨derivedTotal md, existing.days.length, existing.days.length + 1, 0,
          "generating_days", none⟩).2.head? = _
    rw [hblocks]
    cases hf : f (existing.days.length + 1)
        (min (existing.days.length + 1 + bs - 1) (derivedTotal md))
        (derivedTotal md) existing.days with
    | ok nd => rw [runBlocks_cons_ok hf]; rfl
    | error msg => rw [runBlocks_cons_err hf]; rfl
  · show (⟨_, existing, some md⟩
          :: (generate_days ⟨gm1, f⟩ md existing
              ⟨derivedTotal md, existing.days.length, existing.days.length + 1, 0,
                "generating_days", none⟩ existing.days bs).1,
        (generate_days ⟨gm1, f⟩ md existing
            ⟨derivedTotal md, existing.days.length, existing.days.length + 1, 0,
              "generating_days", none⟩ existing.days bs).2)
      = (⟨_, existing, some md⟩
          :: (generate_days ⟨gm2, f⟩ md existing
              ⟨derivedTotal md, existing.days.length, existing.days.length + 1, 0,
                "generating_days", none⟩ existing.days bs).1,
        (generate_days ⟨gm2, f⟩ md existing
            ⟨derivedTotal md, existing.days.length, existing.days.length + 1, 0,
              "generating_days", none⟩ existing.days bs).2)
    rw [generate_days_metadata_oracle_irrel gm1 gm2]

/-- Witness for C3 at the spec's example: 4 of 10 days done, block size 3;
the first requested block is days (5, 7) with the four existing days as
context, whatever the day-block oracle does (here: one that always raises). -/
theorem resume_picks_up_at_completed_plus_one_witness :
    (resume_itinerary_generation
        ⟨Except.error "unused", fun _ _ _ _ => Except.error "x"⟩
        { total_days := 10 }
        { days := [{ day_number := 1, title := "a", location := "a", summary := "a" },
                   { day_number := 2, title := "b", location := "b", summary := "b" },
                   { day_number := 3, title := "c", location := "c", summary := "c" },
                   { day_number := 4, title := "d", location := "d", summary := "d" }] }
        3).2.head?
      = some ⟨5, 7, 10,
          [{ day_number := 1, title := "a", location := "a", summary := "a" },
           { day_number := 2, title := "b", location := "b", summary := "b" },
           { day_number := 3, title := "c", location := "c", summary := "c" },
           { day_number := 4, title := "d", location := "d", summary := "d" }]⟩ := by
  have h := resume_picks_up_at_completed_plus_one
    (Except.error "unused") (Except.ok { total_days := 10 })
    (fun _ _ _ _ => Except.error "x")
    { total_days := 10 }
    { days := [{ day_number := 1, title := "a", location := "a", summary := "a" },
               { day_number := 2, title := "b", location := "b", summary := "b" },
               { day_number := 3, title := "c", location := "c", summary := "c" },
               { day_number := 4, title := "d", location := "d", summary := "d" }] }
    3 (by decide) (by decide)
  exact h.2.1

theorem coversFrom_mem_lb (td : Nat) :
    ∀ (l : List (Nat × Nat)) (s : Nat), coversFrom td s l → ∀ q ∈ l, s ≤ q.1 := by
  intro l
  induction l with
  | nil => intro s _ q hq; exact absurd hq (List.not_mem_nil q)
  | cons p rest ih =>
    intro s h q hq
    obtain ⟨h1, h2, h3, h4⟩ := h
    rcases List.mem_cons.mp hq with h | h
    · subst h; omega
    · have := ih (p.2 + 1) h4 q h
      omega

theorem coversFrom_pairwise (td : Nat) :
    ∀ (l : List (Nat × Nat)) (s : Nat), coversFrom td s l →
      l.Pairwise (fun p q => p.2 < q.1) := by
  intro l
  induction l with
  | nil => intro s _; exact List.Pairwise.nil
  | cons p rest ih =>
    intro s h
    obtain ⟨h1, h2, h3, h4⟩ := h
    exact List.Pairwise.cons
      (fun q hq => by have := coversFrom_mem_lb td rest (p.2 + 1) h4 q hq; omega)
      (ih (p.2 + 1) h4)

/-- The block loop preserves "days sorted ascending by day_number with
pairwise-distinct day_number values" in every yielded itinerary, for any
order and partition of pairwise-disjoint blocks, whenever the agent returns
days inside the requested range without duplicates. -/
theorem runBlocks_sorted_nodup (agent : AgentModel) (md : ItineraryMetadata)
    (total : Nat)
    (hagent : ∀ s e prev nd, agent.genDayBlock s e total prev = .ok nd →
      (∀ d ∈ nd, (s : Int) ≤ d.day_number ∧ d.day_number ≤ (e : Int))
      ∧ (nd.map (fun d => d.day_number)).Nodup) :
    ∀ (blocks : List (Nat × Nat)) (acc : List DayPlan) (itin : Itinerary)
      (prog : GenerationProgress),
      blocks.Pairwise (fun p q => p.2 < q.1) →
      (acc.map (fun d => d.day_number)).Nodup →
      (∀ d ∈ acc, ∀ p ∈ blocks,
        ¬((p.1 : Int) ≤ d.day_number ∧ d.day_number ≤ (p.2 : Int))) →
      List.Sorted dayLe itin.days →
      (itin.days.map (fun d => d.day_number)).Nodup →
      ∀ snap ∈ (runBlocks agent md total blocks acc itin prog).1,
        List.Sorted dayLe snap.itinerary.days
        ∧ (snap.itinerary.days.map (fun d => d.day_number)).Nodup := by
  intro blocks
  induction blocks with
  | nil =>
    intro acc itin prog _ _ _ hsort hnd snap hsnap
    rw [runBlocks] at hsnap
    split at hsnap
    · simp only [List.mem_singleton] at hsnap
      subst hsnap
      exact ⟨hsort, hnd⟩
    · exact absurd hsnap (List.not_mem_nil snap)
  | cons be rest ih =>
    obtain ⟨s, e⟩ := be
    intro acc itin prog hdisj hacc haccdisj hsort hnd snap hsnap
    cases hblk : agent.genDayBlock s e total acc with
    | error msg =>
      rw [runBlocks_cons_err hblk] at hsnap
      simp only [List.mem_singleton] at hsnap
      subst hsnap
      exact ⟨hsort, hnd⟩
    | ok nd =>
      have hrange := (hagent s e acc nd hblk).1
      have hndnodup := (hagent s e acc nd hblk).2
      have hdisjkeys : ∀ x ∈ acc.map (fun d => d.day_number),
          x ∉ nd.map (fun d => d.day_number) := by
        intro x hxacc hxnd
        obtain ⟨d, hd, hdx⟩ := List.mem_map.mp hxacc
        obtain ⟨d', hd', hdx'⟩ := List.mem_map.mp hxnd
        have hb := hrange d' hd'
        have hna := haccdisj d hd (s, e) (List.mem_cons_self _ _)
        rw [hdx] at hna
        rw [hdx'] at hb
        exact hna ⟨hb.1, hb.2⟩
      have hacc' : ((acc ++ nd).map (fun d => d.day_number)).Nodup := by
        rw [List.map_append, List.nodup_append]
        exact ⟨hacc, hndnodup, hdisjkeys⟩
      have hsort' : List.Sorted dayLe (sortDays (acc ++ nd)) :=
        List.sorted_insertionSort dayLe (acc ++ nd)
      have hnd' : ((sortDays (acc ++ nd)).map (fun d => d.day_number)).Nodup :=
        (((sortDays_perm (acc ++ nd)).map (fun d => d.day_number)).symm).nodup hacc'
      rw [runBlocks_cons_ok hblk] at hsnap
      rcases List.mem_cons.mp hsnap with h | h
      · subst h
        exact ⟨hsort', hnd'⟩
      · refine ih (acc ++ nd) _ _ (List.Pairwise.sublist (List.sublist_cons_self _ _) hdisj)
          hacc' ?_ hsort' hnd' snap h
        intro d hd p hp hbad
        rcases List.mem_append.mp hd with hda | hdn
        · exact haccdisj d hda p (List.mem_cons_of_mem _ hp) hbad
        · have hb := hrange d hdn
          have hlt := (List.pairwise_cons.mp hdisj).1 p hp
          omega

theorem derivedTotal_pos (md : ItineraryMetadata) : 1 ≤ derivedTotal md := by
  unfold derivedTotal
  omega

/-- **C4.** On every fresh orchestrator run whose blocks succeed with days
inside the requested (pairwise-disjoint) ranges and no duplicated
day_number, every yielded snapshot's itinerary has its days sorted
ascending by day_number with pairwise-distinct day_number values, whatever
order the blocks complete in; and `Itinerary.add_day` preserves the same
invariant when the added day's number is fresh. -/
theorem orchestrator_days_sorted_unique
    (agent : AgentModel) (md : ItineraryMetadata) (bs : Nat)
    (hmd : agent.genMetadata = .ok md)
    (hbs : 1 ≤ bs)
    (hagent : ∀ s e prev nd, agent.genDayBlock s e (derivedTotal md) prev = .ok nd →
      (∀ d ∈ nd, (s : Int) ≤ d.day_number ∧ d.day_number ≤ (e : Int))
      ∧ (nd.map (fun d => d.day_number)).Nodup) :
    (∀ snap ∈ (generate_itinerary_iteratively agent bs).1,
      List.Sorted dayLe snap.itinerary.days
      ∧ (snap.itinerary.days.map (fun d => d.day_number)).Nodup)
    ∧ (∀ (it : Itinerary) (day : DayPlan),
        List.Sorted dayLe it.days →
        (it.days.map (fun d => d.day_number)).Nodup →
        day.day_number ∉ it.days.map (fun d => d.day_number) →
        List.Sorted dayLe (it.add_day day).days
        ∧ ((it.add_day day).days.map (fun d => d.day_number)).Nodup) := by
  constructor
  · intro snap hsnap
    rw [generate_itinerary_iteratively_ok hmd] at hsnap
    have hmdays : (Itinerary.from_metadata md).days = [] := rfl
    rcases List.mem_cons.mp hsnap with h | h
    · subst h
      rw [hmdays]
      exact ⟨List.sorted_nil, List.nodup_nil⟩
    · have hblocks := blocksFrom_pos (derivedTotal md) bs hbs 1 (derivedTotal_pos md)
      rw [generate_days_ne (by
        show blocksFrom 1 (derivedTotal md) bs ≠ []
        rw [hblocks]
        exact List.cons_ne_nil _ _)] at h
      have hcov := blocksFrom_covers (derivedTotal md) bs hbs (derivedTotal md + 1) 1
        (by omega) (derivedTotal_pos md)
      refine runBlocks_sorted_nodup agent md (derivedTotal md) hagent
        (blocksFrom 1 (derivedTotal md) bs) [] (Itinerary.from_metadata md) _
        (coversFrom_pairwise (derivedTotal md) _ 1 hcov)
        List.nodup_nil
        (fun d hd => absurd hd (List.not_mem_nil d))
        (by rw [hmdays]; exact List.sorted_nil)
        (by rw [hmdays]; exact List.nodup_nil)
        snap h
  · intro it day hsort hnd hfresh
    have hdays : (it.add_day day).days = sortDays (it.days ++ [day]) := rfl
    constructor
    · rw [hdays]
      exact List.sorted_insertionSort dayLe _
    · rw [hdays]
      have happ : ((it.days ++ [day]).map (fun d => d.day_number)).Nodup := by
        rw [List.map_append, List.nodup_append]
        refine ⟨hnd, List.nodup_singleton _, ?_⟩
        intro x hx hxd
        simp only [List.map_cons, List.map_nil, List.mem_singleton] at hxd
        subst hxd
        exact hfresh hx
      exact (((sortDays_perm (it.days ++ [day])).map
        (fun d => d.day_number)).symm).nodup happ

/-- Witness for C4: a 5-day trip in blocks of 2 with an agent returning
exactly the requested day numbers; every yielded itinerary is sorted with
unique day numbers, and `add_day` of a fresh day 9 preserves the invariant. -/
theorem orchestrator_days_sorted_unique_witness :
    (∀ snap ∈ (generate_itinerary_iteratively
        ⟨Except.ok { total_days := 5 },
          fun s e _ _ =>
            Except.ok ((List.range' s (e + 1 - s)).map
              (fun (i : Nat) => { day_number := Int.ofNat i, title := "d", location := "l",
                                  summary := "s" }))⟩ 2).1,
      List.Sorted dayLe snap.itinerary.days
      ∧ (snap.itinerary.days.map (fun d => d.day_number)).Nodup)
    ∧ (List.Sorted dayLe
        (Itinerary.add_day
          { days := [{ day_number := 1, title := "a", location := "a",
                       summary := "a" }] }
          { day_number := 9, title := "z", location := "z", summary := "z" }).days) := by
  have hagent : ∀ s e prev nd,
      AgentModel.genDayBlock
        ⟨Except.ok { total_days := 5 },
          fun s e _ _ =>
            Except.ok ((List.range' s (e + 1 - s)).map
              (fun (i : Nat) => { day_number := Int.ofNat i, title := "d", location := "l",
                                  summary := "s" }))⟩ s e (derivedTotal { total_days := 5 }) prev
        = .ok nd →
      (∀ d ∈ nd, (s : Int) ≤ d.day_number ∧ d.day_number ≤ (e : Int))
      ∧ (nd.map (fun d => d.day_number)).Nodup := by
    intro s e prev nd h
    have hnd : nd = (List.range' s (e + 1 - s)).map
        (fun (i : Nat) => ({ day_number := Int.ofNat i, title := "d", location := "l",
                             summary := "s" } : DayPlan)) := by
      exact (Except.ok.injEq _ _).mp h.symm
    subst hnd
    constructor
    · intro d hd
      obtain ⟨i, hi, hid⟩ := List.mem_map.mp hd
      rw [List.mem_range'_1] at hi
      subst hid
      have hie : i ≤ e := by omega
      exact ⟨Int.ofNat_le.mpr hi.1, Int.ofNat_le.mpr hie⟩
    · rw [List.map_map]
      refine List.Nodup.map ?_ (List.nodup_range' s (e + 1 - s))
      intro a b hab
      simpa using hab
  have h := orchestrator_days_sorted_unique
    ⟨Except.ok { total_days := 5 },
      fun s e _ _ =>
        Except.ok ((List.range' s (e + 1 - s)).map
          (fun (i : Nat) => { day_number := Int.ofNat i, title := "d", location := "l",
                              summary := "s" }))⟩
    { total_days := 5 } 2 rfl (by decide) hagent
  refine ⟨h.1, ?_⟩
  exact (h.2
    { days := [{ day_number := 1, title := "a", location := "a", summary := "a" }] }
    { day_number := 9, title := "z", location := "z", summary := "z" }
    (List.sorted_singleton _) (by decide) (by decide)).1

/-- Characterization of the block loop when every call succeeds: one
snapshot per block plus the forced final `complete` snapshot, one call per
block; the loop-final progress counts every block's days, and it is already
marked `complete` whenever the count reaches `total`. -/
theorem runBlocks_success (agent : AgentModel) (md : ItineraryMetadata) (total : Nat)
    (hcount : ∀ s e prev nd, agent.genDayBlock s e total prev = .ok nd →
      nd.length = e - s + 1) :
    ∀ (blocks : List (Nat × Nat)) (acc : List DayPlan) (itin : Itinerary)
      (prog : GenerationProgress),
      prog.completed_days = acc.length →
      prog.status ≠ "error" → prog.status ≠ "partial" →
      firstBlockFailure agent total blocks acc = none →
      (runBlocks agent md total blocks acc itin prog).1.length = blocks.length + 1
      ∧ (runBlocks agent md total blocks acc itin prog).2.length = blocks.length
      ∧ ∃ pf itf,
          (runBlocks agent md total blocks acc itin prog).1.getLast?
            = some ⟨{ pf with status := "complete" }, itf, some md⟩
          ∧ (blocks = [] → pf = prog ∧ itf = itin)
          ∧ (blocks ≠ [] →
              (runBlocks agent md total blocks acc itin prog).1.dropLast.getLast?
                = some ⟨pf, itf, some md⟩)
          ∧ pf.completed_days = acc.length + sumSpans blocks
          ∧ (blocks ≠ [] → total ≤ pf.completed_days → pf.status = "complete")
          ∧ pf.status ≠ "error" ∧ pf.status ≠ "partial" := by
  intro blocks
  induction blocks with
  | nil =>
    intro acc itin prog hcomp hst1 hst2 _
    rw [runBlocks, if_pos ⟨hst1, hst2⟩]
    refine ⟨rfl, rfl, prog, itin, rfl, fun _ => ⟨rfl, rfl⟩,
      fun hne => absurd rfl hne, ?_, fun hne => absurd rfl hne, hst1, hst2⟩
    show prog.completed_days = acc.length + 0
    omega
  | cons be rest ih =>
    obtain ⟨s, e⟩ := be
    intro acc itin prog hcomp hst1 hst2 hnofail
    cases hblk : agent.genDayBlock s e total acc with
    | error msg => simp [firstBlockFailure, hblk] at hnofail
    | ok nd =>
      have hnofail' : firstBlockFailure agent total rest (acc ++ nd) = none := by
        cases hx : firstBlockFailure agent total rest (acc ++ nd) with
        | none => rfl
        | some k => simp [firstBlockFailure, hblk, hx] at hnofail
      have hstat' := stepProgress_status prog s e total (acc ++ nd).length
      have IH := ih (acc ++ nd) { itin with days := sortDays (acc ++ nd) }
        (stepProgress prog s e total (acc ++ nd).length)
        (stepProgress_completed _ _ _ _ _)
        (by rw [hstat']; split
            · exact fun hcontra => by
                exact absurd hcontra (by decide)
            · exact hst1)
        (by rw [hstat']; split
            · exact fun hcontra => by
                exact absurd hcontra (by decide)
            · exact hst2)
        hnofail'
      obtain ⟨IH1, IH2, pf, itf, IHlast, IHnil, IHne, IHcomp, IHcompl, IHs1, IHs2⟩ := IH
      have hne : (runBlocks agent md total rest (acc ++ nd)
          { itin with days := sortDays (acc ++ nd) }
          (stepProgress prog s e total (acc ++ nd).length)).1 ≠ [] := by
        intro hnil
        rw [hnil] at IH1
        exact absurd IH1.symm (by simp)
      rw [runBlocks_cons_ok hblk]
      refine ⟨by simp only [List.length_cons, IH1],
        by simp only [List.length_cons, IH2], pf, itf, ?_, ?_, ?_, ?_, ?_, IHs1, IHs2⟩
      · rw [getLast?_cons_ne _ _ hne]
        exact IHlast
      · intro hcontra
        exact absurd hcontra (List.cons_ne_nil _ _)
      · intro _
        cases hrest : rest with
        | nil =>
          subst hrest
          obtain ⟨hpf, hitf⟩ := IHnil rfl
          subst hpf
          subst hitf
          rw [runBlocks, if_pos ⟨IHs1, IHs2⟩]
          rfl
        | cons rb rrest =>
          subst hrest
          have hne2 : (runBlocks agent md total (rb :: rrest) (acc ++ nd)
              { itin with days := sortDays (acc ++ nd) }
              (stepProgress prog s e total (acc ++ nd).length)).1.dropLast ≠ [] := by
            intro hnil
            have := congrArg List.length hnil
            rw [List.length_dropLast, IH1] at this
            simp at this
          rw [List.dropLast_cons_of_ne_nil hne,
            getLast?_cons_ne _ _ hne2]
          exact IHne (List.cons_ne_nil _ _)
      · rw [IHcomp]
        have hlen : nd.length = e - s + 1 := hcount s e acc nd hblk
        have hsum : sumSpans ((s, e) :: rest) = (e - s + 1) + sumSpans rest := rfl
        rw [hsum]
        simp only [List.length_append]
        omega
      · intro _ hle
        cases hrest : rest with
        | nil =>
          subst hrest
          obtain ⟨hpf, _⟩ := IHnil rfl
          subst hpf
          rw [stepProgress_completed] at hle
          rw [stepProgress_status, if_pos hle]
        | cons rb rrest =>
          subst hrest
          exact IHcompl (List.cons_ne_nil _ _) hle

/-- **C10.** On a fresh run in which metadata succeeds and all `B` day
blocks succeed with the requested day counts, the generator yields `B + 2`
snapshots — one after metadata, one per block, and one more from the final
completeness check even though the last block's snapshot already carried
status `complete` — so the last two yielded snapshots both have status
`complete`. -/
theorem fresh_run_success_yields_blocks_plus_two
    (agent : AgentModel) (md : ItineraryMetadata) (bs : Nat)
    (hmd : agent.genMetadata = .ok md)
    (hbs : 1 ≤ bs)
    (hnofail : firstBlockFailure agent (derivedTotal md)
        (blocksFrom 1 (derivedTotal md) bs) [] = none)
    (hcount : ∀ s e prev nd,
        agent.genDayBlock s e (derivedTotal md) prev = .ok nd →
        nd.length = e - s + 1) :
    (generate_itinerary_iteratively agent bs).1.length
        = (calculate_day_blocks (derivedTotal md) bs).length + 2
    ∧ ∃ a b, (generate_itinerary_iteratively agent bs).1.getLast? = some a
        ∧ (generate_itinerary_iteratively agent bs).1.dropLast.getLast? = some b
        ∧ a.progress.status = "complete"
        ∧ b.progress.status = "complete" := by
  have hblocks := blocksFrom_pos (derivedTotal md) bs hbs 1 (derivedTotal_pos md)
  have hbne : blocksFrom 1 (derivedTotal md) bs ≠ [] := by
    rw [hblocks]
    exact List.cons_ne_nil _ _
  have hloop := runBlocks_success agent md (derivedTotal md) hcount
    (blocksFrom 1 (derivedTotal md) bs) [] (Itinerary.from_metadata md)
    ⟨derivedTotal md, 0, 0, 0, "generating_days", none⟩
    rfl (fun h => by simp at h) (fun h => by simp at h) hnofail
  obtain ⟨h1, _, pf, itf, hlast, _, hdrop, hcomp, hcompl, _, _⟩ := hloop
  have hcov := blocksFrom_covers (derivedTotal md) bs hbs (derivedTotal md + 1) 1
    (by omega) (derivedTotal_pos md)
  have hsum := coversFrom_sumSpans (derivedTotal md) _ 1 hcov
  have hloopne : (runBlocks agent md (derivedTotal md)
      (blocksFrom 1 (derivedTotal md) bs) [] (Itinerary.from_metadata md)
      ⟨derivedTotal md, 0, 0, 0, "generating_days", none⟩).1 ≠ [] := by
    intro hnil
    rw [hnil] at h1
    exact absurd h1.symm (by simp)
  have hexp : generate_days agent md (Itinerary.from_metadata md)
      ⟨derivedTotal md, 0, 0, 0, "generating_days", none⟩ [] bs
      = runBlocks agent md (derivedTotal md)
          (blocksFrom 1 (derivedTotal md) bs) [] (Itinerary.from_metadata md)
          ⟨derivedTotal md, 0, 0, 0, "generating_days", none⟩ :=
    generate_days_ne hbne
  have hdropne : (runBlocks agent md (derivedTotal md)
      (blocksFrom 1 (derivedTotal md) bs) [] (Itinerary.from_metadata md)
      ⟨derivedTotal md, 0, 0, 0, "generating_days", none⟩).1.dropLast ≠ [] := by
    intro hnil
    have := congrArg List.length hnil
    rw [List.length_dropLast, h1] at this
    simp only [List.length_nil] at this
    rw [hblocks] at this
    simp at this
  rw [generate_itinerary_iteratively_ok hmd, hexp]
  refine ⟨?_, ⟨{ pf with status := "complete" }, itf, some md⟩, ⟨pf, itf, some md⟩,
    ?_, ?_, rfl, ?_⟩
  · show _ + 1 = _
    rw [h1]
    rfl
  · rw [getLast?_cons_ne _ _ hloopne]
    exact hlast
  · rw [List.dropLast_cons_of_ne_nil hloopne, getLast?_cons_ne _ _ hdropne]
    exact hdrop hbne
  · show pf.status = "complete"
    refine hcompl hbne ?_
    rw [hcomp, hsum]
    omega

/-- Witness for C10: total 5 days, block size 2 — three blocks, metadata
and all blocks succeed with exact counts, five snapshots, last two both
`complete`. -/
theorem fresh_run_success_yields_blocks_plus_two_witness :
    (generate_itinerary_iteratively
        ⟨Except.ok { total_days := 5 },
          fun s e _ _ =>
            Except.ok ((List.range' s (e - s + 1)).map
              (fun (i : Nat) => { day_number := Int.ofNat i, title := "d",
                                  location := "l", summary := "s" }))⟩ 2).1.length
        = (calculate_day_blocks (derivedTotal { total_days := 5 }) 2).length + 2
    ∧ ∃ a b, (generate_itinerary_iteratively
        ⟨Except.ok { total_days := 5 },
          fun s e _ _ =>
            Except.ok ((List.range' s (e - s + 1)).map
              (fun (i : Nat) => { day_number := Int.ofNat i, title := "d",
                                  location := "l", summary := "s" }))⟩ 2).1.getLast? = some a
        ∧ (generate_itinerary_iteratively
        ⟨Except.ok { total_days := 5 },
          fun s e _ _ =>
            Except.ok ((List.range' s (e - s + 1)).map
              (fun (i : Nat) => { day_number := Int.ofNat i, title := "d",
                                  location := "l", summary := "s" }))⟩ 2).1.dropLast.getLast?
            = some b
        ∧ a.progress.status = "complete"
        ∧ b.progress.status = "complete" :=
  fresh_run_success_yields_blocks_plus_two
    ⟨Except.ok { total_days := 5 },
      fun s e _ _ =>
        Except.ok ((List.range' s (e - s + 1)).map
          (fun (i : Nat) => { day_number := Int.ofNat i, title := "d",
                              location := "l", summary := "s" }))⟩
    { total_days := 5 } 2 rfl (by decide) (by rfl)
    (fun s e prev nd h => by
      have hnd : nd = (List.range' s (e - s + 1)).map
          (fun (i : Nat) => ({ day_number := Int.ofNat i, title := "d",
                               location := "l", summary := "s" } : DayPlan)) :=
        (Except.ok.injEq _ _).mp h.symm
      subst hnd
      simp)

/-- **C8.** The orchestrator is a total function of the agent oracle (the
embedding itself: no exception escapes the generator), it always yields at
least one snapshot, and every expected failure — a metadata exception on a
fresh run, or a day-block exception on a fresh or resumed run — ends the
run with a final yielded snapshot carrying an error_message, so callers
need no exception handler around the generation loop. -/
theorem orchestrator_absorbs_agent_failures
    (agent : AgentModel) (md : ItineraryMetadata) (existing : Itinerary) (bs : Nat) :
    (generate_itinerary_iteratively agent bs).1 ≠ []
    ∧ (∀ e, agent.genMetadata = .error e →
        ∃ last, (generate_itinerary_iteratively agent bs).1.getLast? = some last
          ∧ last.progress.error_message.isSome)
    ∧ (∀ md' k, agent.genMetadata = .ok md' →
        firstBlockFailure agent (derivedTotal md')
          (blocksFrom 1 (derivedTotal md') bs) [] = some k →
        ∃ last, (generate_itinerary_iteratively agent bs).1.getLast? = some last
          ∧ last.progress.error_message.isSome)
    ∧ (resume_itinerary_generation agent md existing bs).1 ≠ []
    ∧ (∀ k, firstBlockFailure agent (derivedTotal md)
          (blocksFrom (existing.days.length + 1) (derivedTotal md) bs)
          existing.days = some k →
        ∃ last, (resume_itinerary_generation agent md existing bs).1.getLast? = some last
          ∧ last.progress.error_message.isSome) := by
  refine ⟨?_, ?_, ?_, ?_, ?_⟩
  · cases hgm : agent.genMetadata with
    | error e =>
      simp only [generate_itinerary_iteratively, hgm]
      exact List.cons_ne_nil _ _
    | ok md' =>
      rw [generate_itinerary_iteratively_ok hgm]
      exact List.cons_ne_nil _ _
  · intro e hgm
    simp only [generate_itinerary_iteratively, hgm]
    exact ⟨_, rfl, rfl⟩
  · intro md' k hgm hfail
    have hbne : blocksFrom 1 (derivedTotal md') bs ≠ [] := by
      intro hnil
      rw [hnil, firstBlockFailure_nil] at hfail
      exact Option.noConfusion hfail
    have hloop := runBlocks_failure agent md' (derivedTotal md')
      (blocksFrom 1 (derivedTotal md') bs) k []
      (Itinerary.from_metadata md')
      ⟨derivedTotal md', 0, 0, 0, "generating_days", none⟩
      rfl (List.Perm.refl _) hfail
    obtain ⟨h1, _, last, hlast, _, ⟨m, hm, _⟩, _⟩ := hloop
    have hloopne : (runBlocks agent md' (derivedTotal md')
        (blocksFrom 1 (derivedTotal md') bs) [] (Itinerary.from_metadata md')
        ⟨derivedTotal md', 0, 0, 0, "generating_days", none⟩).1 ≠ [] := by
      intro hnil
      rw [hnil] at h1
      exact absurd h1.symm (by simp)
    have hexp : generate_days agent md' (Itinerary.from_metadata md')
        ⟨derivedTotal md', 0, 0, 0, "generating_days", none⟩ [] bs
        = runBlocks agent md' (derivedTotal md')
            (blocksFrom 1 (derivedTotal md') bs) [] (Itinerary.from_metadata md')
            ⟨derivedTotal md', 0, 0, 0, "generating_days", none⟩ :=
      generate_days_ne hbne
    rw [generate_itinerary_iteratively_ok hgm, hexp]
    refine ⟨last, ?_, ?_⟩
    · rw [getLast?_cons_ne _ _ hloopne]
      exact hlast
    · rw [hm]
      rfl
  · exact List.cons_ne_nil _ _
  · intro k hfail
    have hbne : blocksFrom (existing.days.length + 1) (derivedTotal md) bs ≠ [] := by
      intro hnil
      rw [hnil, firstBlockFailure_nil] at hfail
      exact Option.noConfusion hfail
    have hloop := runBlocks_failure agent md (derivedTotal md)
      (blocksFrom (existing.days.length + 1) (derivedTotal md) bs) k existing.days
      existing
      ⟨derivedTotal md, existing.days.length, existing.days.length + 1, 0,
        "generating_days", none⟩
      rfl (List.Perm.refl _) hfail
    obtain ⟨h1, _, last, hlast, _, ⟨m, hm, _⟩, _⟩ := hloop
    have hloopne : (runBlocks agent md (derivedTotal md)
        (blocksFrom (existing.days.length + 1) (derivedTotal md) bs)
        existing.days existing
        ⟨derivedTotal md, existing.days.length, existing.days.length + 1, 0,
          "generating_days", none⟩).1 ≠ [] := by
      intro hnil
      rw [hnil] at h1
      exact absurd h1.symm (by simp)
    show ∃ last, (⟨⟨derivedTotal md, existing.days.length, existing.days.length + 1, 0,
          "generating_days", none⟩, existing, some md⟩
        :: (generate_days agent md existing
            ⟨derivedTotal md, existing.days.length, existing.days.length + 1, 0,
              "generating_days", none⟩ existing.days bs).1).getLast? = some last
      ∧ last.progress.error_message.isSome
    have hexp : generate_days agent md existing
        ⟨derivedTotal md, existing.days.length, existing.days.length + 1, 0,
          "generating_days", none⟩ existing.days bs
        = runBlocks agent md (derivedTotal md)
            (blocksFrom (existing.days.length + 1) (derivedTotal md) bs)
            existing.days existing
            ⟨derivedTotal md, existing.days.length, existing.days.length + 1, 0,
              "generating_days", none⟩ :=
      generate_days_ne hbne
    rw [hexp]
    refine ⟨last, ?_, ?_⟩
    · rw [getLast?_cons_ne _ _ hloopne]
      exact hlast
    · rw [hm]
      rfl

/-- Witness for C8: an agent whose metadata call raises — the fresh run
yields snapshots and its final snapshot carries an error message. -/
theorem orchestrator_absorbs_agent_failures_witness :
    (generate_itinerary_iteratively
        ⟨Except.error "network down", fun _ _ _ _ => Except.error "x"⟩ 3).1 ≠ []
    ∧ ∃ last, (generate_itinerary_iteratively
        ⟨Except.error "network down", fun _ _ _ _ => Except.error "x"⟩ 3).1.getLast?
          = some last
        ∧ last.progress.error_message.isSome := by
  have h := orchestrator_absorbs_agent_failures
    ⟨Except.error "network down", fun _ _ _ _ => Except.error "x"⟩
    { total_days := 3 } {} 3
  exact ⟨h.1, h.2.1 "network down" rfl⟩

/-! ### JSON codec round-trip: `jloads (jdump v) = some v`. -/

theorem digitChar_spec (k : Nat) (hk : k < 10) :
    (Char.ofNat ('0'.toNat + k)).toNat - '0'.toNat = k
    ∧ isDigitChar (Char.ofNat ('0'.toNat + k)) = true := by
  interval_cases k <;> exact ⟨by decide, by decide⟩

theorem natDigitsGo_fuel (n : Nat) :
    ∀ fuel fuel' acc, n < fuel → n < fuel' →
      natDigitsGo fuel n acc = natDigitsGo fuel' n acc := by
  induction n using Nat.strongRecOn with
  | _ n ih =>
    intro fuel fuel' acc hf hf'
    match fuel, hf with
    | fuel + 1, _ =>
      match fuel', hf' with
      | fuel' + 1, _ =>
        rw [natDigitsGo, natDigitsGo]
        by_cases h10 : n < 10
        · rw [if_pos h10, if_pos h10]
        · rw [if_neg h10, if_neg h10]
          exact ih (n / 10) (by omega) fuel fuel' _ (by omega) (by omega)

theorem natDigitsGo_acc (n : Nat) :
    ∀ fuel acc, n < fuel → natDigitsGo fuel n acc = natChars n ++ acc := by
  induction n using Nat.strongRecOn with
  | _ n ih =>
    intro fuel acc hf
    match fuel, hf with
    | fuel + 1, _ =>
      rw [natChars, natDigitsGo, natDigitsGo]
      by_cases h10 : n < 10
      · rw [if_pos h10, if_pos h10]
        rfl
      · rw [if_neg h10, if_neg h10]
        rw [ih (n / 10) (by omega) fuel _ (by omega),
          ih (n / 10) (by omega) n _ (by omega)]
        simp

theorem natChars_unfold (n : Nat) :
    natChars n = (if n < 10 then [] else natChars (n / 10))
      ++ [Char.ofNat ('0'.toNat + n % 10)] := by
  rw [natChars, natDigitsGo]
  by_cases h10 : n < 10
  · rw [if_pos h10, if_pos h10]
    have : n % 10 = n := Nat.mod_eq_of_lt h10
    rw [this]
    rfl
  · rw [if_neg h10, if_neg h10]
    exact natDigitsGo_acc (n / 10) n _ (by omega)

theorem natChars_ne_nil (n : Nat) : natChars n ≠ [] := by
  rw [natChars_unfold]
  simp

theorem natChars_digits (n : Nat) : ∀ c ∈ natChars n, isDigitChar c = true := by
  induction n using Nat.strongRecOn with
  | _ n ih =>
    rw [natChars_unfold]
    intro c hc
    rcases List.mem_append.mp hc with h | h
    · by_cases h10 : n < 10
      · rw [if_pos h10] at h
        exact absurd h (List.not_mem_nil c)
      · rw [if_neg h10] at h
        exact ih (n / 10) (by omega) c h
    · rw [List.mem_singleton] at h
      subst h
      exact (digitChar_spec (n % 10) (Nat.mod_lt _ (by omega))).2

theorem natChars_head_ne_zero (n : Nat) (hn : 1 ≤ n) :
    (natChars n).headI ≠ '0' := by
  induction n using Nat.strongRecOn with
  | _ n ih =>
    rw [natChars_unfold]
    by_cases h10 : n < 10
    · rw [if_pos h10]
      simp only [List.nil_append, List.headI]
      intro hc
      have := congrArg Char.toNat hc
      interval_cases n <;> simp_all
    · rw [if_neg h10]
      have hne := natChars_ne_nil (n / 10)
      cases hx : natChars (n / 10) with
      | nil => exact absurd hx hne
      | cons c t =>
        have := ih (n / 10) (by omega) (by omega)
        rw [hx] at this
        simpa using this

theorem digitsVal_append (ds : List Char) (c : Char) :
    digitsVal (ds ++ [c]) = digitsVal ds * 10 + (c.toNat - '0'.toNat) := by
  rw [digitsVal, digitsVal, List.foldl_append]
  rfl

theorem digitsVal_natChars (n : Nat) : digitsVal (natChars n) = n := by
  induction n using Nat.strongRecOn with
  | _ n ih =>
    rw [natChars_unfold]
    by_cases h10 : n < 10
    · rw [if_pos h10]
      simp only [List.nil_append]
      have : digitsVal [Char.ofNat ('0'.toNat + n % 10)]
          = (Char.ofNat ('0'.toNat + n % 10)).toNat - '0'.toNat := by
        rw [digitsVal]
        simp [List.foldl]
      rw [this, (digitChar_spec (n % 10) (Nat.mod_lt _ (by omega))).1]
      omega
    · rw [if_neg h10, digitsVal_append, ih (n / 10) (by omega),
        (digitChar_spec (n % 10) (Nat.mod_lt _ (by omega))).1]
      omega

theorem takeDigitsL_stop (cs : List Char)
    (h : cs = [] ∨ ∀ c ∈ cs.head?, isDigitChar c = false) :
    takeDigitsL cs = ([], cs) := by
  cases cs with
  | nil => rfl
  | cons c t =>
    rcases h with h | h
    · exact absurd h (List.cons_ne_nil c t)
    · have := h c rfl
      rw [takeDigitsL, if_neg (by simp [this])]

theorem takeDigitsL_append (ds : List Char) (hds : ∀ c ∈ ds, isDigitChar c = true)
    (rest : List Char) (hrest : ∀ c ∈ rest.head?, isDigitChar c = false) :
    takeDigitsL (ds ++ rest) = (ds, rest) := by
  induction ds with
  | nil =>
    simp only [List.nil_append]
    exact takeDigitsL_stop rest (Or.inr hrest)
  | cons d ds ih =>
    have hd := hds d (List.mem_cons_self d ds)
    rw [List.cons_append, takeDigitsL, if_pos hd,
      ih (fun c hc => hds c (List.mem_cons_of_mem d hc))]

theorem digit_head_facts {c : Char} (h : isDigitChar c = true) :
    c ≠ '-' ∧ c ≠ 'n' ∧ c ≠ 't' ∧ c ≠ 'f' ∧ c ≠ '"' ∧ c ≠ '['
    ∧ c ≠ '\x7b' ∧ isJsonWs c = false ∧ c ≠ ']' ∧ c ≠ '\x7d' := by
  have hc : '0'.toNat ≤ c.toNat ∧ c.toNat ≤ '9'.toNat := by
    simp only [isDigitChar, Bool.and_eq_true, decide_eq_true_eq] at h
    exact ⟨h.1, h.2⟩
  refine ⟨?_, ?_, ?_, ?_, ?_, ?_, ?_, ?_, ?_, ?_⟩
  all_goals first
    | (intro hcontra; subst hcontra; revert hc; decide)
    | (simp only [isJsonWs]
       have h1 : c ≠ ' ' := fun hh => by subst hh; revert hc; decide
       have h2 : c ≠ '\t' := fun hh => by subst hh; revert hc; decide
       have h3 : c ≠ '\n' := fun hh => by subst hh; revert hc; decide
       have h4 : c ≠ '\r' := fun hh => by subst hh; revert hc; decide
       simp [h1, h2, h3, h4])

theorem natChars_cons (n : Nat) :
    ∃ c t, natChars n = c :: t ∧ isDigitChar c = true := by
  cases hx : natChars n with
  | nil => exact absurd hx (natChars_ne_nil n)
  | cons c t =>
    refine ⟨c, t, rfl, natChars_digits n c ?_⟩
    rw [hx]
    exact List.mem_cons_self _ _

theorem jdelim_head {c : Char} {t : List Char} (h : jdelim (c :: t) = true) :
    isDigitChar c = false ∧ c ≠ '.' ∧ c ≠ 'e' ∧ c ≠ 'E' := by
  simp only [jdelim, Bool.not_eq_true', Bool.or_eq_false_iff,
    decide_eq_false_iff_not] at h
  exact ⟨h.1.1.1, h.1.1.2, h.1.2, h.2⟩

theorem takeDigitsL_delim {rest : List Char} (hr : jdelim rest = true) :
    takeDigitsL rest = ([], rest) := by
  cases rest with
  | nil => rfl
  | cons c t => rw [takeDigitsL, if_neg (by simp [(jdelim_head hr).1])]

theorem natChars_not_leadzero (n : Nat) :
    (1 < (natChars n).length ∧ (natChars n).headI = '0') → False := by
  intro ⟨hlen, hhead⟩
  by_cases h10 : n < 10
  · rw [natChars_unfold, if_pos h10] at hlen
    simp at hlen
  · exact natChars_head_ne_zero n (by omega) hhead

theorem jparseNum_intChars (i : Int) (rest : List Char) (hr : jdelim rest = true) :
    jparseNum (intChars i ++ rest) = some (i, rest) := by
  have hdig := natChars_digits i.natAbs
  have hne := natChars_ne_nil i.natAbs
  have hie : (natChars i.natAbs).isEmpty = false := by
    simp [List.isEmpty_eq_false, hne]
  have htd : takeDigitsL (natChars i.natAbs ++ rest) = (natChars i.natAbs, rest) := by
    refine takeDigitsL_append _ hdig rest ?_
    intro c hc
    cases rest with
    | nil => exact absurd hc (by simp)
    | cons r t =>
      simp only [List.head?, Option.mem_some_iff] at hc
      subst hc
      exact (jdelim_head hr).1
  have hlz : ¬(1 < (natChars i.natAbs).length ∧ (natChars i.natAbs).headI = '0') :=
    fun h => natChars_not_leadzero i.natAbs h
  have hdv := digitsVal_natChars i.natAbs
  by_cases hm : i < 0
  · have harg : intChars i ++ rest = '-' :: (natChars i.natAbs ++ rest) := by
      simp [intChars, hm]
    rw [harg]
    cases rest with
    | nil =>
      rw [List.append_nil] at htd
      simp [jparseNum, htd, hie, hlz, hdv]
      rw [abs_of_neg hm]
      exact neg_neg i
    | cons c t =>
      obtain ⟨hd, hdot, he, hE⟩ := jdelim_head hr
      simp [jparseNum, htd, hie, hlz, hdot, he, hE, hdv]
      rw [abs_of_neg hm]
      exact neg_neg i
  · obtain ⟨c0, t0, hm0, hc0⟩ := natChars_cons i.natAbs
    have hns := (digit_head_facts hc0).1
    have harg : intChars i ++ rest = c0 :: (t0 ++ rest) := by
      simp [intChars, hm, hm0]
    rw [harg]
    rw [hm0] at htd hie hlz hdv
    rw [List.cons_append] at htd
    cases rest with
    | nil =>
      rw [List.append_nil] at htd
      simp [jparseNum, hns, htd, hie, hlz, hdv]
      constructor
      · intro hl hc
        exact hlz ⟨by simp only [List.length_cons]; omega, by simp [hc]⟩
      · omega
    | cons c t =>
      obtain ⟨hd, hdot, he, hE⟩ := jdelim_head hr
      simp [jparseNum, hns, htd, hie, hlz, hdot, he, hE, hdv]
      constructor
      · intro hl hc
        exact hlz ⟨by simp only [List.length_cons]; omega, by simp [hc]⟩
      · omega

theorem hexNat?_hexDigitChar (d : Nat) (h : d < 16) :
    hexNat? (hexDigitChar d) = some d := by
  interval_cases d <;> decide

theorem jparseStrGo_escChar (c : Char) (acc rest : List Char) :
    jparseStrGo acc (escChar c ++ rest) = jparseStrGo (c :: acc) rest := by
  by_cases h1 : c = '"'
  · subst h1; rfl
  by_cases h2 : c = '\\'
  · subst h2; rfl
  by_cases h3 : c = '\n'
  · subst h3; rfl
  by_cases h4 : c = '\t'
  · subst h4; rfl
  by_cases h5 : c = '\r'
  · subst h5; rfl
  rw [escChar]
  rw [if_neg h1, if_neg h2, if_neg h3, if_neg h4, if_neg h5]
  by_cases hlt : c.toNat < 32
  · rw [if_pos hlt]
    show jparseStrGo acc ('\\' :: 'u' :: '0' :: '0'
        :: hexDigitChar (c.toNat / 16) :: hexDigitChar (c.toNat % 16) :: rest) = _
    have hx1 := hexNat?_hexDigitChar (c.toNat / 16) (by omega)
    have hx2 := hexNat?_hexDigitChar (c.toNat % 16) (by omega)
    have hval : ((0 * 16 + 0) * 16 + c.toNat / 16) * 16 + c.toNat % 16 = c.toNat := by
      omega
    have hx0 : hexNat? '0' = some 0 := by decide
    simp only [jparseStrGo, hx0, hx1, hx2]
    have hval2 : c.toNat / 16 * 16 + c.toNat % 16 = c.toNat := by omega
    rw [show (0 * 16 + 0) * 16 + c.toNat / 16 = c.toNat / 16 by omega]
    rw [show c.toNat / 16 * 16 + c.toNat % 16 = c.toNat from hval2, Char.ofNat_toNat]
  · rw [if_neg hlt]
    show jparseStrGo acc (c :: rest) = _
    rw [jparseStrGo.eq_def]
    simp [h1, h2, hlt]

theorem jparseStrGo_flatMap (cs : List Char) : ∀ (acc rest : List Char),
    jparseStrGo acc (cs.flatMap escChar ++ '"' :: rest)
      = some (String.mk (acc.reverse ++ cs), rest) := by
  induction cs with
  | nil =>
    intro acc rest
    simp [jparseStrGo]
  | cons c cs ih =>
    intro acc rest
    rw [List.flatMap_cons, List.append_assoc, jparseStrGo_escChar, ih]
    simp

theorem jparseStr_jquote (str : String) (rest : List Char) :
    jparseStrGo [] (str.data.flatMap escChar ++ '"' :: rest) = some (str, rest) := by
  rw [jparseStrGo_flatMap]
  rfl

theorem jdumpL_head (v : Json) :
    ∃ c t, jdumpL v = c :: t ∧ isJsonWs c = false ∧ c ≠ ']' ∧ c ≠ '\x7d' := by
  cases v with
  | null => refine ⟨'n', _, rfl, ?_, ?_, ?_⟩ <;> decide
  | bool b =>
    cases b with
    | true => refine ⟨'t', _, rfl, ?_, ?_, ?_⟩ <;> decide
    | false => refine ⟨'f', _, rfl, ?_, ?_, ?_⟩ <;> decide
  | str s => refine ⟨'"', _, rfl, ?_, ?_, ?_⟩ <;> decide
  | arr es => refine ⟨'[', _, rfl, ?_, ?_, ?_⟩ <;> decide
  | obj ms => refine ⟨'\x7b', _, rfl, ?_, ?_, ?_⟩ <;> decide
  | num n =>
    by_cases hm : n < 0
    · refine ⟨'-', natChars n.natAbs, by simp [jdumpL, intChars, hm], ?_, ?_, ?_⟩ <;> decide
    · obtain ⟨c0, t0, h0, hc0⟩ := natChars_cons n.natAbs
      obtain ⟨_, _, _, _, _, _, _, hws, hbr, hbc⟩ := digit_head_facts hc0
      refine ⟨c0, t0, ?_, hws, hbr, hbc⟩
      simp [jdumpL, intChars, hm, h0]

theorem jskipWs_dump (v : Json) (x : List Char) :
    jskipWs (jdumpL v ++ x) = jdumpL v ++ x := by
  obtain ⟨c, t, hdump, hws, _, _⟩ := jdumpL_head v
  rw [hdump, List.cons_append, jskipWs, if_neg (by simp [hws])]

theorem jdumpElems_head (e : Json) (es : List Json) :
    ∃ t, jdumpElems (e :: es) = jdumpL e ++ t := by
  cases es with
  | nil => exact ⟨[], by simp [jdumpElems]⟩
  | cons e' es => exact ⟨_, rfl⟩

theorem jparseVal_cons_ws {c : Char} (hc : isJsonWs c = true) (fuel : Nat)
    (cs : List Char) : jparseVal fuel (c :: cs) = jparseVal fuel cs := by
  cases fuel with
  | zero => rfl
  | succ f =>
    rw [jparseVal, jparseVal]
    rw [jskipWs, if_pos hc]

theorem jparseItems_cons_ws {c : Char} (hc : isJsonWs c = true) (fuel : Nat)
    (cs : List Char) : jparseItems fuel (c :: cs) = jparseItems fuel cs := by
  cases fuel with
  | zero => rfl
  | succ f =>
    rw [jparseItems, jparseItems, jparseVal_cons_ws hc]

theorem jparseVal_to_num (f : Nat) (c0 : Char) (t : List Char)
    (hws : isJsonWs c0 = false) (hn : c0 ≠ 'n') (ht : c0 ≠ 't') (hf : c0 ≠ 'f')
    (hq : c0 ≠ '"') (hbr : c0 ≠ '[') (hbc : c0 ≠ '\x7b') :
    jparseVal (f + 1) (c0 :: t)
      = match jparseNum (c0 :: t) with
        | some (n, r) => some (.num n, r)
        | none => none := by
  rw [jparseVal]
  rw [show jskipWs (c0 :: t) = c0 :: t from by rw [jskipWs, if_neg (by simp [hws])]]
  simp [hn, ht, hf, hq, hbr, hbc]

theorem jparseItems_step (f : Nat) (cs : List Char) :
    jparseItems (f + 1) cs
      = match jparseVal f cs with
        | none => none
        | some (v, r) =>
          match jskipWs r with
          | ',' :: r' =>
            match jparseItems f r' with
            | some (vs, r'') => some (v :: vs, r'')
            | none => none
          | ']' :: r' => some ([v], r')
          | _ => none := rfl

theorem jparsePairs_step (f : Nat) (cs : List Char) :
    jparsePairs (f + 1) cs
      = match jskipWs cs with
        | '"' :: r =>
          match jparseStrGo [] r with
          | none => none
          | some (k, r1) =>
            match jskipWs r1 with
            | ':' :: r2 =>
              match jparseVal f r2 with
              | none => none
              | some (v, r3) =>
                match jskipWs r3 with
                | ',' :: r4 =>
                  match jparsePairs f r4 with
                  | some (ms, r5) => some ((k, v) :: ms, r5)
                  | none => none
                | '\x7d' :: r4 => some ([(k, v)], r4)
                | _ => none
            | _ => none
        | _ => none := rfl

theorem jparseVal_arr (e : Json) (es : List Json) (f : Nat) (rest : List Char) :
    jparseVal (f + 1) ('[' :: (jdumpElems (e :: es) ++ ']' :: rest))
      = match jparseItems f (jdumpElems (e :: es) ++ ']' :: rest) with
        | some (vs, r) => some (.arr vs, r)
        | none => none := by
  rw [jparseVal]
  rw [show jskipWs ('[' :: (jdumpElems (e :: es) ++ ']' :: rest))
      = '[' :: (jdumpElems (e :: es) ++ ']' :: rest) from by
    rw [jskipWs, if_neg (by decide)]]
  obtain ⟨t, ht⟩ := jdumpElems_head e es
  obtain ⟨c, t', hdump, hws, hbr, _⟩ := jdumpL_head e
  have hcons : jdumpElems (e :: es) ++ ']' :: rest
      = c :: (t' ++ t ++ ']' :: rest) := by
    rw [ht, hdump]
    simp [List.append_assoc]
  have hsk2 : jskipWs (c :: (t' ++ (t ++ ']' :: rest)))
      = c :: (t' ++ (t ++ ']' :: rest)) := by
    rw [jskipWs, if_neg (by simp [hws])]
  rw [hcons]
  simp [hsk2, hbr]

theorem jdumpMembers_head (k : String) (v : Json) (ms : List (String × Json)) :
    ∃ t, jdumpMembers ((k, v) :: ms) = '"' :: t := by
  cases ms with
  | nil =>
    refine ⟨(k.data.flatMap escChar ++ ['"']) ++ ':' :: ' ' :: jdumpL v, ?_⟩
    simp [jdumpMembers, jquote]
  | cons m ms' =>
    refine ⟨(k.data.flatMap escChar ++ ['"'])
      ++ (':' :: ' ' :: jdumpL v ++ ',' :: ' ' :: jdumpMembers (m :: ms')), ?_⟩
    simp [jdumpMembers, jquote]

theorem jparseVal_obj (k : String) (v : Json) (ms : List (String × Json))
    (f : Nat) (rest : List Char) :
    jparseVal (f + 1) ('\x7b' :: (jdumpMembers ((k, v) :: ms) ++ '\x7d' :: rest))
      = match jparsePairs f (jdumpMembers ((k, v) :: ms) ++ '\x7d' :: rest) with
        | some (ps, r) => some (.obj ps, r)
        | none => none := by
  rw [jparseVal]
  rw [show jskipWs ('\x7b' :: (jdumpMembers ((k, v) :: ms) ++ '\x7d' :: rest))
      = '\x7b' :: (jdumpMembers ((k, v) :: ms) ++ '\x7d' :: rest) from by
    rw [jskipWs, if_neg (by decide)]]
  obtain ⟨t, ht⟩ := jdumpMembers_head k v ms
  have hcons : jdumpMembers ((k, v) :: ms) ++ '\x7d' :: rest
      = '"' :: (t ++ '\x7d' :: rest) := by
    rw [ht]
    simp
  have hsk2 : jskipWs ('"' :: (t ++ '\x7d' :: rest)) = '"' :: (t ++ '\x7d' :: rest) := by
    rw [jskipWs, if_neg (by decide)]
  rw [hcons]
  simp [hsk2]

mutual

theorem rt_jval : ∀ (j : Json) (fuel : Nat) (rest : List Char),
    (jdumpL j).length < fuel → jdelim rest = true →
    jparseVal fuel (jdumpL j ++ rest) = some (j, rest)
  | .null, fuel, rest, hf, _ => by
    match fuel, hf with
    | f + 1, _ =>
      show jparseVal (f + 1) ('n' :: 'u' :: 'l' :: 'l' :: rest) = _
      rw [jparseVal]
      rw [show jskipWs ('n' :: 'u' :: 'l' :: 'l' :: rest)
          = 'n' :: 'u' :: 'l' :: 'l' :: rest from by rw [jskipWs, if_neg (by decide)]]
      rfl
  | .bool true, fuel, rest, hf, _ => by
    match fuel, hf with
    | f + 1, _ =>
      show jparseVal (f + 1) ('t' :: 'r' :: 'u' :: 'e' :: rest) = _
      rw [jparseVal]
      rw [show jskipWs ('t' :: 'r' :: 'u' :: 'e' :: rest)
          = 't' :: 'r' :: 'u' :: 'e' :: rest from by rw [jskipWs, if_neg (by decide)]]
      rfl
  | .bool false, fuel, rest, hf, _ => by
    match fuel, hf with
    | f + 1, _ =>
      show jparseVal (f + 1) ('f' :: 'a' :: 'l' :: 's' :: 'e' :: rest) = _
      rw [jparseVal]
      rw [show jskipWs ('f' :: 'a' :: 'l' :: 's' :: 'e' :: rest)
          = 'f' :: 'a' :: 'l' :: 's' :: 'e' :: rest from by rw [jskipWs, if_neg (by decide)]]
      rfl
  | .num n, fuel, rest, hf, hr => by
    match fuel, hf with
    | f + 1, _ =>
      by_cases hm : n < 0
      · have harg : jdumpL (.num n) ++ rest = '-' :: (natChars n.natAbs ++ rest) := by
          simp [jdumpL, intChars, hm]
        rw [harg, jparseVal_to_num f '-' _ (by decide) (by decide) (by decide)
          (by decide) (by decide) (by decide) (by decide)]
        rw [show ('-' :: (natChars n.natAbs ++ rest)) = intChars n ++ rest from harg.symm]
        rw [jparseNum_intChars n rest hr]
      · obtain ⟨c0, t0, h0, hc0⟩ := natChars_cons n.natAbs
        obtain ⟨hns, hn, ht, hfc, hq, hbr2, hbc2, hws, _, _⟩ := digit_head_facts hc0
        have harg : jdumpL (.num n) ++ rest = c0 :: (t0 ++ rest) := by
          simp [jdumpL, intChars, hm, h0]
        rw [harg, jparseVal_to_num f c0 _ hws hn ht hfc hq hbr2 hbc2]
        rw [show (c0 :: (t0 ++ rest)) = intChars n ++ rest from harg.symm]
        rw [jparseNum_intChars n rest hr]
  | .str str, fuel, rest, hf, _ => by
    match fuel, hf with
    | f + 1, _ =>
      have harg : jdumpL (.str str) ++ rest
          = '"' :: (str.data.flatMap escChar ++ '"' :: rest) := by
        simp [jdumpL, jquote]
      rw [harg, jparseVal]
      rw [show jskipWs ('"' :: (str.data.flatMap escChar ++ '"' :: rest))
          = '"' :: (str.data.flatMap escChar ++ '"' :: rest) from by
        rw [jskipWs, if_neg (by decide)]]
      simp [jparseStr_jquote]
  | .arr [], fuel, rest, hf, _ => by
    match fuel, hf with
    | f + 1, _ =>
      show jparseVal (f + 1) ('[' :: (jdumpElems [] ++ ']' :: rest)) = _
      rw [jparseVal]
      rw [show jskipWs ('[' :: (jdumpElems [] ++ ']' :: rest))
          = '[' :: (jdumpElems [] ++ ']' :: rest) from by
        rw [jskipWs, if_neg (by decide)]]
      show (match jskipWs (']' :: rest) with
        | ']' :: r' => some (Json.arr [], r')
        | other =>
          match jparseItems f other with
          | some (es, r') => some (Json.arr es, r')
          | none => none) = _
      rw [show jskipWs (']' :: rest) = ']' :: rest from by
        rw [jskipWs, if_neg (by decide)]]
      rfl
  | .arr (e :: es), fuel, rest, hf, _ => by
    match fuel, hf with
    | f + 1, _ =>
      have harg : jdumpL (.arr (e :: es)) ++ rest
          = '[' :: (jdumpElems (e :: es) ++ ']' :: rest) := by
        simp [jdumpL]
      have hfe : (jdumpElems (e :: es)).length + 1 < f := by
        have : (jdumpL (.arr (e :: es))).length = (jdumpElems (e :: es)).length + 2 := by
          simp [jdumpL]
        omega
      rw [harg, jparseVal_arr, rt_jitems e es f rest hfe]
  | .obj [], fuel, rest, hf, _ => by
    match fuel, hf with
    | f + 1, _ =>
      show jparseVal (f + 1) ('\x7b' :: (jdumpMembers [] ++ '\x7d' :: rest)) = _
      rw [jparseVal]
      rw [show jskipWs ('\x7b' :: (jdumpMembers [] ++ '\x7d' :: rest))
          = '\x7b' :: (jdumpMembers [] ++ '\x7d' :: rest) from by
        rw [jskipWs, if_neg (by decide)]]
      show (match jskipWs ('\x7d' :: rest) with
        | '\x7d' :: r' => some (Json.obj [], r')
        | other =>
          match jparsePairs f other with
          | some (ms, r') => some (Json.obj ms, r')
          | none => none) = _
      rw [show jskipWs ('\x7d' :: rest) = '\x7d' :: rest from by
        rw [jskipWs, if_neg (by decide)]]
      rfl
  | .obj ((k, v) :: ms), fuel, rest, hf, _ => by
    match fuel, hf with
    | f + 1, _ =>
      have harg : jdumpL (.obj ((k, v) :: ms)) ++ rest
          = '\x7b' :: (jdumpMembers ((k, v) :: ms) ++ '\x7d' :: rest) := by
        simp [jdumpL]
      have hfm : (jdumpMembers ((k, v) :: ms)).length + 1 < f := by
        have : (jdumpL (.obj ((k, v) :: ms))).length
            = (jdumpMembers ((k, v) :: ms)).length + 2 := by
          simp [jdumpL]
        omega
      rw [harg, jparseVal_obj, rt_jpairs (k, v) ms f rest hfm]
termination_by j _ _ _ _ => sizeOf j

theorem rt_jitems : ∀ (e : Json) (es : List Json) (fuel : Nat) (rest : List Char),
    (jdumpElems (e :: es)).length + 1 < fuel →
    jparseItems fuel (jdumpElems (e :: es) ++ ']' :: rest) = some (e :: es, rest)
  | e, [], fuel, rest, hf => by
    match fuel, hf with
    | f + 1, _ =>
      have harg : jdumpElems [e] ++ ']' :: rest = jdumpL e ++ ']' :: rest := by
        simp [jdumpElems]
      have hfe : (jdumpL e).length < f := by
        have : (jdumpElems [e]).length = (jdumpL e).length := by simp [jdumpElems]
        omega
      rw [harg, jparseItems_step, rt_jval e f (']' :: rest) hfe rfl]
      try dsimp only
      rw [show jskipWs (']' :: rest) = ']' :: rest from by
        rw [jskipWs, if_neg (by decide)]]
      rfl
  | e, x :: xs, fuel, rest, hf => by
    match fuel, hf with
    | f + 1, _ =>
      have harg : jdumpElems (e :: x :: xs) ++ ']' :: rest
          = jdumpL e ++ ',' :: ' ' :: (jdumpElems (x :: xs) ++ ']' :: rest) := by
        simp [jdumpElems]
      have hlen : (jdumpElems (e :: x :: xs)).length
          = (jdumpL e).length + 2 + (jdumpElems (x :: xs)).length := by
        simp [jdumpElems]
        omega
      have hfe : (jdumpL e).length < f := by omega
      have hfx : (jdumpElems (x :: xs)).length + 1 < f := by omega
      have hsk : jskipWs (',' :: ' ' :: (jdumpElems (x :: xs) ++ ']' :: rest))
          = ',' :: ' ' :: (jdumpElems (x :: xs) ++ ']' :: rest) := by
        rw [jskipWs, if_neg (by decide)]
      have hiw : jparseItems f (' ' :: (jdumpElems (x :: xs) ++ ']' :: rest))
          = jparseItems f (jdumpElems (x :: xs) ++ ']' :: rest) :=
        jparseItems_cons_ws (by decide) f _
      have hitems := rt_jitems x xs f rest hfx
      rw [harg, jparseItems_step,
        rt_jval e f (',' :: ' ' :: (jdumpElems (x :: xs) ++ ']' :: rest)) hfe rfl]
      simp [hsk, hiw, hitems]
termination_by e es _ _ _ => sizeOf e + sizeOf es

theorem rt_jpairs : ∀ (kv : String × Json) (ms : List (String × Json))
    (fuel : Nat) (rest : List Char),
    (jdumpMembers (kv :: ms)).length + 1 < fuel →
    jparsePairs fuel (jdumpMembers (kv :: ms) ++ '\x7d' :: rest)
      = some (kv :: ms, rest)
  | (k, v), [], fuel, rest, hf => by
    match fuel, hf with
    | f + 1, _ =>
      have harg : jdumpMembers [(k, v)] ++ '\x7d' :: rest
          = '"' :: (k.data.flatMap escChar
              ++ '"' :: (':' :: (' ' :: (jdumpL v ++ '\x7d' :: rest)))) := by
        simp [jdumpMembers, jquote]
      have hfe : (jdumpL v).length < f := by
        have : (jdumpMembers [(k, v)]).length
            = (k.data.flatMap escChar).length + (jdumpL v).length + 4 := by
          simp [jdumpMembers, jquote]
          omega
        omega
      have hsk1 : jskipWs ('"' :: (k.data.flatMap escChar
          ++ '"' :: (':' :: (' ' :: (jdumpL v ++ '\x7d' :: rest)))))
          = '"' :: (k.data.flatMap escChar
          ++ '"' :: (':' :: (' ' :: (jdumpL v ++ '\x7d' :: rest)))) := by
        rw [jskipWs, if_neg (by decide)]
      have hsk2 : jskipWs (':' :: (' ' :: (jdumpL v ++ '\x7d' :: rest)))
          = ':' :: (' ' :: (jdumpL v ++ '\x7d' :: rest)) := by
        rw [jskipWs, if_neg (by decide)]
      have hsk3 : jskipWs ('\x7d' :: rest) = '\x7d' :: rest := by
        rw [jskipWs, if_neg (by decide)]
      have hvw : jparseVal f (' ' :: (jdumpL v ++ '\x7d' :: rest))
          = jparseVal f (jdumpL v ++ '\x7d' :: rest) :=
        jparseVal_cons_ws (by decide) f _
      have hv := rt_jval v f ('\x7d' :: rest) hfe rfl
      rw [harg, jparsePairs_step]
      simp [hsk1, jparseStr_jquote, hsk2, hvw, hv, hsk3]
  | (k, v), m :: ms', fuel, rest, hf => by
    match fuel, hf with
    | f + 1, _ =>
      have harg : jdumpMembers ((k, v) :: m :: ms') ++ '\x7d' :: rest
          = '"' :: (k.data.flatMap escChar
              ++ '"' :: (':' :: (' ' :: (jdumpL v
                ++ ',' :: ' ' :: (jdumpMembers (m :: ms') ++ '\x7d' :: rest))))) := by
        simp [jdumpMembers, jquote]
      have hlen : (jdumpMembers ((k, v) :: m :: ms')).length
          = (k.data.flatMap escChar).length + (jdumpL v).length + 6
            + (jdumpMembers (m :: ms')).length := by
        simp [jdumpMembers, jquote]
        omega
      have hfe : (jdumpL v).length < f := by omega
      have hfx : (jdumpMembers (m :: ms')).length + 1 < f := by omega
      have hsk1 : jskipWs ('"' :: (k.data.flatMap escChar
          ++ '"' :: (':' :: (' ' :: (jdumpL v
            ++ ',' :: ' ' :: (jdumpMembers (m :: ms') ++ '\x7d' :: rest))))))
          = '"' :: (k.data.flatMap escChar
          ++ '"' :: (':' :: (' ' :: (jdumpL v
            ++ ',' :: ' ' :: (jdumpMembers (m :: ms') ++ '\x7d' :: rest))))) := by
        rw [jskipWs, if_neg (by decide)]
      have hsk2 : jskipWs (':' :: (' ' :: (jdumpL v
          ++ ',' :: ' ' :: (jdumpMembers (m :: ms') ++ '\x7d' :: rest))))
          = ':' :: (' ' :: (jdumpL v
          ++ ',' :: ' ' :: (jdumpMembers (m :: ms') ++ '\x7d' :: rest))) := by
        rw [jskipWs, if_neg (by decide)]
      have hsk3 : jskipWs (',' :: ' ' :: (jdumpMembers (m :: ms') ++ '\x7d' :: rest))
          = ',' :: ' ' :: (jdumpMembers (m :: ms') ++ '\x7d' :: rest) := by
        rw [jskipWs, if_neg (by decide)]
      have hvw : jparseVal f (' ' :: (jdumpL v
          ++ ',' :: ' ' :: (jdumpMembers (m :: ms') ++ '\x7d' :: rest)))
          = jparseVal f (jdumpL v
          ++ ',' :: ' ' :: (jdumpMembers (m :: ms') ++ '\x7d' :: rest)) :=
        jparseVal_cons_ws (by decide) f _
      have hpw : jparsePairs f (' ' :: (jdumpMembers (m :: ms') ++ '\x7d' :: rest))
          = jparsePairs f (jdumpMembers (m :: ms') ++ '\x7d' :: rest) := by
        cases f with
        | zero => rfl
        | succ f2 =>
          rw [jparsePairs, jparsePairs, jskipWs, if_pos (by decide)]
      have hv := rt_jval v f
        (',' :: ' ' :: (jdumpMembers (m :: ms') ++ '\x7d' :: rest)) hfe rfl
      have hps := rt_jpairs m ms' f rest hfx
      rw [harg, jparsePairs_step]
      simp [hsk1, jparseStr_jquote, hsk2, hvw, hv, hsk3, hpw, hps]
termination_by kv ms _ _ _ => sizeOf kv + sizeOf ms

end

/-- `json.loads` inverts `json.dumps` on every JSON value. -/
theorem jloads_jdump (v : Json) : jloads (jdump v) = some v := by
  have hlen : (jdump v).length = (jdumpL v).length := rfl
  have hdata : (jdump v).data = jdumpL v := rfl
  rw [jloads, hdata, hlen]
  have hrt := rt_jval v ((jdumpL v).length + 1) [] (by omega) rfl
  rw [List.append_nil] at hrt
  rw [hrt]
  rfl

theorem dropWhile_ws_append (l r : List Char) (hl : l.dropWhile isPyWs = l)
    (hr : r.dropWhile isPyWs = r) : (l ++ r).dropWhile isPyWs = l ++ r := by
  cases l with
  | nil => simpa using hr
  | cons c t =>
    cases hx : isPyWs c with
    | false =>
      rw [List.cons_append, List.dropWhile_cons, if_neg (by simp [hx])]
    | true =>
      exfalso
      rw [List.dropWhile_cons, if_pos hx] at hl
      have h2 : (t.dropWhile isPyWs).length ≤ t.length :=
        List.Sublist.length_le (List.dropWhile_sublist _)
      have h3 := congrArg List.length hl
      simp only [List.length_cons] at h3
      omega

theorem pyStripL_id (l : List Char) (h1 : l.dropWhile isPyWs = l)
    (h2 : l.reverse.dropWhile isPyWs = l.reverse) : pyStripL l = l := by
  rw [pyStripL, h1, h2, List.reverse_reverse]

theorem splitAtTriple_append (pre post : List Char) (h : '`' ∉ pre) :
    splitAtTriple (pre ++ '`' :: '`' :: '`' :: post) = some (pre, post) := by
  induction pre with
  | nil => rfl
  | cons c t ih =>
    have hc : c ≠ '`' := fun he => h (he ▸ List.mem_cons_self c t)
    have ht : '`' ∉ t := fun hm => h (List.mem_cons_of_mem c hm)
    rw [List.cons_append]
    simp [splitAtTriple, hc, ih ht]

theorem startsClose_cons_ws {c : Char} (hc : isPyWs c = true) (l : List Char) :
    startsClose (c :: l) = startsClose l := by
  simp only [startsClose]
  rw [List.dropWhile_cons, if_pos hc]

theorem startsClose_cons {c : Char} (hc : isPyWs c = false) (l : List Char) :
    startsClose (c :: l) = (c = '\x7d' || c = ']' : Bool) := by
  simp only [startsClose]
  rw [List.dropWhile_cons, if_neg (by simp [hc])]

theorem pyWs_cases {c : Char} (h : isPyWs c = true) :
    ((c = '\x7d' || c = ']') : Bool) = false ∧ ((c = ',') : Bool) = false := by
  simp only [isPyWs, Bool.or_eq_true, decide_eq_true_eq] at h
  rcases h with ((((h | h) | h) | h) | h) | h <;> subst h <;> exact ⟨by decide, by decide⟩

theorem stripGo_pending (l : List Char) : ∀ (ws : List Char), startsClose l = false →
    stripTrailCommasGo (some ws) l = ',' :: ws.reverse ++ stripTrailCommasGo none l := by
  induction l with
  | nil => intro ws _; simp [stripTrailCommasGo]
  | cons c rest ih =>
    intro ws h
    cases hx : isPyWs c with
    | true =>
      obtain ⟨hcl, hcm⟩ := pyWs_cases hx
      have hcm2 : c ≠ ',' := by simpa using hcm
      rw [startsClose_cons_ws hx] at h
      simp [stripTrailCommasGo, hcl, hx, hcm2, ih _ h]
    | false =>
      rw [startsClose_cons hx] at h
      by_cases hcm : c = ','
      · subst hcm
        simp [stripTrailCommasGo, h, show isPyWs ',' = false from by decide]
      · simp [stripTrailCommasGo, h, hx, hcm]

theorem stripGo_none (l : List Char) (h : hasTrailPattern l = false) :
    stripTrailCommasGo none l = l := by
  induction l with
  | nil => rfl
  | cons c rest ih =>
    rw [hasTrailPattern] at h
    obtain ⟨h1, h2⟩ := Bool.or_eq_false_iff.mp h
    by_cases hcm : c = ','
    · subst hcm
      have hsc : startsClose rest = false := by simpa using h1
      rw [show stripTrailCommasGo none (',' :: rest)
          = stripTrailCommasGo (some []) rest from by simp [stripTrailCommasGo]]
      rw [stripGo_pending rest [] hsc, ih h2]
      simp
    · rw [show stripTrailCommasGo none (c :: rest)
          = c :: stripTrailCommasGo none rest from by simp [stripTrailCommasGo, hcm]]
      rw [ih h2]

theorem startsClose_ins (t : List Char) (h : startsClose (t ++ ['\x7d']) = false) :
    startsClose (t ++ ',' :: '\x7d' :: []) = false := by
  induction t with
  | nil => exact absurd h (by decide)
  | cons c t ih =>
    cases hx : isPyWs c with
    | true =>
      rw [List.cons_append, startsClose_cons_ws hx] at h
      rw [List.cons_append, startsClose_cons_ws hx]
      exact ih h
    | false =>
      rw [List.cons_append, startsClose_cons hx] at h
      rw [List.cons_append, startsClose_cons hx]
      exact h

theorem stripGo_ins (l : List Char) (h : hasTrailPattern (l ++ ['\x7d']) = false) :
    stripTrailCommasGo none (l ++ ',' :: '\x7d' :: []) = l ++ ['\x7d'] := by
  induction l with
  | nil => rfl
  | cons c t ih =>
    rw [List.cons_append, hasTrailPattern] at h
    obtain ⟨h1, h2⟩ := Bool.or_eq_false_iff.mp h
    by_cases hcm : c = ','
    · subst hcm
      have hsc : startsClose (t ++ ['\x7d']) = false := by simpa using h1
      rw [List.cons_append,
        show stripTrailCommasGo none (',' :: (t ++ ',' :: '\x7d' :: []))
          = stripTrailCommasGo (some []) (t ++ ',' :: '\x7d' :: []) from by
            simp [stripTrailCommasGo]]
      rw [stripGo_pending _ [] (startsClose_ins t hsc), ih h2]
      simp
    · rw [List.cons_append,
        show stripTrailCommasGo none (c :: (t ++ ',' :: '\x7d' :: []))
          = c :: stripTrailCommasGo none (t ++ ',' :: '\x7d' :: []) from by
            simp [stripTrailCommasGo, hcm]]
      rw [ih h2, List.cons_append]

theorem hexDigitChar_ne_nl (n : Nat) (h : n < 16) : hexDigitChar n ≠ '\n' := by
  interval_cases n <;> decide

theorem escChar_no_nl (c : Char) : '\n' ∉ escChar c := by
  rw [escChar]
  split_ifs with h1 h2 h3 h4 h5 h6
  · decide
  · decide
  · decide
  · decide
  · decide
  · intro hm
    have hd1 : c.toNat / 16 < 16 := Nat.div_lt_of_lt_mul (by omega)
    have hd2 : c.toNat % 16 < 16 := Nat.mod_lt _ (by omega)
    simp only [List.mem_cons, List.not_mem_nil, or_false] at hm
    rcases hm with h | h | h | h | h | h
    · exact absurd h (by decide)
    · exact absurd h (by decide)
    · exact absurd h (by decide)
    · exact absurd h (by decide)
    · exact hexDigitChar_ne_nl _ hd1 h.symm
    · exact hexDigitChar_ne_nl _ hd2 h.symm
  · intro hm
    simp only [List.mem_cons, List.not_mem_nil, or_false] at hm
    exact h3 hm.symm

theorem jquote_no_nl (s : String) : '\n' ∉ jquote s := by
  intro hm
  rw [jquote] at hm
  rcases List.mem_cons.mp hm with h | h
  · exact absurd h (by decide)
  rcases List.mem_append.mp h with h | h
  · obtain ⟨c, _, hc⟩ := List.mem_flatMap.mp h
    exact escChar_no_nl c hc
  · simp only [List.mem_cons, List.not_mem_nil, or_false] at h
    exact absurd h (by decide)

theorem natChars_no_nl (n : Nat) : '\n' ∉ natChars n := by
  intro hm
  exact absurd (natChars_digits n _ hm) (by decide)

theorem intChars_no_nl (i : Int) : '\n' ∉ intChars i := by
  intro hm
  rw [intChars] at hm
  rcases List.mem_append.mp hm with h | h
  · by_cases hi : i < 0
    · rw [if_pos hi] at h
      simp only [List.mem_cons, List.not_mem_nil, or_false] at h
      exact absurd h (by decide)
    · rw [if_neg hi] at h
      exact absurd h (List.not_mem_nil _)
  · exact natChars_no_nl _ h

mutual

theorem jdumpL_no_nl : ∀ (j : Json), '\n' ∉ jdumpL j
  | .null => by decide
  | .bool true => by decide
  | .bool false => by decide
  | .num n => intChars_no_nl n
  | .str s => jquote_no_nl s
  | .arr es => by
    intro hm
    rw [jdumpL] at hm
    rcases List.mem_cons.mp hm with h | h
    · exact absurd h (by decide)
    rcases List.mem_append.mp h with h | h
    · exact jdumpElems_no_nl es h
    · simp only [List.mem_cons, List.not_mem_nil, or_false] at h
      exact absurd h (by decide)
  | .obj ms => by
    intro hm
    rw [jdumpL] at hm
    rcases List.mem_cons.mp hm with h | h
    · exact absurd h (by decide)
    rcases List.mem_append.mp h with h | h
    · exact jdumpMembers_no_nl ms h
    · simp only [List.mem_cons, List.not_mem_nil, or_false] at h
      exact absurd h (by decide)

theorem jdumpElems_no_nl : ∀ (es : List Json), '\n' ∉ jdumpElems es
  | [] => by simp [jdumpElems]
  | [e] => by
    rw [jdumpElems]
    exact jdumpL_no_nl e
  | e :: e2 :: es => by
    intro hm
    rw [jdumpElems] at hm
    simp only [List.mem_append, List.mem_cons] at hm
    rcases hm with h | h | h | h
    · exact jdumpL_no_nl e h
    · exact absurd h (by decide)
    · exact absurd h (by decide)
    · exact jdumpElems_no_nl (e2 :: es) h

theorem jdumpMembers_no_nl : ∀ (ms : List (String × Json)), '\n' ∉ jdumpMembers ms
  | [] => by simp [jdumpMembers]
  | [(k, v)] => by
    intro hm
    rw [jdumpMembers] at hm
    simp only [List.mem_append, List.mem_cons] at hm
    rcases hm with h | h | h | h
    · exact jquote_no_nl k h
    · exact absurd h (by decide)
    · exact absurd h (by decide)
    · exact jdumpL_no_nl v h
  | (k, v) :: m :: ms => by
    intro hm
    rw [jdumpMembers] at hm
    simp only [List.mem_append, List.mem_cons] at hm
    rcases hm with (h | h | h | h) | h | h | h <;>
      first
        | exact jquote_no_nl k h
        | exact jdumpL_no_nl v h
        | exact jdumpMembers_no_nl (m :: ms) h
        | exact absurd h (by decide)

end

theorem splitOnNl_no_nl (l : List Char) (h : '\n' ∉ l) : splitOnNl l = [l] := by
  induction l with
  | nil => rfl
  | cons c t ih =>
    have hc : c ≠ '\n' := fun he => h (he ▸ List.mem_cons_self c t)
    have ih2 := ih (fun hm => h (List.mem_cons_of_mem c hm))
    simp [splitOnNl, hc, ih2]

theorem repairKeyLine_brace (t : List Char) : repairKeyLine ('\x7b' :: t) = '\x7b' :: t := by
  rw [repairKeyLine]
  rw [List.dropWhile_cons, if_neg (by decide)]
  simp [isIdentStart]

theorem pyStripL_fence (p1 X p2 : List Char)
    (hp1s : p1.dropWhile isPyWs = p1)
    (hp2s : p2.reverse.dropWhile isPyWs = p2.reverse) :
    pyStripL (p1 ++ '`' :: '`' :: '`' :: (X ++ '\n' :: '`' :: '`' :: '`' :: p2))
      = p1 ++ '`' :: '`' :: '`' :: (X ++ '\n' :: '`' :: '`' :: '`' :: p2) := by
  apply pyStripL_id
  · exact dropWhile_ws_append _ _ hp1s (by rw [List.dropWhile_cons, if_neg (by decide)])
  · have hsh : p1 ++ '`' :: '`' :: '`' :: (X ++ '\n' :: '`' :: '`' :: '`' :: p2)
        = (p1 ++ '`' :: '`' :: '`' :: (X ++ '\n' :: '`' :: '`' :: '`' :: [])) ++ p2 := by
      simp
    rw [hsh, List.reverse_append]
    refine dropWhile_ws_append _ _ hp2s ?_
    have hsh2 : (p1 ++ '`' :: '`' :: '`' :: (X ++ '\n' :: '`' :: '`' :: '`' :: [])).reverse
        = '`' :: ('`' :: ('`' :: ('\n' :: (X.reverse ++ '`' :: '`' :: '`' :: p1.reverse)))) := by
      simp
    rw [hsh2, List.dropWhile_cons, if_neg (by decide)]

theorem firstFenced_eval (p1 mid p2 : List Char) (hp1b : '`' ∉ p1) (hmid : '`' ∉ mid) :
    firstFencedBlock (p1 ++ '`' :: '`' :: '`' ::
        ('j' :: 's' :: 'o' :: 'n' :: ('\n' :: (('\x7b' :: (mid ++ ['\x7d'])) ++ '\n' :: '`' :: '`' :: '`' :: p2))))
      = some ('\x7b' :: (mid ++ '\x7d' :: '\n' :: [])) := by
  have hpre : '`' ∉ '\x7b' :: (mid ++ '\x7d' :: '\n' :: []) := by
    intro hm
    rcases List.mem_cons.mp hm with h | h
    · exact absurd h (by decide)
    rcases List.mem_append.mp h with h | h
    · exact hmid h
    rcases List.mem_cons.mp h with h | h
    · exact absurd h (by decide)
    rcases List.mem_cons.mp h with h | h
    · exact absurd h (by decide)
    · exact absurd h (List.not_mem_nil _)
  have hsp2 : splitAtTriple ('\x7b' :: (mid ++ '\x7d' :: '\n' :: '`' :: '`' :: '`' :: p2))
      = some ('\x7b' :: (mid ++ '\x7d' :: '\n' :: []), p2) := by
    have hres : '\x7b' :: (mid ++ '\x7d' :: '\n' :: '`' :: '`' :: '`' :: p2)
        = ('\x7b' :: (mid ++ '\x7d' :: '\n' :: [])) ++ '`' :: '`' :: '`' :: p2 := by
      simp
    rw [hres, splitAtTriple_append _ _ hpre]
  rw [firstFencedBlock, splitAtTriple_append p1 _ hp1b]
  simp only [List.take_succ_cons, List.take_zero, List.drop_succ_cons, List.drop_zero]
  simp only [if_true]
  rw [show ('\x7b' :: (mid ++ ['\x7d'])) ++ '\n' :: '`' :: '`' :: '`' :: p2
      = '\x7b' :: (mid ++ '\x7d' :: '\n' :: '`' :: '`' :: '`' :: p2) from by simp]
  rw [List.dropWhile_cons, if_pos (by decide)]
  rw [List.dropWhile_cons, if_neg (by decide)]
  rw [hsp2]

theorem extract_fenced (p1 mid p2 : List Char)
    (hp1s : p1.dropWhile isPyWs = p1) (hp1b : '`' ∉ p1)
    (hmid : '`' ∉ mid)
    (hp2s : p2.reverse.dropWhile isPyWs = p2.reverse) :
    extract_json_from_response (fencedResponse p1 ('\x7b' :: (mid ++ ['\x7d'])) p2)
      = String.mk ('\x7b' :: (mid ++ ['\x7d'])) := by
  have hstrip : pyStripL (p1 ++ '`' :: '`' :: '`' ::
      ('j' :: 's' :: 'o' :: 'n' :: ('\n' :: (('\x7b' :: (mid ++ ['\x7d'])) ++ '\n' :: '`' :: '`' :: '`' :: p2))))
      = p1 ++ '`' :: '`' :: '`' ::
        ('j' :: 's' :: 'o' :: 'n' :: ('\n' :: (('\x7b' :: (mid ++ ['\x7d'])) ++ '\n' :: '`' :: '`' :: '`' :: p2))) := by
    have h0 := pyStripL_fence p1
      ('j' :: 's' :: 'o' :: 'n' :: ('\n' :: ('\x7b' :: (mid ++ ['\x7d'])))) p2 hp1s hp2s
    simpa using h0
  have hffb := firstFenced_eval p1 mid p2 hp1b hmid
  have hinner : pyStripL ('\x7b' :: (mid ++ '\x7d' :: '\n' :: [])) = '\x7b' :: (mid ++ ['\x7d']) := by
    rw [pyStripL, List.dropWhile_cons, if_neg (by decide)]
    have hr1 : ('\x7b' :: (mid ++ '\x7d' :: '\n' :: [])).reverse
        = '\n' :: ('\x7d' :: (mid.reverse ++ ['\x7b'])) := by
      simp
    rw [hr1, List.dropWhile_cons, if_pos (by decide), List.dropWhile_cons, if_neg (by decide)]
    simp
  rw [extract_json_from_response]
  rw [show (fencedResponse p1 ('\x7b' :: (mid ++ ['\x7d'])) p2).data
      = p1 ++ '`' :: '`' :: '`' ::
        ('j' :: 's' :: 'o' :: 'n' :: ('\n' :: (('\x7b' :: (mid ++ ['\x7d'])) ++ '\n' :: '`' :: '`' :: '`' :: p2))) from rfl]
  rw [hstrip, hffb]
  simp only [hinner]
  rw [if_pos (by rfl)]

theorem jparsePairs_close (f : Nat) (rest : List Char) :
    jparsePairs f ('\x7d' :: rest) = none := by
  cases f with
  | zero => rfl
  | succ f2 =>
    rw [jparsePairs_step,
      show jskipWs ('\x7d' :: rest) = '\x7d' :: rest from by rw [jskipWs, if_neg (by decide)]]
    rfl

theorem jparseVal_obj_tail (k : String) (v : Json) (ms : List (String × Json))
    (f : Nat) (X : List Char) :
    jparseVal (f + 1) ('\x7b' :: (jdumpMembers ((k, v) :: ms) ++ X))
      = match jparsePairs f (jdumpMembers ((k, v) :: ms) ++ X) with
        | some (ps, r) => some (.obj ps, r)
        | none => none := by
  rw [jparseVal]
  rw [show jskipWs ('\x7b' :: (jdumpMembers ((k, v) :: ms) ++ X))
      = '\x7b' :: (jdumpMembers ((k, v) :: ms) ++ X) from by
    rw [jskipWs, if_neg (by decide)]]
  obtain ⟨t, ht⟩ := jdumpMembers_head k v ms
  have hcons : jdumpMembers ((k, v) :: ms) ++ X = '"' :: (t ++ X) := by
    rw [ht]
    simp
  have hsk2 : jskipWs ('"' :: (t ++ X)) = '"' :: (t ++ X) := by
    rw [jskipWs, if_neg (by decide)]
  rw [hcons]
  simp [hsk2]

theorem jparsePairs_trailing : ∀ (kv : String × Json) (ms : List (String × Json))
    (f : Nat) (rest : List Char),
    (jdumpMembers (kv :: ms)).length + 1 < f →
    jparsePairs f (jdumpMembers (kv :: ms) ++ ',' :: '\x7d' :: rest) = none
  | (k, v), [], f, rest, hf => by
    match f, hf with
    | f + 1, _ =>
      have harg : jdumpMembers [(k, v)] ++ ',' :: '\x7d' :: rest
          = '"' :: (k.data.flatMap escChar
              ++ '"' :: (':' :: (' ' :: (jdumpL v ++ ',' :: '\x7d' :: rest)))) := by
        simp [jdumpMembers, jquote]
      have hfe : (jdumpL v).length < f := by
        have hx : (jdumpMembers [(k, v)]).length
            = (k.data.flatMap escChar).length + (jdumpL v).length + 4 := by
          simp [jdumpMembers, jquote]
          omega
        omega
      have hsk1 : jskipWs ('"' :: (k.data.flatMap escChar
          ++ '"' :: (':' :: (' ' :: (jdumpL v ++ ',' :: '\x7d' :: rest)))))
          = '"' :: (k.data.flatMap escChar
          ++ '"' :: (':' :: (' ' :: (jdumpL v ++ ',' :: '\x7d' :: rest)))) := by
        rw [jskipWs, if_neg (by decide)]
      have hsk2 : jskipWs (':' :: (' ' :: (jdumpL v ++ ',' :: '\x7d' :: rest)))
          = ':' :: (' ' :: (jdumpL v ++ ',' :: '\x7d' :: rest)) := by
        rw [jskipWs, if_neg (by decide)]
      have hsk3 : jskipWs (',' :: '\x7d' :: rest) = ',' :: '\x7d' :: rest := by
        rw [jskipWs, if_neg (by decide)]
      have hvw : jparseVal f (' ' :: (jdumpL v ++ ',' :: '\x7d' :: rest))
          = jparseVal f (jdumpL v ++ ',' :: '\x7d' :: rest) :=
        jparseVal_cons_ws (by decide) f _
      have hv := rt_jval v f (',' :: '\x7d' :: rest) hfe rfl
      have hcl := jparsePairs_close f rest
      rw [harg, jparsePairs_step]
      simp [hsk1, jparseStr_jquote, hsk2, hvw, hv, hsk3, hcl]
  | (k, v), m :: ms2, f, rest, hf => by
    match f, hf with
    | f + 1, _ =>
      have harg : jdumpMembers ((k, v) :: m :: ms2) ++ ',' :: '\x7d' :: rest
          = '"' :: (k.data.flatMap escChar
              ++ '"' :: (':' :: (' ' :: (jdumpL v
                ++ ',' :: ' ' :: (jdumpMembers (m :: ms2) ++ ',' :: '\x7d' :: rest))))) := by
        simp [jdumpMembers, jquote]
      have hlen : (jdumpMembers ((k, v) :: m :: ms2)).length
          = (k.data.flatMap escChar).length + (jdumpL v).length
            + (jdumpMembers (m :: ms2)).length + 6 := by
        simp [jdumpMembers, jquote]
        omega
      have hfe : (jdumpL v).length < f := by omega
      have hfx : (jdumpMembers (m :: ms2)).length + 1 < f := by omega
      have hsk1 : jskipWs ('"' :: (k.data.flatMap escChar
          ++ '"' :: (':' :: (' ' :: (jdumpL v
            ++ ',' :: ' ' :: (jdumpMembers (m :: ms2) ++ ',' :: '\x7d' :: rest))))))
          = '"' :: (k.data.flatMap escChar
          ++ '"' :: (':' :: (' ' :: (jdumpL v
            ++ ',' :: ' ' :: (jdumpMembers (m :: ms2) ++ ',' :: '\x7d' :: rest))))) := by
        rw [jskipWs, if_neg (by decide)]
      have hsk2 : jskipWs (':' :: (' ' :: (jdumpL v
          ++ ',' :: ' ' :: (jdumpMembers (m :: ms2) ++ ',' :: '\x7d' :: rest))))
          = ':' :: (' ' :: (jdumpL v
          ++ ',' :: ' ' :: (jdumpMembers (m :: ms2) ++ ',' :: '\x7d' :: rest))) := by
        rw [jskipWs, if_neg (by decide)]
      have hsk3 : jskipWs (',' :: ' ' :: (jdumpMembers (m :: ms2) ++ ',' :: '\x7d' :: rest))
          = ',' :: ' ' :: (jdumpMembers (m :: ms2) ++ ',' :: '\x7d' :: rest) := by
        rw [jskipWs, if_neg (by decide)]
      have hvw : jparseVal f (' ' :: (jdumpL v
          ++ ',' :: ' ' :: (jdumpMembers (m :: ms2) ++ ',' :: '\x7d' :: rest)))
          = jparseVal f (jdumpL v
          ++ ',' :: ' ' :: (jdumpMembers (m :: ms2) ++ ',' :: '\x7d' :: rest)) :=
        jparseVal_cons_ws (by decide) f _
      have hpw : jparsePairs f (' ' :: (jdumpMembers (m :: ms2) ++ ',' :: '\x7d' :: rest))
          = jparsePairs f (jdumpMembers (m :: ms2) ++ ',' :: '\x7d' :: rest) := by
        cases f with
        | zero => rfl
        | succ f2 =>
          rw [jparsePairs, jparsePairs, jskipWs, if_pos (by decide)]
      have hv := rt_jval v f
        (',' :: ' ' :: (jdumpMembers (m :: ms2) ++ ',' :: '\x7d' :: rest)) hfe rfl
      have hps := jparsePairs_trailing m ms2 f rest hfx
      rw [harg, jparsePairs_step]
      simp [hsk1, jparseStr_jquote, hsk2, hvw, hv, hsk3, hpw, hps]
termination_by kv ms _ _ _ => sizeOf ms

theorem jloads_trailing (ms : List (String × Json)) :
    jloads (String.mk (withTrailingComma ms)) = none := by
  cases ms with
  | nil => rfl
  | cons m ms2 =>
    obtain ⟨k, v⟩ := m
    have hdata : (String.mk (withTrailingComma ((k, v) :: ms2))).data
        = '\x7b' :: (jdumpMembers ((k, v) :: ms2) ++ ',' :: '\x7d' :: []) := rfl
    have hlen : (String.mk (withTrailingComma ((k, v) :: ms2))).length
        = (jdumpMembers ((k, v) :: ms2)).length + 3 := by
      have : (String.mk (withTrailingComma ((k, v) :: ms2))).length
          = (withTrailingComma ((k, v) :: ms2)).length := rfl
      rw [this, withTrailingComma]
      simp
    rw [jloads, hdata, hlen]
    rw [jparseVal_obj_tail]
    rw [jparsePairs_trailing (k, v) ms2 _ [] (by omega)]

theorem repair_json_trailing (ms : List (String × Json))
    (h : hasTrailPattern (jdumpL (Json.obj ms)) = false) :
    repair_json (String.mk (withTrailingComma ms)) = jdump (Json.obj ms) := by
  have hobj : jdumpL (Json.obj ms) = '\x7b' :: (jdumpMembers ms ++ ['\x7d']) := by
    rw [jdumpL]
  have hM : hasTrailPattern (jdumpMembers ms ++ ['\x7d']) = false := by
    rw [hobj, hasTrailPattern] at h
    exact (Bool.or_eq_false_iff.mp h).2
  have hnl : '\n' ∉ withTrailingComma ms := by
    intro hm
    rw [withTrailingComma] at hm
    rcases List.mem_cons.mp hm with h2 | h2
    · exact absurd h2 (by decide)
    rcases List.mem_append.mp h2 with h2 | h2
    · exact jdumpMembers_no_nl ms h2
    rcases List.mem_cons.mp h2 with h2 | h2
    · exact absurd h2 (by decide)
    rcases List.mem_cons.mp h2 with h2 | h2
    · exact absurd h2 (by decide)
    · exact absurd h2 (List.not_mem_nil _)
  simp only [repair_json]
  rw [splitOnNl_no_nl _ hnl, List.map_cons, List.map_nil]
  rw [show repairKeyLine (withTrailingComma ms) = withTrailingComma ms from by
    rw [withTrailingComma]; exact repairKeyLine_brace _]
  rw [show joinNl [withTrailingComma ms] = withTrailingComma ms from rfl]
  rw [stripTrailCommas, withTrailingComma]
  rw [show stripTrailCommasGo none ('\x7b' :: (jdumpMembers ms ++ ',' :: '\x7d' :: []))
      = '\x7b' :: stripTrailCommasGo none (jdumpMembers ms ++ ',' :: '\x7d' :: []) from by
    simp [stripTrailCommasGo]]
  rw [stripGo_ins _ hM]
  rw [jdump, hobj]

/-- **C5 (amended).** The original claim quantifies over every JSON value
`v`; it fails when the serialization of `v` itself contains a comma
followed (over whitespace) by a closing brace or bracket inside a string
literal, because `repair_json`'s global regex also deletes that comma
(see the counterexample). For every object value whose serialization
contains no such trailing-comma pattern and no backtick, a response
carrying that serialization with one trailing comma inserted before the
final closing brace inside a fenced json code block, surrounded by prose
that contains no backtick, neither starts with whitespace (the leading
prose) nor ends with whitespace (the trailing prose), is extracted,
fails the strict parse, and is repaired and re-parsed to exactly the
original value. -/
theorem extraction_repair_roundtrip (ms : List (String × Json)) (p1 p2 : List Char)
    (hnb : '`' ∉ jdumpL (Json.obj ms))
    (hnt : hasTrailPattern (jdumpL (Json.obj ms)) = false)
    (hp1s : p1.dropWhile isPyWs = p1) (hp1b : '`' ∉ p1)
    (hp2s : p2.reverse.dropWhile isPyWs = p2.reverse) :
    parsePipeline (fencedResponse p1 (withTrailingComma ms) p2) = some (Json.obj ms) := by
  have hmid : '`' ∉ jdumpMembers ms ++ [','] := by
    intro hm
    rcases List.mem_append.mp hm with h | h
    · exact hnb (by rw [jdumpL]; exact List.mem_cons_of_mem _ (List.mem_append_left _ h))
    rcases List.mem_cons.mp h with h | h
    · exact absurd h (by decide)
    · exact absurd h (List.not_mem_nil _)
  have hbody : withTrailingComma ms = '\x7b' :: ((jdumpMembers ms ++ [',']) ++ ['\x7d']) := by
    rw [withTrailingComma]
    simp
  have hext : extract_json_from_response (fencedResponse p1 (withTrailingComma ms) p2)
      = String.mk (withTrailingComma ms) := by
    rw [hbody]
    exact extract_fenced p1 (jdumpMembers ms ++ [',']) p2 hp1s hp1b hmid hp2s
  simp only [parsePipeline]
  rw [hext, jloads_trailing]
  show jloads (repair_json (String.mk (withTrailingComma ms))) = some (Json.obj ms)
  rw [repair_json_trailing ms hnt, jloads_jdump]

/-- Witness for C5 at `v = {"a": null}` between one-character prose pieces:
the hypotheses hold and the pipeline returns exactly `v`. -/
theorem extraction_repair_roundtrip_witness :
    ('`' ∉ jdumpL (Json.obj [("a", Json.null)]))
    ∧ hasTrailPattern (jdumpL (Json.obj [("a", Json.null)])) = false
    ∧ parsePipeline (fencedResponse ['x'] (withTrailingComma [("a", Json.null)]) ['y'])
        = some (Json.obj [("a", Json.null)]) :=
  ⟨by decide, by decide,
    extraction_repair_roundtrip [("a", Json.null)] ['x'] ['y']
      (by decide) (by decide) (by decide) (by decide) (by decide)⟩

/-- Counterexample to C5 as frozen: for `v = {"a": ",\x7d"}` — a value whose
serialization contains a comma directly before a closing brace inside a
string literal — the fenced response with one inserted trailing comma runs
through extraction, strict parse failure and repair, but the repair regex
also strips the comma inside the string literal, so the pipeline returns
`{"a": "\x7d"}`, not `v`. -/
theorem extraction_repair_roundtrip_cex :
    parsePipeline (fencedResponse [] (withTrailingComma [("a", Json.str ",\x7d")]) [])
      ≠ some (Json.obj [("a", Json.str ",\x7d")]) := by
  intro h
  exact absurd (congrArg (Option.map jdump) h) (by decide)

theorem digitsVal_cons0 (ds : List Char) : digitsVal ('0' :: ds) = digitsVal ds := rfl

theorem pad2_digits (n : Nat) : ∀ c ∈ pad2 n, isDigitChar c = true := by
  intro c hc
  rw [pad2] at hc
  by_cases h : n < 10
  · rw [if_pos h] at hc
    rcases List.mem_cons.mp hc with h2 | h2
    · subst h2; decide
    · exact natChars_digits n c h2
  · rw [if_neg h] at hc
    exact natChars_digits n c hc

theorem pad4_digits (n : Nat) : ∀ c ∈ pad4 n, isDigitChar c = true := by
  intro c hc
  rw [pad4] at hc
  split_ifs at hc
  · rcases List.mem_cons.mp hc with h | h
    · subst h; decide
    rcases List.mem_cons.mp h with h | h
    · subst h; decide
    rcases List.mem_cons.mp h with h | h
    · subst h; decide
    · exact natChars_digits n c h
  · rcases List.mem_cons.mp hc with h | h
    · subst h; decide
    rcases List.mem_cons.mp h with h | h
    · subst h; decide
    · exact natChars_digits n c h
  · rcases List.mem_cons.mp hc with h | h
    · subst h; decide
    · exact natChars_digits n c h
  · exact natChars_digits n c hc

theorem natChars_len1 (n : Nat) (h : n < 10) : (natChars n).length = 1 := by
  rw [natChars_unfold, if_pos h]
  rfl

theorem natChars_len2 (n : Nat) (h1 : 10 ≤ n) (h2 : n < 100) :
    (natChars n).length = 2 := by
  rw [natChars_unfold, if_neg (by omega)]
  simp [natChars_len1 (n / 10) (by omega)]

theorem natChars_len3 (n : Nat) (h1 : 100 ≤ n) (h2 : n < 1000) :
    (natChars n).length = 3 := by
  rw [natChars_unfold, if_neg (by omega)]
  simp [natChars_len2 (n / 10) (by omega) (by omega)]

theorem natChars_len4 (n : Nat) (h1 : 1000 ≤ n) (h2 : n < 10000) :
    (natChars n).length = 4 := by
  rw [natChars_unfold, if_neg (by omega)]
  simp [natChars_len3 (n / 10) (by omega) (by omega)]

theorem pad2_len (n : Nat) (h : n < 100) : (pad2 n).length = 2 := by
  rw [pad2]
  by_cases h1 : n < 10
  · rw [if_pos h1]; simp [natChars_len1 n h1]
  · rw [if_neg h1]; exact natChars_len2 n (by omega) h

theorem pad4_len (n : Nat) (h : n < 10000) : (pad4 n).length = 4 := by
  rw [pad4]
  by_cases h1 : n < 10
  · rw [if_pos h1]; simp [natChars_len1 n h1]
  by_cases h2 : n < 100
  · rw [if_neg h1, if_pos h2]; simp [natChars_len2 n (by omega) h2]
  by_cases h3 : n < 1000
  · rw [if_neg h1, if_neg h2, if_pos h3]; simp [natChars_len3 n (by omega) h3]
  · rw [if_neg h1, if_neg h2, if_neg h3]; exact natChars_len4 n (by omega) h

theorem digitsVal_pad2 (n : Nat) : digitsVal (pad2 n) = n := by
  rw [pad2]
  by_cases h1 : n < 10
  · rw [if_pos h1, digitsVal_cons0, digitsVal_natChars]
  · rw [if_neg h1, digitsVal_natChars]

theorem digitsVal_pad4 (n : Nat) : digitsVal (pad4 n) = n := by
  rw [pad4]
  by_cases h1 : n < 10
  · rw [if_pos h1, digitsVal_cons0, digitsVal_cons0, digitsVal_cons0, digitsVal_natChars]
  by_cases h2 : n < 100
  · rw [if_neg h1, if_pos h2, digitsVal_cons0, digitsVal_cons0, digitsVal_natChars]
  by_cases h3 : n < 1000
  · rw [if_neg h1, if_neg h2, if_pos h3, digitsVal_cons0, digitsVal_natChars]
  · rw [if_neg h1, if_neg h2, if_neg h3, digitsVal_natChars]

theorem pad2_cons (n : Nat) : ∃ c t, pad2 n = c :: t ∧ isDigitChar c = true := by
  rw [pad2]
  by_cases h : n < 10
  · rw [if_pos h]; exact ⟨'0', _, rfl, by decide⟩
  · rw [if_neg h]; exact natChars_cons n

theorem pad4_cons (n : Nat) : ∃ c t, pad4 n = c :: t ∧ isDigitChar c = true := by
  rw [pad4]
  split_ifs
  · exact ⟨'0', _, rfl, by decide⟩
  · exact ⟨'0', _, rfl, by decide⟩
  · exact ⟨'0', _, rfl, by decide⟩
  · exact natChars_cons n

theorem strptimeHMS_timeIso (t : PyTime) (h : t.valid) :
    strptimeHMS (pad2 t.hour ++ ':' :: (pad2 t.minute ++ ':' :: pad2 t.second))
      = some t := by
  obtain ⟨hh, hm, hs⟩ := h
  have hd1 : takeDigitsL (pad2 t.hour ++ ':' :: (pad2 t.minute ++ ':' :: pad2 t.second))
      = (pad2 t.hour, ':' :: (pad2 t.minute ++ ':' :: pad2 t.second)) :=
    takeDigitsL_append _ (pad2_digits _) _ (by intro c hc; simp at hc; subst hc; decide)
  have hd2 : takeDigitsL (pad2 t.minute ++ ':' :: pad2 t.second)
      = (pad2 t.minute, ':' :: pad2 t.second) :=
    takeDigitsL_append _ (pad2_digits _) _ (by intro c hc; simp at hc; subst hc; decide)
  have hd3 : takeDigitsL (pad2 t.second) = (pad2 t.second, []) := by
    have h0 := takeDigitsL_append (pad2 t.second) (pad2_digits _) []
      (by intro c hc; simp at hc)
    simpa using h0
  have hl1 : (pad2 t.hour).length = 2 := pad2_len _ (by omega)
  have hl2 : (pad2 t.minute).length = 2 := pad2_len _ (by omega)
  have hl3 : (pad2 t.second).length = 2 := pad2_len _ (by omega)
  simp only [strptimeHMS, hd1, hd2, hd3, hl1, hl2, hl3, digitsVal_pad2,
    List.isEmpty_nil]
  simp [hh, hm, hs]

theorem strptimeHM_timeIso (t : PyTime) (h : t.valid) :
    strptimeHM (pad2 t.hour ++ ':' :: (pad2 t.minute ++ ':' :: pad2 t.second))
      = none := by
  obtain ⟨hh, hm, _⟩ := h
  have hd1 : takeDigitsL (pad2 t.hour ++ ':' :: (pad2 t.minute ++ ':' :: pad2 t.second))
      = (pad2 t.hour, ':' :: (pad2 t.minute ++ ':' :: pad2 t.second)) :=
    takeDigitsL_append _ (pad2_digits _) _ (by intro c hc; simp at hc; subst hc; decide)
  have hd2 : takeDigitsL (pad2 t.minute ++ ':' :: pad2 t.second)
      = (pad2 t.minute, ':' :: pad2 t.second) :=
    takeDigitsL_append _ (pad2_digits _) _ (by intro c hc; simp at hc; subst hc; decide)
  have hl1 : (pad2 t.hour).length = 2 := pad2_len _ (by omega)
  have hl2 : (pad2 t.minute).length = 2 := pad2_len _ (by omega)
  simp [strptimeHM, hd1, hd2, hl1, hl2]

theorem parse_time_timeIso (t : PyTime) (h : t.valid) :
    parse_time (.str (timeIso t)) = some t := by
  obtain ⟨c, tl, hpad, hdig⟩ := pad2_cons t.hour
  have hcn : c ≠ 'n' ∧ c ≠ '-' := ⟨(digit_head_facts hdig).2.1, (digit_head_facts hdig).1⟩
  have hne1 : timeIso t ≠ "null" := by
    intro he
    have hdata := congrArg String.data he
    rw [show (timeIso t).data
        = pad2 t.hour ++ ':' :: (pad2 t.minute ++ ':' :: pad2 t.second) from rfl,
      hpad] at hdata
    simp at hdata
    exact hcn.1 hdata.1
  have hne2 : timeIso t ≠ "" := by
    intro he
    have hdata := congrArg String.data he
    rw [show (timeIso t).data
        = pad2 t.hour ++ ':' :: (pad2 t.minute ++ ':' :: pad2 t.second) from rfl,
      hpad] at hdata
    simp at hdata
  simp only [parse_time]
  rw [if_neg (by simp [hne1, hne2])]
  rw [show (timeIso t).data
      = pad2 t.hour ++ ':' :: (pad2 t.minute ++ ':' :: pad2 t.second) from rfl]
  rw [strptimeHM_timeIso t h, strptimeHMS_timeIso t h]

theorem strptimeYMD_dateIso (d : PyDate) (h : d.valid) :
    strptimeYMD (pad4 d.year ++ '-' :: (pad2 d.month ++ '-' :: pad2 d.day))
      = some d := by
  obtain ⟨hy1, hy2, hm1, hm2, hd1v, hd2v⟩ := h
  have hd1 : takeDigitsL (pad4 d.year ++ '-' :: (pad2 d.month ++ '-' :: pad2 d.day))
      = (pad4 d.year, '-' :: (pad2 d.month ++ '-' :: pad2 d.day)) :=
    takeDigitsL_append _ (pad4_digits _) _ (by intro c hc; simp at hc; subst hc; decide)
  have hd2 : takeDigitsL (pad2 d.month ++ '-' :: pad2 d.day)
      = (pad2 d.month, '-' :: pad2 d.day) :=
    takeDigitsL_append _ (pad2_digits _) _ (by intro c hc; simp at hc; subst hc; decide)
  have hd3 : takeDigitsL (pad2 d.day) = (pad2 d.day, []) := by
    have h0 := takeDigitsL_append (pad2 d.day) (pad2_digits _) []
      (by intro c hc; simp at hc)
    simpa using h0
  have hdm : daysInMonth d.year d.month ≤ 31 := by
    rw [daysInMonth]; split_ifs <;> omega
  have hl1 : (pad4 d.year).length = 4 := pad4_len _ (by omega)
  have hl2 : (pad2 d.month).length = 2 := pad2_len _ (by omega)
  have hl3 : (pad2 d.day).length = 2 := pad2_len _ (by omega)
  simp only [strptimeYMD, hd1, hd2, hd3, hl1, hl2, hl3, digitsVal_pad4,
    digitsVal_pad2, List.isEmpty_nil]
  simp [hy1, hm1, hm2, hd1v, hd2v]

theorem parse_date_dateIso (d : PyDate) (h : d.valid) :
    parse_date (.str (dateIso d)) = some d := by
  obtain ⟨c, tl, hpad, hdig⟩ := pad4_cons d.year
  have hcn : c ≠ 'n' := (digit_head_facts hdig).2.1
  have hne1 : dateIso d ≠ "null" := by
    intro he
    have hdata := congrArg String.data he
    rw [show (dateIso d).data
        = pad4 d.year ++ '-' :: (pad2 d.month ++ '-' :: pad2 d.day) from rfl,
      hpad] at hdata
    simp at hdata
    exact hcn hdata.1
  have hne2 : dateIso d ≠ "" := by
    intro he
    have hdata := congrArg String.data he
    rw [show (dateIso d).data
        = pad4 d.year ++ '-' :: (pad2 d.month ++ '-' :: pad2 d.day) from rfl,
      hpad] at hdata
    simp at hdata
  simp only [parse_date]
  rw [if_neg (by simp [hne1, hne2])]
  rw [show (dateIso d).data
      = pad4 d.year ++ '-' :: (pad2 d.month ++ '-' :: pad2 d.day) from rfl]
  rw [strptimeYMD_dateIso d h]

theorem mapM_rt {α β : Type} (f : β → Option α) (g : α → β) :
    ∀ (l : List α), (∀ x ∈ l, f (g x) = some x) → (l.map g).mapM f = some l
  | [], _ => rfl
  | x :: xs, h => by
    rw [List.map_cons, List.mapM_cons, h x (List.mem_cons_self x xs),
      mapM_rt f g xs (fun y hy => h y (List.mem_cons_of_mem x hy))]
    rfl

theorem strList_rt (l : List String) : (l.map Json.str).mapM jStrAtom = some l :=
  mapM_rt jStrAtom Json.str l (fun _ _ => rfl)

theorem strMap_rt (l : List (String × String)) :
    (l.map (fun p => (p.1, Json.str p.2))).mapM
      (fun p => match p.2 with | .str s => some (p.1, s) | _ => none) = some l := by
  induction l with
  | nil => rfl
  | cons x xs ih =>
    rw [List.map_cons, List.mapM_cons]
    simp only [ih]
    rfl

theorem jOptStr_rt (o : Option String) : jOptStr (some (optStrJson o)) = some o := by
  cases o <;> rfl

theorem jTimeD_rt (o : Option PyTime)
    (h : (match o with | none => true | some t => decide t.valid) = true) :
    jTimeD (some (optTimeJson o)) = o := by
  cases o with
  | none => rfl
  | some t =>
    simp only [decide_eq_true_eq] at h
    exact parse_time_timeIso t h

theorem jDateD_rt (o : Option PyDate)
    (h : (match o with | none => true | some x => decide x.valid) = true) :
    jDateD (some (optDateJson o)) = o := by
  cases o with
  | none => rfl
  | some x =>
    simp only [decide_eq_true_eq] at h
    exact parse_date_dateIso x h

theorem TravelTip_rt (t : TravelTip) :
    TravelTip.fromJson (TravelTip.toJson t) = some t := by
  simp [TravelTip.toJson, TravelTip.fromJson, objGet, jStrReq, jStrD]

theorem Activity_rt (a : Activity) (h : a.storable = true) :
    Activity.fromJson (Activity.toJson a) = some a := by
  rw [Activity.storable, Bool.and_eq_true, Bool.and_eq_true] at h
  obtain ⟨⟨hty, hst⟩, het⟩ := h
  simp only [decide_eq_true_eq] at hty
  have htips : List.mapM.loop TravelTip.fromJson
      (List.map TravelTip.toJson a.tips) [] = some a.tips :=
    mapM_rt TravelTip.fromJson TravelTip.toJson a.tips (fun x _ => TravelTip_rt x)
  simp [Activity.toJson, Activity.fromJson, objGet, jStrReq, jStrD, jBoolD,
    jActTypeD, jArrD, jOptStr_rt, jTimeD_rt _ hst, jTimeD_rt _ het, htips, hty]

theorem DayPlan_rt (d : DayPlan) (h : d.storable = true) :
    DayPlan.fromJson (DayPlan.toJson d) = some d := by
  rw [DayPlan.storable, Bool.and_eq_true] at h
  obtain ⟨hdate, hacts⟩ := h
  have hacts2 : ∀ a ∈ d.activities, Activity.fromJson (Activity.toJson a) = some a := by
    intro a ha
    exact Activity_rt a (by
      rw [List.all_eq_true] at hacts
      exact hacts a ha)
  have hmact : List.mapM.loop Activity.fromJson
      (List.map Activity.toJson d.activities) [] = some d.activities :=
    mapM_rt Activity.fromJson Activity.toJson d.activities hacts2
  have htips : List.mapM.loop TravelTip.fromJson
      (List.map TravelTip.toJson d.tips) [] = some d.tips :=
    mapM_rt TravelTip.fromJson TravelTip.toJson d.tips (fun x _ => TravelTip_rt x)
  have hql : List.mapM.loop jStrAtom
      (List.map Json.str d.image_queries) [] = some d.image_queries :=
    strList_rt d.image_queries
  have hpl : List.mapM.loop jStrAtom
      (List.map Json.str d.image_paths) [] = some d.image_paths :=
    strList_rt d.image_paths
  simp [DayPlan.toJson, DayPlan.fromJson, objGet, jStrReq, jIntReq, jStrD,
    jOptStr_rt, jDateD_rt _ hdate, jArrD, jStrListD, hql, hpl, hmact, htips]

theorem Itinerary_rt (it : Itinerary) (h : it.storable = true) :
    Itinerary.fromJson (Itinerary.toJson it) = some it := by
  rw [Itinerary.storable, Bool.and_eq_true, Bool.and_eq_true] at h
  obtain ⟨⟨hsd, hed⟩, hdays⟩ := h
  have hdays2 : ∀ x ∈ it.days, DayPlan.fromJson (DayPlan.toJson x) = some x := by
    intro x hx
    exact DayPlan_rt x (by
      rw [List.all_eq_true] at hdays
      exact hdays x hx)
  have hmdays : List.mapM.loop DayPlan.fromJson
      (List.map DayPlan.toJson it.days) [] = some it.days :=
    mapM_rt DayPlan.fromJson DayPlan.toJson it.days hdays2
  have htips : List.mapM.loop TravelTip.fromJson
      (List.map TravelTip.toJson it.general_tips) [] = some it.general_tips :=
    mapM_rt TravelTip.fromJson TravelTip.toJson it.general_tips
      (fun x _ => TravelTip_rt x)
  have hcont : List.mapM.loop
      (fun p => match p.2 with | Json.str s => some (p.1, s) | _ => none)
      (List.map (fun p => (p.1, Json.str p.2)) it.emergency_contacts) []
      = some it.emergency_contacts :=
    strMap_rt it.emergency_contacts
  have hpack : List.mapM.loop jStrAtom
      (List.map Json.str it.packing_list) [] = some it.packing_list :=
    strList_rt it.packing_list
  have hurls : List.mapM.loop jStrAtom
      (List.map Json.str it.blog_urls) [] = some it.blog_urls :=
    strList_rt it.blog_urls
  simp [Itinerary.toJson, Itinerary.fromJson, objGet, jStrD, jIntD, jOptStr_rt,
    jDateD_rt _ hsd, jDateD_rt _ hed, jArrD, jStrListD, jStrMapD, hpack, hurls,
    hmdays, htips, hcont]

theorem ChatMessage_rt (m : ChatMessage) :
    ChatMessage.fromJson (ChatMessage.toJson m) = some m := by
  simp [ChatMessage.toJson, ChatMessage.fromJson, objGet, jStrReq]

theorem SavedBlogContent_rt (b : SavedBlogContent) :
    SavedBlogContent.fromJson (SavedBlogContent.toJson b) = some b := by
  have h1 : List.mapM.loop jStrAtom (List.map Json.str b.tips) [] = some b.tips :=
    strList_rt b.tips
  have h2 : List.mapM.loop jStrAtom
      (List.map Json.str b.highlights) [] = some b.highlights :=
    strList_rt b.highlights
  have h3 : List.mapM.loop jStrAtom (List.map Json.str b.images) [] = some b.images :=
    strList_rt b.images
  simp [SavedBlogContent.toJson, SavedBlogContent.fromJson, objGet, jStrReq,
    jStrD, jStrListD, h1, h2, h3]

theorem blogMap_rt (l : List (String × SavedBlogContent)) :
    (l.map (fun p => (p.1, p.2.toJson))).mapM
      (fun p => (SavedBlogContent.fromJson p.2).map (fun b => (p.1, b))) = some l := by
  induction l with
  | nil => rfl
  | cons x xs ih =>
    rw [List.map_cons, List.mapM_cons]
    simp only [SavedBlogContent_rt, Option.map_some, ih]
    rfl

theorem PlannerSession_rt (s : PlannerSession) (h : s.storable = true) :
    PlannerSession.fromJson (PlannerSession.toJson s) = some s := by
  have hchat : List.mapM.loop ChatMessage.fromJson
      (List.map ChatMessage.toJson s.chat_history) [] = some s.chat_history :=
    mapM_rt ChatMessage.fromJson ChatMessage.toJson s.chat_history
      (fun x _ => ChatMessage_rt x)
  have hblog : List.mapM.loop
      (fun p => (SavedBlogContent.fromJson p.2).map (fun b => (p.1, b)))
      (List.map (fun p => (p.1, p.2.toJson)) s.blog_content) []
      = some s.blog_content :=
    blogMap_rt s.blog_content
  have hdest : List.mapM.loop jStrAtom
      (List.map Json.str s.destinations) [] = some s.destinations :=
    strList_rt s.destinations
  simp [PlannerSession.toJson, PlannerSession.fromJson, objGet, jStrD,
    jStrListD, hdest, hchat, hblog, Itinerary_rt s.itinerary h]

theorem PlannerSession_rt_legacy (s : PlannerSession) (h : s.storable = true)
    (hdest : s.destinations = []) :
    PlannerSession.fromJson (PlannerSession.toJsonLegacy s) = some s := by
  have hchat : List.mapM.loop ChatMessage.fromJson
      (List.map ChatMessage.toJson s.chat_history) [] = some s.chat_history :=
    mapM_rt ChatMessage.fromJson ChatMessage.toJson s.chat_history
      (fun x _ => ChatMessage_rt x)
  have hblog : List.mapM.loop
      (fun p => (SavedBlogContent.fromJson p.2).map (fun b => (p.1, b)))
      (List.map (fun p => (p.1, p.2.toJson)) s.blog_content) []
      = some s.blog_content :=
    blogMap_rt s.blog_content
  simp [PlannerSession.toJsonLegacy, PlannerSession.fromJson, objGet, jStrD,
    jStrListD, hchat, hblog, Itinerary_rt s.itinerary h]
  rw [← hdest]

/-- **C9 (amended).** The original claim promises lossless round-tripping
for every persisted session; it fails for sessions containing an activity
whose category is `food`, `beach` or `nature`, because those enum values
are also alias-table keys mapping to `dining`, `relaxation` and `wildlife`,
so the normalizing validator rewrites them on load (see the
counterexample). For every storable session — real time and date
components, and no alias-shadowed activity category — saving and loading
reproduces the session exactly, and the same session's legacy document,
which lacks the newer `destinations` entry, still validates, with
`destinations` defaulted to empty rather than failing. -/
theorem session_save_load_roundtrip (s : PlannerSession)
    (h : s.storable = true) :
    load_session (save_session s) = some s
    ∧ (s.destinations = [] →
        load_session (jdump (PlannerSession.toJsonLegacy s)) = some s) := by
  constructor
  · simp only [save_session, load_session, jloads_jdump]
    exact PlannerSession_rt s h
  · intro hdest
    simp only [load_session, jloads_jdump]
    exact PlannerSession_rt_legacy s h hdest

/-- Witness for C9 at the default session (empty itinerary, no chat, no
blog content): it is storable, it round-trips, and its legacy document
loads with `destinations` defaulted. -/
theorem session_save_load_roundtrip_witness :
    (PlannerSession.storable {} = true)
    ∧ (load_session (save_session {}) = some {}
      ∧ (({} : PlannerSession).destinations = [] →
          load_session (jdump (PlannerSession.toJsonLegacy {})) = some {})) :=
  ⟨by decide, session_save_load_roundtrip {} (by decide)⟩

set_option maxRecDepth 8192 in
/-- Counterexample to C9 as frozen: a session whose single activity has
category `food` does not round-trip — `"food"` is an alias-table key
mapping to `dining`, so the loaded session's category is `dining`. -/
theorem session_save_load_roundtrip_cex :
    load_session (save_session
      { itinerary := { days := [
          { day_number := 1,
            title := "d",
            location := "l",
            summary := "s",
            activities := [
              { name := "lunch",
                description := "x",
                location := "y",
                activity_type := ActivityType.food }] }] } })
      ≠ some
      { itinerary := { days := [
          { day_number := 1,
            title := "d",
            location := "l",
            summary := "s",
            activities := [
              { name := "lunch",
                description := "x",
                location := "y",
                activity_type := ActivityType.food }] }] } } := by
  decide

end TravelPlanner

